import Mathlib

/-!
Verification of the goorm JQL engine (query compiler, executor gating,
transaction coordinator, relation loader, migration planner).

The Go sources are shallowly embedded: Go `map[string]any` payloads become
association lists over a closed `Value` type, Go `any` becomes `Value`,
fallible functions return `Except String`, and the mutable `*sql.DB` /
`*sql.Tx` handles become explicit oracles recording the calls the code
makes.  Function and field names follow the Go source (`part_000`
SQLBuilder/Migrator, `part_003` Executor, transaction code, relation.go).
-/

set_option linter.unusedVariables false

/-- Dynamic value: the closed embedding of Go `any` as it is used by the
query layer (JSON scalars, arrays and string-keyed objects). -/
inductive Value where
  | vNull
  | vBool (b : Bool)
  | vInt (n : Int)
  | vStr (s : String)
  | vArr (vs : List Value)
  | vMap (m : List (String × Value))

/-- Fueled structural equality on `Value`, embedding Go interface
equality (used for `map[any]` keys in the relation loader); the fuel
only bounds the recursion depth. -/
def vbeqGo : Nat → Value → Value → Bool
  | 0, _, _ => false
  | fuel + 1, a, b =>
    match a, b with
    | .vNull, .vNull => true
    | .vBool x, .vBool y => x == y
    | .vInt x, .vInt y => x == y
    | .vStr x, .vStr y => x == y
    | .vArr xs, .vArr ys =>
      xs.length == ys.length &&
        (xs.zip ys).all (fun p => vbeqGo fuel p.1 p.2)
    | .vMap xs, .vMap ys =>
      xs.length == ys.length &&
        (xs.zip ys).all (fun p => p.1.1 == p.2.1 && vbeqGo fuel p.1.2 p.2.2)
    | _, _ => false

mutual
/-- Structural size of a value (used only to pick a sufficient fuel). -/
def vsize : Value → Nat
  | .vNull | .vBool _ | .vInt _ | .vStr _ => 1
  | .vArr vs => 1 + vsizeList vs
  | .vMap m => 1 + vsizeEntries m

def vsizeList : List Value → Nat
  | [] => 0
  | v :: rest => vsize v + vsizeList rest

def vsizeEntries : List (String × Value) → Nat
  | [] => 0
  | (_, v) :: rest => vsize v + vsizeEntries rest
end

/-- Equality of two dynamic values (Go interface equality). -/
def Value.beq (a b : Value) : Bool := vbeqGo (vsize a + 1) a b

/-- Association-list lookup, embedding a read `m[k]` of a Go
`map[string]any` (`none` when the key is absent). -/
def lookupVal (m : List (String × Value)) (k : String) : Option Value :=
  match m with
  | [] => none
  | (k', v) :: rest => if k' = k then some v else lookupVal rest k

/-- Whether a Go string contains a character (`strings.Contains` with a
one-character needle, as used for the `.`-qualified field check). -/
def strContainsChar (s : String) (c : Char) : Bool := s.toList.contains c

/-- ASCII uppercase of one character (`strings.ToUpper` acts per rune;
the identifiers and function names here are ASCII). -/
def charUpper : Char → Char
  | 'a' => 'A'
  | 'b' => 'B'
  | 'c' => 'C'
  | 'd' => 'D'
  | 'e' => 'E'
  | 'f' => 'F'
  | 'g' => 'G'
  | 'h' => 'H'
  | 'i' => 'I'
  | 'j' => 'J'
  | 'k' => 'K'
  | 'l' => 'L'
  | 'm' => 'M'
  | 'n' => 'N'
  | 'o' => 'O'
  | 'p' => 'P'
  | 'q' => 'Q'
  | 'r' => 'R'
  | 's' => 'S'
  | 't' => 'T'
  | 'u' => 'U'
  | 'v' => 'V'
  | 'w' => 'W'
  | 'x' => 'X'
  | 'y' => 'Y'
  | 'z' => 'Z'
  | c => c

/-- Go `strings.ToUpper` (ASCII). -/
def strToUpper (s : String) : String := ⟨s.toList.map charUpper⟩

/-- Go `strings.Join`. -/
def sjoin (sep : String) : List String → String
  | [] => ""
  | [x] => x
  | x :: rest => x ++ sep ++ sjoin sep rest

/-- Concatenation of string fragments (a Go `strings.Builder` loop). -/
def sconcat : List String → String
  | [] => ""
  | x :: rest => x ++ sconcat rest

/-- ORDER BY entry (Go `Order`). -/
structure OrderBy where
  field : String
  desc : Bool

/-- HAVING entry (Go `HavingCondition`); operators are the JQL operator
strings. -/
structure HavingCondition where
  fn : String
  field : String
  op : String
  value : Value

/-- JOIN entry (Go `JoinClause`); `onConds` embeds the `On` map as an
association list. -/
structure JoinClause where
  table : String
  joinType : String
  onConds : List (String × String)

/-- SELECT-list entry: Go `Select []any` holds either a plain column name
(string) or an aggregate descriptor (`map[string]any` with fn/field/as).
Other dynamic types are skipped by the Go type switch and are omitted
from the model. -/
inductive SelItem where
  | str (s : String)
  | agg (m : List (String × Value))

mutual
/-- JQL query (Go `Query`): fields in source order; `Data`/`DataBatch`
maps become association lists, `Operations` are the nested transaction
steps, `asAlias` is the Go `As` tag. -/
inductive Query where
  | mk (table : String) (action : String)
       (whereC : List Condition)
       (data : List (String × Value))
       (dataBatch : List (List (String × Value)))
       (sel : List SelItem)
       (orderBy : List OrderBy)
       (groupBy : List String)
       (having : List HavingCondition)
       (limit : Int) (offset : Int)
       (join : List JoinClause)
       (operations : List Query)
       (asAlias : String)

/-- JQL condition (Go `Condition`): field, operator string, value,
`Or` flag, raw column reference, optional subquery, nested AND group,
nested OR group. -/
inductive Condition where
  | mk (field : String) (op : String) (value : Value) (orFlag : Bool)
       (ref : String) (subquery : Option Query)
       (andG : List Condition) (orGroup : List Condition)
end

def Query.table : Query → String | .mk t _ _ _ _ _ _ _ _ _ _ _ _ _ => t
def Query.action : Query → String | .mk _ a _ _ _ _ _ _ _ _ _ _ _ _ => a
def Query.whereC : Query → List Condition | .mk _ _ w _ _ _ _ _ _ _ _ _ _ _ => w
def Query.data : Query → List (String × Value) | .mk _ _ _ d _ _ _ _ _ _ _ _ _ _ => d
def Query.dataBatch : Query → List (List (String × Value)) | .mk _ _ _ _ b _ _ _ _ _ _ _ _ _ => b
def Query.sel : Query → List SelItem | .mk _ _ _ _ _ s _ _ _ _ _ _ _ _ => s
def Query.orderBy : Query → List OrderBy | .mk _ _ _ _ _ _ o _ _ _ _ _ _ _ => o
def Query.groupBy : Query → List String | .mk _ _ _ _ _ _ _ g _ _ _ _ _ _ => g
def Query.having : Query → List HavingCondition | .mk _ _ _ _ _ _ _ _ h _ _ _ _ _ => h
def Query.limit : Query → Int | .mk _ _ _ _ _ _ _ _ _ l _ _ _ _ => l
def Query.offset : Query → Int | .mk _ _ _ _ _ _ _ _ _ _ o _ _ _ => o
def Query.join : Query → List JoinClause | .mk _ _ _ _ _ _ _ _ _ _ _ j _ _ => j
def Query.operations : Query → List Query | .mk _ _ _ _ _ _ _ _ _ _ _ _ ops _ => ops
def Query.asAlias : Query → String | .mk _ _ _ _ _ _ _ _ _ _ _ _ _ a => a

def Condition.field : Condition → String | .mk f _ _ _ _ _ _ _ => f
def Condition.op : Condition → String | .mk _ o _ _ _ _ _ _ => o
def Condition.value : Condition → Value | .mk _ _ v _ _ _ _ _ => v
def Condition.orFlag : Condition → Bool | .mk _ _ _ o _ _ _ _ => o
def Condition.ref : Condition → String | .mk _ _ _ _ r _ _ _ => r
def Condition.subquery : Condition → Option Query | .mk _ _ _ _ _ s _ _ => s
def Condition.andG : Condition → List Condition | .mk _ _ _ _ _ _ a _ => a
def Condition.orGroup : Condition → List Condition | .mk _ _ _ _ _ _ _ o => o

mutual
/-- Structural size of a query (used only to pick a sufficient builder
fuel; the generous constants dominate the builder's recursion depth). -/
def qsize : Query → Nat
  | .mk _ _ ws _ _ _ _ _ _ _ _ _ _ _ => 2 + csizeList ws

def csizeList : List Condition → Nat
  | [] => 2
  | c :: rest => 2 + csize c + csizeList rest

def csize : Condition → Nat
  | .mk _ _ _ _ _ sub andG orG =>
    2 + (match sub with | some q => qsize q | none => 0) +
      csizeList andG + csizeList orG
end

/-- Decimal digit character. -/
def digitChar : Nat → Char
  | 0 => '0' | 1 => '1' | 2 => '2' | 3 => '3' | 4 => '4'
  | 5 => '5' | 6 => '6' | 7 => '7' | 8 => '8' | _ => '9'

/-- Fueled digit loop; the fuel only bounds the recursion depth and
`natDigits` always supplies enough. -/
def natDigitsGo : Nat → Nat → List Char
  | 0, _ => []
  | fuel + 1, n =>
    if n < 10 then [digitChar n]
    else natDigitsGo fuel (n / 10) ++ [digitChar (n % 10)]

/-- Decimal digits of a natural number, most significant first
(embedding of `fmt.Sprintf "%d"` on a non-negative int). -/
def natDigits (n : Nat) : List Char := natDigitsGo (n + 1) n

def natToStr (n : Nat) : String := ⟨natDigits n⟩

/-- Decimal rendering of a Go int (`fmt.Sprintf "%d"`). -/
def intToStr (n : Int) : String :=
  if n < 0 then "-" ++ natToStr n.natAbs else natToStr n.toNat

/-- Dialect contract: the three members the SQL builder consults
(`Quote`, `Placeholder`, `SupportsReturning`). -/
structure Dialect where
  quote : String → String
  placeholder : Nat → String
  supportsReturning : Bool

/-- PostgreSQL dialect: double-quote quoting, `$N` placeholders,
RETURNING supported. -/
def PostgresDialect : Dialect :=
  { quote := fun s => "\"" ++ s ++ "\"",
    placeholder := fun n => "$" ++ natToStr n,
    supportsReturning := true }

/-- MySQL dialect: backtick quoting, `?` placeholders, no RETURNING. -/
def MySQLDialect : Dialect :=
  { quote := fun s => "`" ++ s ++ "`",
    placeholder := fun _ => "?",
    supportsReturning := false }

/-- Builder state (Go `SQLBuilder.params` / `SQLBuilder.paramN`). -/
structure BState where
  params : List Value
  paramN : Nat

/-- Result of a successful build (Go `BuildResult`). -/
structure BuildResult where
  sql : String
  params : List Value

/-- Go `addParam`: bump the counter, append the value, return the
dialect placeholder for the new counter value. -/
def addParam (d : Dialect) (v : Value) (st : BState) : String × BState :=
  let n := st.paramN + 1
  (d.placeholder n, ⟨st.params ++ [v], n⟩)

/-- addParam mapped over a list (the per-element loops of IN and
INSERT). -/
def addParams (d : Dialect) : List Value → BState → List String × BState
  | [], st => ([], st)
  | v :: vs, st =>
    let (p, st1) := addParam d v st
    let (ps, st2) := addParams d vs st1
    (p :: ps, st2)

/-- Go `opToSQL`: operator string to SQL; unknown operators pass
through unchanged. -/
def opToSQL (op : String) : String :=
  match op with
  | "=" => "="
  | "!=" => "!="
  | ">" => ">"
  | ">=" => ">="
  | "<" => "<"
  | "<=" => "<="
  | "in" => "IN"
  | "not_in" => "NOT IN"
  | "like" => "LIKE"
  | "not_like" => "NOT LIKE"
  | _ => op

/-- Read a string entry of an aggregate descriptor
(Go `v["fn"].(string)` with "" on miss/mismatch). -/
def lookupStr (m : List (String × Value)) (k : String) : String :=
  match lookupVal m k with
  | some (.vStr s) => s
  | _ => ""

/-- Go `buildSelectColumns` (pure: contributes no parameters). -/
def buildSelectColumns (d : Dialect) (sel : List SelItem) : String :=
  let parts := sel.map (fun item =>
    match item with
    | .str v =>
      if v = "*" || strContainsChar v '.' then v else d.quote v
    | .agg m =>
      let fn := lookupStr m "fn"
      let field := lookupStr m "field"
      let asName := lookupStr m "as"
      let expr :=
        if field = "" || field = "*" then strToUpper fn ++ "(*)"
        else strToUpper fn ++ "(" ++ d.quote field ++ ")"
      if asName ≠ "" then expr ++ " AS " ++ d.quote asName else expr)
  if parts.isEmpty then "*" else sjoin ", " parts

/-- Go `buildJoins` (never fails, contributes no parameters). -/
def buildJoins (d : Dialect) (joins : List JoinClause) : String :=
  sconcat (joins.map (fun j =>
    let jt := if strToUpper j.joinType = "" then "INNER" else strToUpper j.joinType
    let onParts := j.onConds.map (fun lr => lr.1 ++ " = " ++ lr.2)
    " " ++ jt ++ " JOIN " ++ d.quote j.table ++ " ON " ++
      sjoin " AND " onParts))

/-- Go `buildGroupBy`. -/
def buildGroupBy (d : Dialect) (cols : List String) : String :=
  sjoin ", "
    (cols.map (fun col => if strContainsChar col '.' then col else d.quote col))

/-- Go `buildOrderBy`. -/
def buildOrderBy (d : Dialect) (os : List OrderBy) : String :=
  sjoin ", " (os.map (fun o =>
    let field := if strContainsChar o.field '.' then o.field else d.quote o.field
    if o.desc then field ++ " DESC" else field ++ " ASC"))

/-- Parts loop of Go `buildHaving` (binds one parameter per entry). -/
def buildHavingParts (d : Dialect) : List HavingCondition → BState →
    List String × BState
  | [], st => ([], st)
  | h :: rest, st =>
    let expr :=
      if h.field = "" || h.field = "*" then strToUpper h.fn ++ "(*)"
      else strToUpper h.fn ++ "(" ++ d.quote h.field ++ ")"
    let (p, st1) := addParam d h.value st
    let (ps, st2) := buildHavingParts d rest st1
    ((expr ++ " " ++ opToSQL h.op ++ " " ++ p) :: ps, st2)

/-- Go `buildHaving`. -/
def buildHavingM (d : Dialect) (hs : List HavingCondition) (st : BState) :
    String × BState :=
  let (ps, st') := buildHavingParts d hs st
  (sjoin " AND " ps, st')

mutual
/-- Go `buildSelect`: SELECT, FROM, JOIN, WHERE, GROUP BY, HAVING,
ORDER BY, LIMIT, OFFSET, each clause skipped when its input is empty.
The `fuel` argument only bounds the recursion depth of the
builder's mutual recursion (the Go recursion is structural); `Build`
always supplies enough fuel. -/
def buildSelectQ (d : Dialect) : Nat → Query → BState →
    Except String (String × BState)
  | 0, _, _ => Except.error "recursion depth exceeded"
  | fuel + 1, .mk table _ whereC _ _ sel orderBy groupBy having limit offset join _ _, st => do
    let s0 := "SELECT " ++
      (if 0 < sel.length then buildSelectColumns d sel else "*")
    let s1 := s0 ++ " FROM " ++ d.quote table
    let s2 := if 0 < join.length then s1 ++ buildJoins d join else s1
    let (s3, st3) ←
      if 0 < whereC.length then do
        let (w, st') ← buildConditionsM d fuel whereC st
        Except.ok (s2 ++ " WHERE " ++ w, st')
      else Except.ok (s2, st)
    let s4 := if 0 < groupBy.length then
        s3 ++ " GROUP BY " ++ buildGroupBy d groupBy else s3
    let (s5, st5) :=
      if 0 < having.length then
        let (h, st') := buildHavingM d having st3
        (s4 ++ " HAVING " ++ h, st')
      else (s4, st3)
    let s6 := if 0 < orderBy.length then
        s5 ++ " ORDER BY " ++ buildOrderBy d orderBy else s5
    let s7 := if 0 < limit then s6 ++ " LIMIT " ++ intToStr limit else s6
    let s8 := if 0 < offset then s7 ++ " OFFSET " ++ intToStr offset else s7
    Except.ok (s8, st5)

/-- Go `buildConditions`: first condition unprefixed, the rest prefixed
by the own `Or` flag, joined with a single space. -/
def buildConditionsM (d : Dialect) : Nat → List Condition → BState →
    Except String (String × BState)
  | 0, _, _ => Except.error "recursion depth exceeded"
  | _ + 1, [], st => Except.ok ("", st)
  | fuel + 1, c :: rest, st => do
    let (s0, st1) ← buildConditionM d fuel c st
    let (parts, st2) ← buildCondTail d fuel rest st1
    Except.ok (sjoin " " (s0 :: parts), st2)

/-- Tail of the Go `buildConditions` loop (`i > 0`): each part receives
an `OR `/`AND ` prefix from its own flag. -/
def buildCondTail (d : Dialect) : Nat → List Condition → BState →
    Except String (List String × BState)
  | 0, _, _ => Except.error "recursion depth exceeded"
  | _ + 1, [], st => Except.ok ([], st)
  | fuel + 1, c :: rest, st => do
    let (s, st1) ← buildConditionM d fuel c st
    let part := if c.orFlag then "OR " ++ s else "AND " ++ s
    let (ps, st2) ← buildCondTail d fuel rest st1
    Except.ok (part :: ps, st2)

/-- The OR-group loop of Go `buildCondition`. -/
def buildOrGroupM (d : Dialect) : Nat → List Condition → BState →
    Except String (List String × BState)
  | 0, _, _ => Except.error "recursion depth exceeded"
  | _ + 1, [], st => Except.ok ([], st)
  | fuel + 1, c :: rest, st => do
    let (s, st1) ← buildConditionM d fuel c st
    let (ss, st2) ← buildOrGroupM d fuel rest st1
    Except.ok (s :: ss, st2)

/-- Go `buildCondition`: nested AND group, nested OR group, subquery
(sub-builder seeded with the current counter, parameters merged back),
raw column reference, then the operator switch. -/
def buildConditionM (d : Dialect) : Nat → Condition → BState →
    Except String (String × BState)
  | 0, _, _ => Except.error "recursion depth exceeded"
  | fuel + 1, .mk field op value _ ref subq andG orGroup, st =>
    if 0 < andG.length then do
      let (s, st') ← buildConditionsM d fuel andG st
      Except.ok ("(" ++ s ++ ")", st')
    else if 0 < orGroup.length then do
      let (parts, st') ← buildOrGroupM d fuel orGroup st
      Except.ok ("(" ++ sjoin " OR " parts ++ ")", st')
    else
      match subq with
      | some sq => do
        let (subSQL, subSt) ← buildSelectQ d fuel sq ⟨[], st.paramN⟩
        Except.ok (d.quote field ++ " " ++ opToSQL op ++ " (" ++ subSQL ++ ")",
                   ⟨st.params ++ subSt.params, subSt.paramN⟩)
      | none =>
        if ref ≠ "" then
          Except.ok (d.quote field ++ " " ++ opToSQL op ++ " " ++ ref, st)
        else
          let f := if strContainsChar field '.' then field else d.quote field
          match op with
          | "null" => Except.ok (f ++ " IS NULL", st)
          | "not_null" => Except.ok (f ++ " IS NOT NULL", st)
          | "in" | "not_in" =>
            match value with
            | .vArr values =>
              let (phs, st') := addParams d values st
              let opStr := if op = "not_in" then "NOT IN" else "IN"
              Except.ok (f ++ " " ++ opStr ++ " (" ++
                sjoin ", " phs ++ ")", st')
            | _ => Except.error "IN operator requires array value"
          | "between" =>
            match value with
            | .vArr [v1, v2] =>
              let (p1, st1) := addParam d v1 st
              let (p2, st2) := addParam d v2 st1
              Except.ok (f ++ " BETWEEN " ++ p1 ++ " AND " ++ p2, st2)
            | _ => Except.error "BETWEEN operator requires array of two values"
          | "like" | "not_like" =>
            let opStr := if op = "not_like" then "NOT LIKE" else "LIKE"
            let (p, st') := addParam d value st
            Except.ok (f ++ " " ++ opStr ++ " " ++ p, st')
          | "exists" => Except.error "EXISTS operator requires subquery"
          | _ =>
            let (p, st') := addParam d value st
            Except.ok (f ++ " " ++ opToSQL op ++ " " ++ p, st')
end

/-- Go `buildWhere`. -/
def buildWhere (d : Dialect) (fuel : Nat) (q : Query) (st : BState) :
    Except String (String × BState) :=
  buildConditionsM d fuel q.whereC st

/-- Go `buildInsert`. -/
def buildInsert (d : Dialect) (q : Query) (st : BState) :
    Except String (String × BState) :=
  if q.data.length = 0 then Except.error "no data provided for insert"
  else
    let columns := q.data.map (fun e => d.quote e.1)
    let (placeholders, st') := addParams d (q.data.map (·.2)) st
    let sql := "INSERT INTO " ++ d.quote q.table ++ " (" ++
      sjoin ", " columns ++ ") VALUES (" ++
      sjoin ", " placeholders ++ ")"
    Except.ok ((if d.supportsReturning then sql ++ " RETURNING id" else sql), st')

/-- Row loop of Go `buildInsertBatch`: one placeholder per first-record
column, reading the record's entry (Go map miss yields `nil`). -/
def batchRows (d : Dialect) (columnNames : List String) :
    List (List (String × Value)) → BState → List String × BState
  | [], st => ([], st)
  | record :: rest, st =>
    let (phs, st1) := addParams d
      (columnNames.map (fun col => (lookupVal record col).getD Value.vNull)) st
    let (rows, st2) := batchRows d columnNames rest st1
    (("(" ++ sjoin ", " phs ++ ")") :: rows, st2)

/-- Go `buildInsertBatch`. -/
def buildInsertBatch (d : Dialect) (q : Query) (st : BState) :
    Except String (String × BState) :=
  match q.dataBatch with
  | [] => Except.error "no data provided for batch insert"
  | firstRecord :: _ =>
    let columnNames := firstRecord.map (·.1)
    let columns := columnNames.map d.quote
    let (valueRows, st') := batchRows d columnNames q.dataBatch st
    let sql := "INSERT INTO " ++ d.quote q.table ++ " (" ++
      sjoin ", " columns ++ ") VALUES " ++
      sjoin ", " valueRows
    Except.ok ((if d.supportsReturning then sql ++ " RETURNING id" else sql), st')

/-- SET loop of Go `buildUpdate`: `$incr`/`$decr` single-key maps become
self-referential arithmetic, anything else a plain assignment. -/
def buildSetParts (d : Dialect) : List (String × Value) → BState →
    List String × BState
  | [], st => ([], st)
  | (col, val) :: rest, st =>
    let step : String × BState :=
      match val with
      | .vMap m =>
        match lookupVal m "$incr" with
        | some incr =>
          let (p, st1) := addParam d incr st
          (d.quote col ++ " = " ++ d.quote col ++ " + " ++ p, st1)
        | none =>
          match lookupVal m "$decr" with
          | some decr =>
            let (p, st1) := addParam d decr st
            (d.quote col ++ " = " ++ d.quote col ++ " - " ++ p, st1)
          | none =>
            let (p, st1) := addParam d (Value.vMap m) st
            (d.quote col ++ " = " ++ p, st1)
      | _ =>
        let (p, st1) := addParam d val st
        (d.quote col ++ " = " ++ p, st1)
    let (ps, st2) := buildSetParts d rest step.2
    (step.1 :: ps, st2)

/-- Go `buildUpdate`. -/
def buildUpdate (d : Dialect) (fuel : Nat) (q : Query) (st : BState) :
    Except String (String × BState) :=
  if q.data.length = 0 then Except.error "no data provided for update"
  else do
    let (setParts, st1) := buildSetParts d q.data st
    let s0 := "UPDATE " ++ d.quote q.table ++ " SET " ++
      sjoin ", " setParts
    if 0 < q.whereC.length then do
      let (w, st2) ← buildWhere d fuel q st1
      Except.ok (s0 ++ " WHERE " ++ w, st2)
    else Except.ok (s0, st1)

/-- Go `buildDelete`. -/
def buildDelete (d : Dialect) (fuel : Nat) (q : Query) (st : BState) :
    Except String (String × BState) := do
  let s0 := "DELETE FROM " ++ d.quote q.table
  if 0 < q.whereC.length then do
    let (w, st1) ← buildWhere d fuel q st
    Except.ok (s0 ++ " WHERE " ++ w, st1)
  else Except.ok (s0, st)

/-- Go `buildCount`. -/
def buildCount (d : Dialect) (fuel : Nat) (q : Query) (st : BState) :
    Except String (String × BState) := do
  let s0 := "SELECT COUNT(*) FROM " ++ d.quote q.table
  if 0 < q.whereC.length then do
    let (w, st1) ← buildWhere d fuel q st
    Except.ok (s0 ++ " WHERE " ++ w, st1)
  else Except.ok (s0, st)

/-- Go `buildAggregate`: like select but with mandatory column list and
no LIMIT/OFFSET. -/
def buildAggregate (d : Dialect) (fuel : Nat) (q : Query) (st : BState) :
    Except String (String × BState) := do
  let s0 := "SELECT " ++ buildSelectColumns d q.sel ++ " FROM " ++
    d.quote q.table
  let s1 := if 0 < q.join.length then s0 ++ buildJoins d q.join else s0
  let (s2, st2) ←
    if 0 < q.whereC.length then do
      let (w, st') ← buildWhere d fuel q st
      Except.ok (s1 ++ " WHERE " ++ w, st')
    else Except.ok (s1, st)
  let s3 := if 0 < q.groupBy.length then
      s2 ++ " GROUP BY " ++ buildGroupBy d q.groupBy else s2
  let (s4, st4) :=
    if 0 < q.having.length then
      let (h, st') := buildHavingM d q.having st2
      (s3 ++ " HAVING " ++ h, st')
    else (s3, st2)
  let s5 := if 0 < q.orderBy.length then
      s4 ++ " ORDER BY " ++ buildOrderBy d q.orderBy else s4
  Except.ok (s5, st4)

/-- Go `Build`: dispatch on the action over the seven statement builders;
anything else is a build error and no statement is returned.  The fuel
`qsize q + 1` strictly dominates the builder's recursion depth, which
descends into a fresh constructor of `q` at every step. -/
def Build (d : Dialect) (q : Query) : Except String BuildResult := do
  let st0 : BState := ⟨[], 0⟩
  let fuel := qsize q + 1
  let (sql, st) ←
    match q.action with
    | "find" => buildSelectQ d fuel q st0
    | "create" => buildInsert d q st0
    | "create_batch" => buildInsertBatch d q st0
    | "update" => buildUpdate d fuel q st0
    | "delete" => buildDelete d fuel q st0
    | "count" => buildCount d fuel q st0
    | "aggregate" => buildAggregate d fuel q st0
    | other => Except.error ("unsupported action for SQL building: " ++ other)
  Except.ok ⟨sql, st.params⟩

/-- Substring test on character lists (Go `strings.Contains`). -/
def hasSubstrL (s sub : List Char) : Bool :=
  if sub.isPrefixOf s then true
  else
    match s with
    | [] => false
    | _ :: t => hasSubstrL t sub

/-- Go `strings.Contains`. -/
def strContains (s sub : String) : Bool := hasSubstrL s.toList sub.toList

/-- Go `strings.HasPrefix`. -/
def strHasPrefix (s pre : String) : Bool := pre.toList.isPrefixOf s.toList

/-- The `equivalences` table of Go `typesCompatible`, keyed exactly as in
the source. -/
def equivalences : List (String × List String) :=
  [("INTEGER", ["INT", "INT4", "SERIAL"]),
   ("BIGINT", ["INT8", "BIGSERIAL"]),
   ("VARCHAR", ["CHARACTER VARYING", "TEXT"]),
   ("BOOLEAN", ["BOOL"]),
   ("TIMESTAMP", ["TIMESTAMP WITH TIME ZONE", "TIMESTAMPTZ"])]

/-- Go `typesCompatible`: uppercase both sides; an equivalence entry
fires when either side contains its key and either side contains one of
its values; otherwise fall back to a mutual prefix test. -/
def typesCompatible (dbType modelType : String) : Bool :=
  let dbT := strToUpper dbType
  let modelT := strToUpper modelType
  (equivalences.any (fun kv =>
      (strContains dbT kv.1 || strContains modelT kv.1) &&
      kv.2.any (fun v => strContains dbT v || strContains modelT v)))
  || strHasPrefix dbT modelT || strHasPrefix modelT dbT

/-- Go `isSystemTable`. -/
def isSystemTable (name : String) : Bool :=
  ["_backup_", "pg_", "sql_", "_goorm_"].any (fun p => strHasPrefix name p)

/-- Field metadata (Go `FieldMeta`, the members the migrator reads). -/
structure FieldMeta where
  columnName : String
  sqlType : String
  goType : String
  tags : List (String × String)
  nullable : Bool
  primaryKey : Bool
  autoIncrement : Bool
  unique : Bool
  defaultVal : String

/-- Model metadata (Go `ModelMeta`, the members the migrator reads). -/
structure ModelMeta where
  tableName : String
  fields : List FieldMeta

/-- Live column (Go `ColumnInfo`). -/
structure ColumnInfo where
  name : String
  typ : String
  nullable : Bool
  defaultVal : Option String

/-- Live table (Go `DBTable`); the Go column map is embedded as the
list of its entries. -/
structure DBTable where
  name : String
  columns : List ColumnInfo

/-- One schema change (Go `MigrationChange`). -/
structure MigrationChange where
  action : String
  table : String
  column : String
  oldType : String
  newType : String
  sql : String
  backupTable : String
  destructive : Bool

/-- Computed migration plan (Go `MigrationPlan`; the timestamp is
dropped, backups start empty as in `Plan`). -/
structure MigrationPlan where
  changes : List MigrationChange

/-- String association-list lookup (Go `map[string]string` read). -/
def slookup (m : List (String × String)) (k : String) : Option String :=
  match m with
  | [] => none
  | (k', v) :: rest => if k' = k then some v else slookup rest k

/-- Fueled Go `PostgresDialect.GoTypeToSQL`: a `type` tag wins, then a
switch over Go scalar types; a leading `*` is stripped recursively (the
fuel only bounds that star-stripping recursion and `pgGoTypeToSQL`
always supplies enough). -/
def pgGoTypeToSQLGo : Nat → String → List (String × String) → String
  | 0, _, _ => "TEXT"
  | fuel + 1, goType, tags =>
    match slookup tags "type" with
    | some sqlType => sqlType
    | none =>
      match goType with
      | "int" | "int32" => "INTEGER"
      | "int8" => "SMALLINT"
      | "int16" => "SMALLINT"
      | "int64" => "BIGINT"
      | "uint" | "uint32" => "INTEGER"
      | "uint8" => "SMALLINT"
      | "uint16" => "SMALLINT"
      | "uint64" => "BIGINT"
      | "float32" => "REAL"
      | "float64" => "DOUBLE PRECISION"
      | "bool" => "BOOLEAN"
      | "string" =>
        match slookup tags "size" with
        | some size => "VARCHAR(" ++ size ++ ")"
        | none => "VARCHAR(255)"
      | "[]byte" => "BYTEA"
      | "time.Time" => "TIMESTAMP WITH TIME ZONE"
      | "*time.Time" => "TIMESTAMP WITH TIME ZONE"
      | other =>
        if 1 < other.length && other.toList.head? = some '*' then
          pgGoTypeToSQLGo fuel (String.mk other.toList.tail) tags
        else "TEXT"

/-- Go `PostgresDialect.GoTypeToSQL`. -/
def pgGoTypeToSQL (goType : String) (tags : List (String × String)) : String :=
  pgGoTypeToSQLGo (goType.length + 1) goType tags

/-- Migrator configuration: the dialect pieces and config flags that
`Plan` consults (`db.config.Migration`, backup naming timestamp). -/
structure MigratorEnv where
  dialectName : String
  quote : String → String
  goTypeToSQL : String → List (String × String) → String
  autoIncrementClause : String
  aggressive : Bool
  nowStamp : String

/-- The Postgres migrator environment. -/
def pgMigratorEnv (aggressive : Bool) (nowStamp : String) : MigratorEnv :=
  { dialectName := "postgres", quote := PostgresDialect.quote,
    goTypeToSQL := pgGoTypeToSQL, autoIncrementClause := "BIGSERIAL",
    aggressive := aggressive, nowStamp := nowStamp }

/-- Go `generateColumnDef`. -/
def generateColumnDef (m : MigratorEnv) (field : FieldMeta) : String :=
  let sqlType :=
    if field.sqlType = "" then m.goTypeToSQL field.goType field.tags
    else field.sqlType
  let parts : List String :=
    if field.primaryKey && field.autoIncrement then
      match m.dialectName with
      | "sqlite" | "sqlite3" =>
        [m.quote field.columnName, "INTEGER PRIMARY KEY AUTOINCREMENT"]
      | _ => [m.quote field.columnName, m.autoIncrementClause, "PRIMARY KEY"]
    else
      [m.quote field.columnName, sqlType] ++
      (if field.primaryKey then ["PRIMARY KEY"] else []) ++
      (if !field.nullable && !field.primaryKey then ["NOT NULL"] else []) ++
      (if field.unique then ["UNIQUE"] else []) ++
      (if field.defaultVal ≠ "" then ["DEFAULT " ++ field.defaultVal] else [])
  sjoin " " parts

/-- Go `generateCreateTableSQL`. -/
def generateCreateTableSQL (m : MigratorEnv) (meta : ModelMeta) : String :=
  "CREATE TABLE " ++ m.quote meta.tableName ++ " (\n" ++
    sjoin ",\n"
      (meta.fields.map (fun f => "  " ++ generateColumnDef m f)) ++
    "\n)"

/-- Go `generateAddColumnSQL`. -/
def generateAddColumnSQL (m : MigratorEnv) (table : String)
    (field : FieldMeta) : String :=
  "ALTER TABLE " ++ m.quote table ++ " ADD COLUMN " ++ generateColumnDef m field

/-- Go `generateModifyColumnSQL`. -/
def generateModifyColumnSQL (m : MigratorEnv) (table : String)
    (field : FieldMeta) : String :=
  let sqlType :=
    if field.sqlType = "" then m.goTypeToSQL field.goType field.tags
    else field.sqlType
  match m.dialectName with
  | "mysql" =>
    "ALTER TABLE " ++ m.quote table ++ " MODIFY COLUMN " ++
      generateColumnDef m field
  | _ =>
    "ALTER TABLE " ++ m.quote table ++ " ALTER COLUMN " ++
      m.quote field.columnName ++ " TYPE " ++ sqlType

/-- Go `generateDropColumnSQL`. -/
def generateDropColumnSQL (m : MigratorEnv) (table column : String) : String :=
  "ALTER TABLE " ++ m.quote table ++ " DROP COLUMN " ++ m.quote column

/-- Go `generateBackupName` (the timestamp is the environment's). -/
def generateBackupName (m : MigratorEnv) (table column : String) : String :=
  if column ≠ "" then "_backup_" ++ table ++ "_" ++ column ++ "_" ++ m.nowStamp
  else "_backup_" ++ table ++ "_" ++ m.nowStamp

/-- Lookup of a live table by name (a read of Go's `dbTableMap`). -/
def dbLookup (dbTables : List DBTable) (name : String) :
    Option (List ColumnInfo) :=
  match dbTables.find? (fun t => t.name == name) with
  | some t => some t.columns
  | none => none

/-- Lookup of a live column by name (a read of Go's `dbCols` map). -/
def colLookup (cols : List ColumnInfo) (name : String) : Option ColumnInfo :=
  cols.find? (fun c => c.name == name)

/-- CREATE-TABLE pass of Go `Plan`: one change per declared table absent
from the live schema. -/
def planCreates (m : MigratorEnv) (dbTables : List DBTable)
    (models : List ModelMeta) : List MigrationChange :=
  models.filterMap (fun meta =>
    if (dbLookup dbTables meta.tableName).isSome then none
    else some
      { action := "CREATE_TABLE", table := meta.tableName, column := "",
        oldType := "", newType := "", sql := generateCreateTableSQL m meta,
        backupTable := "", destructive := false })

/-- Add/modify pass of Go `Plan`: per declared field, ADD_COLUMN when the
live column is absent, destructive MODIFY_COLUMN when present with an
incompatible type. -/
def planAddModify (m : MigratorEnv) (dbTables : List DBTable)
    (models : List ModelMeta) : List MigrationChange :=
  models.flatMap (fun meta =>
    match dbLookup dbTables meta.tableName with
    | none => []
    | some dbCols =>
      meta.fields.filterMap (fun field =>
        match colLookup dbCols field.columnName with
        | none => some
            { action := "ADD_COLUMN", table := meta.tableName,
              column := field.columnName, oldType := "",
              newType := field.sqlType,
              sql := generateAddColumnSQL m meta.tableName field,
              backupTable := "", destructive := false }
        | some dbCol =>
          let newType := m.goTypeToSQL field.goType field.tags
          if typesCompatible dbCol.typ newType then none
          else some
            { action := "MODIFY_COLUMN", table := meta.tableName,
              column := field.columnName, oldType := dbCol.typ,
              newType := newType,
              sql := generateModifyColumnSQL m meta.tableName field,
              backupTable := "", destructive := true }))

/-- Aggressive DROP-TABLE pass of Go `Plan`. -/
def planDropTables (m : MigratorEnv) (dbTables : List DBTable)
    (models : List ModelMeta) : List MigrationChange :=
  dbTables.filterMap (fun t =>
    if (models.find? (fun meta => meta.tableName == t.name)).isSome then none
    else if isSystemTable t.name then none
    else some
      { action := "DROP_TABLE", table := t.name, column := "",
        oldType := "", newType := "",
        sql := "DROP TABLE " ++ m.quote t.name,
        backupTable := "", destructive := true })

/-- Aggressive DROP-COLUMN pass of Go `Plan`. -/
def planDropColumns (m : MigratorEnv) (dbTables : List DBTable)
    (models : List ModelMeta) : List MigrationChange :=
  models.flatMap (fun meta =>
    match dbLookup dbTables meta.tableName with
    | none => []
    | some dbCols =>
      dbCols.filterMap (fun col =>
        if meta.fields.any (fun f => f.columnName == col.name) then none
        else some
          { action := "DROP_COLUMN", table := meta.tableName,
            column := col.name, oldType := "", newType := "",
            sql := generateDropColumnSQL m meta.tableName col.name,
            backupTable := generateBackupName m meta.tableName col.name,
            destructive := true }))

/-- Go `Migrator.Plan`: pure diff of the introspected live schema
(`dbTables`) against the registered models; aggressive mode appends the
destructive drop passes. -/
def Plan (m : MigratorEnv) (dbTables : List DBTable)
    (models : List ModelMeta) : MigrationPlan :=
  { changes :=
      planCreates m dbTables models ++
      planAddModify m dbTables models ++
      (if m.aggressive then
        planDropTables m dbTables models ++ planDropColumns m dbTables models
      else []) }

/-- Two consecutive `Plan` runs with no intervening change to the live
schema or the registered models. -/
def planTwice (m : MigratorEnv) (dbTables : List DBTable)
    (models : List ModelMeta) : MigrationPlan × MigrationPlan :=
  (Plan m dbTables models, Plan m dbTables models)

/-- Structured error details (Go `ResultError.Details`, a heterogeneous
map holding either the offending SQL+params or the failing transaction
step). -/
inductive ErrDetails where
  | sqlParams (sql : String) (params : List Value)
  | opIndex (index : Nat) (operation : Query)

/-- Go `ResultError`. -/
structure ResultError where
  code : String
  message : String
  suggestion : String
  details : Option ErrDetails

/-- Go `ResultMeta` (the members used by the embedded code paths). -/
structure ResultMeta where
  sql : String
  params : List Value

/-- Go `Result` (recursive through the transaction sub-results). -/
inductive Result where
  | mk (success : Bool)
       (data : List (List (String × Value)))
       (count : Int) (affected : Int)
       (id : Nat) (ids : List Nat)
       (status : String) (confirmToken : String)
       (error : Option ResultError)
       (results : List Result)
       (transactionID : String)
       (meta : Option ResultMeta)

def Result.success : Result → Bool | .mk s _ _ _ _ _ _ _ _ _ _ _ => s
def Result.rdata : Result → List (List (String × Value)) | .mk _ d _ _ _ _ _ _ _ _ _ _ => d
def Result.count : Result → Int | .mk _ _ c _ _ _ _ _ _ _ _ _ => c
def Result.affected : Result → Int | .mk _ _ _ a _ _ _ _ _ _ _ _ => a
def Result.id : Result → Nat | .mk _ _ _ _ i _ _ _ _ _ _ _ => i
def Result.ids : Result → List Nat | .mk _ _ _ _ _ i _ _ _ _ _ _ => i
def Result.status : Result → String | .mk _ _ _ _ _ _ s _ _ _ _ _ => s
def Result.confirmToken : Result → String | .mk _ _ _ _ _ _ _ t _ _ _ _ => t
def Result.error : Result → Option ResultError | .mk _ _ _ _ _ _ _ _ e _ _ _ => e
def Result.results : Result → List Result | .mk _ _ _ _ _ _ _ _ _ r _ _ => r
def Result.transactionID : Result → String | .mk _ _ _ _ _ _ _ _ _ _ t _ => t
def Result.meta : Result → Option ResultMeta | .mk _ _ _ _ _ _ _ _ _ _ _ m => m

/-- Failure `Result` carrying only a code and message (the ubiquitous
Go literal `&Result{Success: false, Error: &ResultError{...}}`). -/
def errResult (code message : String) : Result :=
  .mk false [] 0 0 0 [] "" "" (some ⟨code, message, "", none⟩) [] "" none

/-- Go `containsAny`. -/
def containsAny (s : String) (subs : List String) : Bool :=
  subs.any (fun sub => strContains s sub)

/-- Go `handleSQLError`: classify the driver error text by substring
into a stable code plus a remediation suggestion; the offending SQL and
parameters ride along in the details. The status field is never set. -/
def handleSQLError (errStr : String) (buildResult : BuildResult) : Result :=
  let classified : String × String :=
    if containsAny errStr ["duplicate key", "Duplicate entry", "unique constraint"] then
      ("DUPLICATE_KEY",
       "使用 UPDATE 而不是 INSERT，或检查唯一约束 / Use UPDATE instead of INSERT, or check unique constraint")
    else if containsAny errStr ["foreign key", "FOREIGN KEY", "a]"] then
      ("FK_VIOLATION", "确保引用的记录存在 / Ensure the referenced record exists")
    else if containsAny errStr ["column", "does not exist", "Unknown column"] then
      ("INVALID_COLUMN", "检查列名拼写 / Check column name spelling")
    else if containsAny errStr ["table", "does not exist", "doesn't exist"] then
      ("TABLE_NOT_FOUND", "运行 db.AutoSync() 创建表 / Run db.AutoSync() to create table")
    else if containsAny errStr ["syntax error", "near"] then
      ("SYNTAX_ERROR", "检查 JQL 语法 / Check JQL syntax")
    else if containsAny errStr ["timeout", "deadline exceeded"] then
      ("TIMEOUT", "增加超时时间或优化查询 / Increase timeout or optimize query")
    else if containsAny errStr ["connection refused", "no connection"] then
      ("CONNECTION_ERROR", "检查数据库连接 / Check database connection")
    else ("SQL_ERROR", "")
  .mk false [] 0 0 0 [] "" ""
    (some ⟨classified.1, errStr, classified.2,
      some (.sqlParams buildResult.sql buildResult.params)⟩) [] "" none

/-- Go `generateConfirmToken` (the clock is supplied explicitly). -/
def generateConfirmToken (nowNano : Nat) : String :=
  "confirm_" ++ natToStr nowNano

/-- Go `SecurityConfig` (the members the executor reads). -/
structure SecurityConfig where
  confirmDestructive : Bool
  confirmThreshold : Int

/-- Executor environment: configuration plus the database driver as an
oracle (`queryRowInt` embeds `QueryRowContext(..).Scan(&count)`,
`execAffected` embeds `ExecContext` followed by `RowsAffected`). -/
structure ExecDB where
  dialect : Dialect
  security : SecurityConfig
  queryRowInt : String → List Value → Except String Int
  execAffected : String → List Value → Except String Int
  nowNano : Nat

/-- Go `getAffectedCount`: COUNT with the same predicate list. -/
def getAffectedCount (e : ExecDB) (query : Query) : Except String Int := do
  let countQuery : Query :=
    .mk query.table "count" query.whereC [] [] [] [] [] [] 0 0 [] [] ""
  let buildResult ← Build e.dialect countQuery
  e.queryRowInt buildResult.sql buildResult.params

/-- Go `executeWriteQuery`: build, execute, report affected rows.  The
second component records every mutating statement handed to the driver
(the embedding of `ExecContext` side effects). -/
def executeWriteQuery (e : ExecDB) (query : Query) :
    Result × List (String × List Value) :=
  match Build e.dialect query with
  | .error err => (errResult "BUILD_ERROR" err, [])
  | .ok buildResult =>
    match e.execAffected buildResult.sql buildResult.params with
    | .error err =>
      (handleSQLError err buildResult, [(buildResult.sql, buildResult.params)])
    | .ok affected =>
      (.mk true [] 0 affected 0 [] "" "" none [] "" none,
       [(buildResult.sql, buildResult.params)])

/-- Pending-confirmation result of the destructive gate. -/
def pendingConfirmResult (e : ExecDB) (message : String) : Result :=
  .mk false [] 0 0 0 [] "pending_confirm" (generateConfirmToken e.nowNano)
    (some ⟨"CONFIRM_REQUIRED", message, "", none⟩) [] "" none

/-- Go `ExecuteUpdate`: with confirmation enabled and an empty predicate
list, pre-count the rows; only a successful count strictly above the
threshold blocks the write. -/
def ExecuteUpdate (e : ExecDB) (query : Query) :
    Result × List (String × List Value) :=
  if e.security.confirmDestructive && query.whereC.length = 0 then
    match getAffectedCount e query with
    | .ok count =>
      if e.security.confirmThreshold < count then
        (pendingConfirmResult e
          ("此操作将更新 " ++ intToStr count ++
           " 条记录，需要确认 / This will update " ++ intToStr count ++
           " records, confirmation required"), [])
      else executeWriteQuery e query
    | .error _ => executeWriteQuery e query
  else executeWriteQuery e query

/-- Go `ExecuteDelete`: the same gate in front of DELETE. -/
def ExecuteDelete (e : ExecDB) (query : Query) :
    Result × List (String × List Value) :=
  if e.security.confirmDestructive && query.whereC.length = 0 then
    match getAffectedCount e query with
    | .ok count =>
      if e.security.confirmThreshold < count then
        (pendingConfirmResult e
          ("此操作将删除 " ++ intToStr count ++
           " 条记录，需要确认 / This will delete " ++ intToStr count ++
           " records, confirmation required"), [])
      else executeWriteQuery e query
    | .error _ => executeWriteQuery e query
  else executeWriteQuery e query

/-- Outcome of the `QueryRow(..).Scan(&lastID)` of an in-transaction
create on a RETURNING dialect: a row, no row (`sql.ErrNoRows`), or a
driver error. -/
inductive CreateScan where
  | row (id : Nat)
  | noRows
  | err (e : String)

/-- Transaction-scoped driver oracle: per-step responses of the shared
`*sql.Tx` handle, indexed by the step's position in the operation list
(the embedding of the handle's evolving state). -/
structure TxOracle where
  dialect : Dialect
  beginResp : Except String Unit
  createScanResp : Nat → CreateScan
  lastInsertIdResp : Nat → Except String Int
  execResp : Nat → Except String Int
  findResp : Nat → Except String (List (List (String × Value)))
  commitResp : Except String Unit
  nowNano : Nat

/-- Go `Transaction.executeCreate` for step `i`. -/
def executeCreateTx (o : TxOracle) (i : Nat) : Result :=
  if o.dialect.supportsReturning then
    match o.createScanResp i with
    | .err e => errResult "CREATE_ERROR" e
    | .row lastID => .mk true [] 0 1 lastID [] "" "" none [] "" none
    | .noRows => .mk true [] 0 1 0 [] "" "" none [] "" none
  else
    match o.execResp i with
    | .error e => errResult "CREATE_ERROR" e
    | .ok _ =>
      let lastID :=
        match o.lastInsertIdResp i with
        | .ok id => id.toNat
        | .error _ => 0
      .mk true [] 0 1 lastID [] "" "" none [] "" none

/-- Go `Transaction.executeWrite` for step `i`. -/
def executeWriteTx (o : TxOracle) (i : Nat) : Result :=
  match o.execResp i with
  | .error e => errResult "WRITE_ERROR" e
  | .ok affected => .mk true [] 0 affected 0 [] "" "" none [] "" none

/-- Go `Transaction.executeFind` for step `i`. -/
def executeFindTx (o : TxOracle) (i : Nat) : Result :=
  match o.findResp i with
  | .error e => errResult "QUERY_ERROR" e
  | .ok data => .mk true data (Int.ofNat data.length) 0 0 [] "" "" none [] "" none

/-- Go `Transaction.executeOperation`: build first, then dispatch; only
find/create/update/delete are supported inside a transaction. -/
def executeOperation (o : TxOracle) (i : Nat) (query : Query) : Result :=
  match Build o.dialect query with
  | .error e => errResult "BUILD_ERROR" e
  | .ok _ =>
    match query.action with
    | "create" => executeCreateTx o i
    | "update" | "delete" => executeWriteTx o i
    | "find" => executeFindTx o i
    | other =>
      errResult "UNSUPPORTED_TX_ACTION"
        ("action " ++ other ++ " not supported in transaction")

/-- Split of `str[1:]` at the first dot (Go `strings.SplitN(s, ".", 2)`),
returning alias and field when a dot exists. -/
def splitRef (s : List Char) : Option (String × String) :=
  let aliasName := s.takeWhile (fun c => c ≠ '.')
  let rest := s.dropWhile (fun c => c ≠ '.')
  match rest with
  | [] => none
  | _ :: fieldChars => some (⟨aliasName⟩, ⟨fieldChars⟩)

/-- Go `Transaction.resolveValue`: a string `$alias.field` is replaced
from the aliased prior result (id, affected, count, else the first data
row); anything unresolved passes through as the literal value. -/
def resolveValue (results : List (String × Result)) (v : Value) : Value :=
  match v with
  | .vStr str =>
    if !strHasPrefix str "$" then v
    else
      match splitRef str.toList.tail with
      | none => v
      | some (aliasName, field) =>
        match slookupResult results aliasName with
        | none => v
        | some r =>
          match field with
          | "id" => .vInt (Int.ofNat r.id)
          | "affected" => .vInt r.affected
          | "count" => .vInt r.count
          | _ =>
            match r.rdata with
            | row :: _ =>
              match lookupVal row field with
              | some val => val
              | none => v
            | [] => v
  | _ => v
where
  slookupResult : List (String × Result) → String → Option Result
    | [], _ => none
    | (k, r) :: rest, k' => if k = k' then some r else slookupResult rest k'

/-- Go `Transaction.resolveReferences`: resolve references in the data
payload and in the top-level condition values of a step's query. -/
def resolveReferences (results : List (String × Result)) (query : Query) :
    Query :=
  match query with
  | .mk table action whereC data dataBatch sel orderBy groupBy having
       limit offset join operations asAlias =>
    let newData := data.map (fun kv => (kv.1, resolveValue results kv.2))
    let newWhere := whereC.map (fun c =>
      match c with
      | .mk field op value orFlag ref subq andG orG =>
        .mk field op (resolveValue results value) orFlag ref subq andG orG)
    .mk table action newWhere newData dataBatch sel orderBy groupBy having
      limit offset join operations asAlias

/-- Rollback/commit bookkeeping of the underlying `*sql.Tx`. -/
structure TxTrace where
  rolledBack : Bool
  committed : Bool

/-- The step-failure result of Go `executeTransactionInternal`: the
failing step's error message wrapped with its 1-based index, the 0-based
index and the operation recorded in the details. -/
def txOpError (i : Nat) (op : Query) (result : Result) : Result :=
  let msg := match result.error with | some e => e.message | none => ""
  .mk false [] 0 0 0 [] "" ""
    (some ⟨"TX_OPERATION_ERROR",
      "operation " ++ natToStr (i + 1) ++ " failed: " ++ msg, "",
      some (.opIndex i op)⟩) [] "" none

/-- Step loop of Go `executeTransactionInternal`: `check` steps are
skipped, references are resolved against the aliased results collected
so far, the first failing step rolls back and aborts, and the final
commit produces the transaction result (no rollback on commit error). -/
def txLoop (o : TxOracle) : List Query → Nat → List (String × Result) →
    List Result → Result × TxTrace
  | [], _, _, acc =>
    match o.commitResp with
    | .error e => (errResult "TX_COMMIT_ERROR" e, ⟨false, false⟩)
    | .ok _ =>
      (.mk true [] 0 0 0 [] "" "" none acc
        ("tx_" ++ natToStr o.nowNano) none, ⟨false, true⟩)
  | op :: rest, i, aliases, acc =>
    if op.action = "check" then txLoop o rest (i + 1) aliases acc
    else
      let resolvedOp := resolveReferences aliases op
      let result := executeOperation o i resolvedOp
      if result.success then
        let aliases' :=
          if op.asAlias ≠ "" then (op.asAlias, result) :: aliases else aliases
        let stepResult :=
          if op.asAlias ≠ "" then
            match result with
            | .mk su da co af id ids stt tok er rs tid _ =>
              Result.mk su da co af id ids stt tok er rs tid
                (some ⟨op.asAlias, []⟩)
          else result
        txLoop o rest (i + 1) aliases' (acc ++ [stepResult])
      else (txOpError i op result, ⟨true, false⟩)

/-- Go `executeTransactionInternal`. -/
def executeTransactionInternal (o : TxOracle) (query : Query) :
    Result × TxTrace :=
  if query.operations.length = 0 then
    (errResult "NO_OPERATIONS" "transaction requires at least one operation",
     ⟨false, false⟩)
  else
    match o.beginResp with
    | .error e => (errResult "TX_BEGIN_ERROR" e, ⟨false, false⟩)
    | .ok _ => txLoop o query.operations 0 [] []

/-- Relation schema (Go `RelationSchema`, the members the loader reads). -/
structure RelationSchema where
  name : String
  typ : String
  model : String
  foreignKey : String
  referenceKey : String
  joinTable : String
  joinForeignKey : String
  joinReferenceKey : String

/-- One result record (Go `map[string]any`, embedded as an association
list in column order). -/
def Record := List (String × Value)

/-- Record read `row[k]`. -/
def rget (row : Record) (k : String) : Option Value := lookupVal row k

/-- Record write `row[k] = v` (replace the binding or append it). -/
def rset : Record → String → Value → Record
  | [], k, v => [(k, v)]
  | (k', v') :: rest, k, v =>
    if k' = k then (k, v) :: rest else (k', v') :: rset rest k v

/-- Lookup in a `map[any]int` keyed by dynamic values. -/
def vlookup : List (Value × Nat) → Value → Option Nat
  | [], _ => none
  | (k, n) :: rest, v => if Value.beq k v then some n else vlookup rest v

/-- Write to a `map[any]int` (replace the binding or append it, so a
later write for the same key wins as for a Go map). -/
def vinsert : List (Value × Nat) → Value → Nat → List (Value × Nat)
  | [], k, n => [(k, n)]
  | (k', n') :: rest, k, n =>
    if Value.beq k' k then (k, n) :: rest else (k', n') :: vinsert rest k n

/-- The `idToIdx` map of Go `loadHasMany`: reference-key value to source
index, later rows overwriting earlier ones. -/
def buildIdToIdx (rel : RelationSchema) (data : List Record) :
    List (Value × Nat) :=
  go data 0 []
where
  go : List Record → Nat → List (Value × Nat) → List (Value × Nat)
    | [], _, acc => acc
    | row :: rest, i, acc =>
      match rget row rel.referenceKey with
      | some idv => go rest (i + 1) (vinsert acc idv i)
      | none => go rest (i + 1) acc

/-- The initialization pass of Go `loadHasMany`: every source record
carrying the reference key receives an empty related-collection. -/
def initHasMany (rel : RelationSchema) (data : List Record) : List Record :=
  data.map (fun row =>
    if (rget row rel.referenceKey).isSome then
      rset row rel.name (Value.vArr [])
    else row)

/-- Body of the redistribution loop of Go `loadHasMany`: one related row
is appended to the collection of the source record whose reference key
matches its foreign-key value (the Go type assertion on the collection
is guaranteed by the initialization pass; a non-array value is left
unchanged). -/
def applyRelRow (rel : RelationSchema) (idToIdx : List (Value × Nat))
    (relRow : Record) (data : List Record) : List Record :=
  match rget relRow rel.foreignKey with
  | some fkVal =>
    match vlookup idToIdx fkVal with
    | some idx =>
      match data.get? idx with
      | some row =>
        match rget row rel.name with
        | some (.vArr arr) =>
          data.set idx (rset row rel.name (.vArr (arr ++ [.vMap relRow])))
        | _ => data
      | none => data
    | none => data
  | none => data

/-- The redistribution pass of Go `loadHasMany`. -/
def distributeHasMany (rel : RelationSchema) (idToIdx : List (Value × Nat)) :
    List Record → List Record → List Record
  | [], data => data
  | relRow :: rest, data =>
    distributeHasMany rel idToIdx rest (applyRelRow rel idToIdx relRow data)

/-- The single follow-up query of Go `loadHasMany`: a find on the
related table with `foreignKey IN (collected ids)`. -/
def hasManyQuery (rel : RelationSchema) (ids : List Value) : Query :=
  .mk rel.model "find"
    [.mk rel.foreignKey "in" (.vArr ids) false "" none [] []]
    [] [] [] [] [] [] 0 0 [] [] ""

/-- Go `loadHasMany`: collect the reference-key values, issue one IN
query against the related table when any exist, optionally recurse into
nested preloads on the related rows, then initialize and redistribute.
`exec` embeds `db.ExecuteQuery`; the returned number counts the queries
this call issues against the related table; `loadNested`/`hasNested`
embed the recursive `LoadRelations` call on the related rows. -/
def loadHasMany (exec : Query → Except String (List Record))
    (loadNested : List Record → Except String (List Record))
    (hasNested : Bool) (data : List Record) (rel : RelationSchema) :
    Except String (List Record × Nat) :=
  let ids := data.filterMap (fun row => rget row rel.referenceKey)
  if ids.length = 0 then Except.ok (data, 0)
  else
    match exec (hasManyQuery rel ids) with
    | .error msg => Except.error ("failed to load relation: " ++ msg)
    | .ok relRows0 => do
      let relRows ← if hasNested then loadNested relRows0
                    else Except.ok relRows0
      let idToIdx := buildIdToIdx rel data
      let data1 := initHasMany rel data
      Except.ok (distributeHasMany rel idToIdx relRows data1, 1)

/-! ## Claim C6: migrator type-compatibility check -/

/-- Modelled from the spec claim for C6: the claim's five equivalence
classes of keywords. -/
def specTypeClasses : List (List String) :=
  [["INTEGER", "SERIAL"], ["BIGINT", "BIGSERIAL"], ["VARCHAR", "TEXT"],
   ["BOOLEAN", "BOOL"], ["TIMESTAMP", "TIMESTAMPTZ"]]

/-- Modelled from the spec claim for C6: compatible when the two type
strings share a recognized equivalence class — each side mentioning a
keyword of the same class — or when one is a case-insensitive prefix of
the other (stated for comparison against the code's `typesCompatible`). -/
def specTypesCompatible (dbType modelType : String) : Bool :=
  let dbT := strToUpper dbType
  let modelT := strToUpper modelType
  specTypeClasses.any (fun ks =>
    ks.any (fun k => strContains dbT k) && ks.any (fun k => strContains modelT k))
  || strHasPrefix dbT modelT || strHasPrefix modelT dbT

/-- Claim C6, counterexample: the code judges TEXT and BOOLEAN
compatible (the BOOLEAN equivalence entry fires with both the key
BOOLEAN and the alias BOOL found in the model type alone), while the
claim's rule — a shared class keyword or a mutual prefix — judges them
incompatible, so the claimed "if and only if" is false. -/
theorem c6_typesCompatible_counterexample :
    typesCompatible "TEXT" "BOOLEAN" = true ∧
    specTypesCompatible "TEXT" "BOOLEAN" = false := by
  exact ⟨rfl, rfl⟩

/-- Claim C6, amended: `typesCompatible` judges `dbType` and `modelType`
compatible exactly when some equivalence entry has its key mentioned in
either input and one of its alias values mentioned in either input —
both mentions may come from the same input, so the pair need not share
anything — or one uppercased input is a prefix of the other. -/
theorem c6_typesCompatible_characterization (dbType modelType : String) :
    typesCompatible dbType modelType = true ↔
      ((∃ kv ∈ equivalences,
          (strContains (strToUpper dbType) kv.1 = true ∨
           strContains (strToUpper modelType) kv.1 = true) ∧
          ∃ v ∈ kv.2,
            (strContains (strToUpper dbType) v = true ∨
             strContains (strToUpper modelType) v = true)) ∨
       strHasPrefix (strToUpper dbType) (strToUpper modelType) = true ∨
       strHasPrefix (strToUpper modelType) (strToUpper dbType) = true) := by
  simp [typesCompatible, List.any_eq_true, Bool.or_eq_true, Bool.and_eq_true,
    or_assoc]

/-- Claim C6, witness: INTEGER vs SERIAL is compatible through the
amended characterization (key INTEGER in the first input, alias SERIAL
in the second). -/
theorem c6_typesCompatible_witness :
    typesCompatible "INTEGER" "SERIAL" = true := by
  refine (c6_typesCompatible_characterization "INTEGER" "SERIAL").mpr
    (Or.inl ⟨("INTEGER", ["INT", "INT4", "SERIAL"]), ?_, ?_, ?_⟩)
  · simp [equivalences]
  · exact Or.inl rfl
  · exact ⟨"SERIAL", by simp, Or.inr rfl⟩

/-! ## Claims C4 and C10: destructive-operation confirmation gate -/

/-- Claim C4: for an update or delete query with an empty predicate
list, when confirmation is enabled and the pre-counted row count
strictly exceeds the threshold, both executors return a failed result
with status `pending_confirm` carrying the freshly generated
confirmation token, and hand no statement to the driver (no mutation). -/
theorem c4_confirm_gate_blocks (e : ExecDB) (q : Query) (count : Int)
    (hconf : e.security.confirmDestructive = true)
    (hwhere : q.whereC = [])
    (hcount : getAffectedCount e q = .ok count)
    (hthr : e.security.confirmThreshold < count) :
    ((ExecuteUpdate e q).1.status = "pending_confirm" ∧
     (ExecuteUpdate e q).1.success = false ∧
     (ExecuteUpdate e q).1.confirmToken = generateConfirmToken e.nowNano ∧
     (ExecuteUpdate e q).2 = []) ∧
    ((ExecuteDelete e q).1.status = "pending_confirm" ∧
     (ExecuteDelete e q).1.success = false ∧
     (ExecuteDelete e q).1.confirmToken = generateConfirmToken e.nowNano ∧
     (ExecuteDelete e q).2 = []) := by
  have hlen : q.whereC.length = 0 := by rw [hwhere]; rfl
  constructor <;>
    simp [ExecuteUpdate, ExecuteDelete, hconf, hlen, hcount, hthr,
      pendingConfirmResult, Result.status, Result.success, Result.confirmToken]

/-- Concrete executor environment: confirmation on, threshold 10, the
COUNT probe answers 100, writes report 0 rows. -/
def c4DB : ExecDB :=
  { dialect := PostgresDialect,
    security := { confirmDestructive := true, confirmThreshold := 10 },
    queryRowInt := fun _ _ => .ok 100,
    execAffected := fun _ _ => .ok 0,
    nowNano := 42 }

/-- Concrete unrestricted update: `users.status = "x"` with no WHERE. -/
def c4Query : Query :=
  .mk "users" "update" [] [("status", .vStr "x")] [] [] [] [] [] 0 0 [] [] ""

/-- Claim C4, witness: on the concrete environment the gate blocks both
executors with a pending confirmation and an empty statement trace. -/
theorem c4_confirm_gate_blocks_witness :
    (ExecuteUpdate c4DB c4Query).1.status = "pending_confirm" ∧
    (ExecuteUpdate c4DB c4Query).2 = [] := by
  have h := c4_confirm_gate_blocks c4DB c4Query 100 rfl rfl rfl (by decide)
  exact ⟨h.1.1, h.1.2.2.2⟩

/-- The write path never reports a pending confirmation: its results
carry an empty status whatever the driver answers. -/
theorem executeWriteQuery_status (e : ExecDB) (q : Query) :
    (executeWriteQuery e q).1.status = "" := by
  unfold executeWriteQuery
  cases hb : Build e.dialect q with
  | error err => simp [errResult, Result.status]
  | ok br =>
    cases ha : e.execAffected br.sql br.params with
    | error err => simp [ha, handleSQLError, Result.status]
    | ok a => simp [ha, Result.status]

/-- Claim C10: with confirmation enabled and an empty predicate list, a
failing preliminary COUNT silently skips the gate — both executors run
the unrestricted write exactly as without the gate, handing the built
statement to the driver — and a pending confirmation arises only when
the count succeeds and strictly exceeds the threshold. -/
theorem c10_count_error_skips_gate (e : ExecDB) (q : Query)
    (hconf : e.security.confirmDestructive = true)
    (hwhere : q.whereC = []) :
    ((∀ err, getAffectedCount e q = .error err →
        ExecuteUpdate e q = executeWriteQuery e q ∧
        ExecuteDelete e q = executeWriteQuery e q) ∧
     (∀ br, Build e.dialect q = .ok br →
        (executeWriteQuery e q).2 = [(br.sql, br.params)]) ∧
     ((ExecuteUpdate e q).1.status = "pending_confirm" →
        ∃ c, getAffectedCount e q = .ok c ∧ e.security.confirmThreshold < c) ∧
     ((ExecuteDelete e q).1.status = "pending_confirm" →
        ∃ c, getAffectedCount e q = .ok c ∧ e.security.confirmThreshold < c)) := by
  have hlen : q.whereC.length = 0 := by rw [hwhere]; rfl
  refine ⟨?_, ?_, ?_, ?_⟩
  · intro err herr
    constructor <;> simp [ExecuteUpdate, ExecuteDelete, hconf, hlen, herr]
  · intro br hbr
    unfold executeWriteQuery
    rw [hbr]
    cases ha : e.execAffected br.sql br.params <;> simp [ha]
  · intro hpend
    unfold ExecuteUpdate at hpend
    rw [hconf, hlen] at hpend
    simp only [Nat.zero_lt_succ] at hpend
    cases hc : getAffectedCount e q with
    | error err =>
      rw [hc] at hpend
      simp at hpend
      rw [executeWriteQuery_status e q] at hpend
      exact absurd hpend (by decide)
    | ok c =>
      rw [hc] at hpend
      by_cases hthr : e.security.confirmThreshold < c
      · exact ⟨c, rfl, hthr⟩
      · simp [hthr] at hpend
        rw [executeWriteQuery_status e q] at hpend
        exact absurd hpend (by decide)
  · intro hpend
    unfold ExecuteDelete at hpend
    rw [hconf, hlen] at hpend
    cases hc : getAffectedCount e q with
    | error err =>
      rw [hc] at hpend
      simp at hpend
      rw [executeWriteQuery_status e q] at hpend
      exact absurd hpend (by decide)
    | ok c =>
      rw [hc] at hpend
      by_cases hthr : e.security.confirmThreshold < c
      · exact ⟨c, rfl, hthr⟩
      · simp [hthr] at hpend
        rw [executeWriteQuery_status e q] at hpend
        exact absurd hpend (by decide)

/-- Concrete environment for C10: the COUNT probe fails. -/
def c10DB : ExecDB :=
  { dialect := PostgresDialect,
    security := { confirmDestructive := true, confirmThreshold := 10 },
    queryRowInt := fun _ _ => .error "count query failed",
    execAffected := fun _ _ => .ok 7,
    nowNano := 42 }

/-- Claim C10, witness: with the failing COUNT the unrestricted update is
executed anyway (the UPDATE statement reaches the driver) and succeeds. -/
theorem c10_count_error_skips_gate_witness :
    ExecuteUpdate c10DB c4Query = executeWriteQuery c10DB c4Query ∧
    (ExecuteUpdate c10DB c4Query).2 =
      [("UPDATE \"users\" SET \"status\" = $1", [Value.vStr "x"])] := by
  have h := c10_count_error_skips_gate c10DB c4Query rfl rfl
  refine ⟨(h.1 "count query failed" rfl).1, ?_⟩
  rw [(h.1 "count query failed" rfl).1]
  exact h.2.1 ⟨"UPDATE \"users\" SET \"status\" = $1", [Value.vStr "x"]⟩ rfl

/-! ## Claims C1 and C7: transaction coordinator -/

/-- Resolving references never changes a step's action. -/
theorem resolveReferences_action (results : List (String × Result))
    (q : Query) : (resolveReferences results q).action = q.action := by
  cases q
  rfl

/-- A step whose action is not one of find/create/update/delete always
fails inside a transaction: either its build fails, or the dispatch
falls through to `UNSUPPORTED_TX_ACTION`. -/
theorem executeOperation_unsupported (o : TxOracle) (i : Nat) (op : Query)
    (h : op.action ∉ (["find", "create", "update", "delete"] : List String)) :
    (executeOperation o i op).success = false := by
  unfold executeOperation
  cases hb : Build o.dialect op with
  | error e => simp [errResult, Result.success]
  | ok br =>
    simp only []
    split
    · exact absurd (by simp_all) h
    · exact absurd (by simp_all) h
    · exact absurd (by simp_all) h
    · exact absurd (by simp_all) h
    · simp [errResult, Result.success]

/-- Error message of a failed step result (Go reads
`result.Error.Message`). -/
def failMsg (r : Result) : String :=
  match r.error with
  | some er => er.message
  | none => ""

/-- Failure characterization of the transaction step loop: a
TX_OPERATION_ERROR result means some non-check step failed, the
transaction was rolled back and not committed, and the returned message
wraps that step's own error message with its 1-based index; a
TX_COMMIT_ERROR result reproduces the commit error and performs no
rollback. -/
theorem txLoop_spec (o : TxOracle) : ∀ (ops : List Query) (i : Nat)
    (aliases : List (String × Result)) (acc : List Result)
    (r : Result) (tr : TxTrace),
    txLoop o ops i aliases acc = (r, tr) → ∀ e, r.error = some e →
    (e.code = "TX_OPERATION_ERROR" →
      tr.rolledBack = true ∧ tr.committed = false ∧
      ∃ j op, ops.get? j = some op ∧ op.action ≠ "check" ∧
        e.details = some (.opIndex (i + j) op) ∧
        ∃ aliases',
          (executeOperation o (i + j) (resolveReferences aliases' op)).success
            = false ∧
          e.message = "operation " ++ natToStr (i + j + 1) ++ " failed: " ++
            failMsg (executeOperation o (i + j)
              (resolveReferences aliases' op))) ∧
    (e.code = "TX_COMMIT_ERROR" →
      tr.rolledBack = false ∧ tr.committed = false ∧
      o.commitResp = .error e.message) := by
  intro ops
  induction ops with
  | nil =>
    intro i aliases acc r tr hloop e herr
    unfold txLoop at hloop
    cases hc : o.commitResp with
    | error ec =>
      rw [hc] at hloop
      cases hloop
      simp only [errResult, Result.error] at herr
      cases herr
      refine ⟨fun hcode => by simp [ResultError.code] at hcode,
              fun _ => ⟨rfl, rfl, ?_⟩⟩
      rfl
    | ok u =>
      rw [hc] at hloop
      cases hloop
      simp [Result.error] at herr
  | cons op rest ih =>
    intro i aliases acc r tr hloop e herr
    unfold txLoop at hloop
    by_cases hchk : op.action = "check"
    · rw [if_pos hchk] at hloop
      have := ih (i + 1) aliases acc r tr hloop e herr
      refine ⟨fun hcode => ?_, this.2⟩
      obtain ⟨h1, h2, j, op', hget, hne, hdet, rest2⟩ := this.1 hcode
      refine ⟨h1, h2, j + 1, op', by simpa using hget, hne, ?_, ?_⟩
      · have : i + 1 + j = i + (j + 1) := by omega
        rw [this] at hdet
        exact hdet
      · have heq : i + 1 + j = i + (j + 1) := by omega
        rw [heq] at rest2
        exact rest2
    · rw [if_neg hchk] at hloop
      simp only [] at hloop
      by_cases hs :
          (executeOperation o i (resolveReferences aliases op)).success = true
      · rw [if_pos hs] at hloop
        have := ih (i + 1) _ _ r tr hloop e herr
        refine ⟨fun hcode => ?_, this.2⟩
        obtain ⟨h1, h2, j, op', hget, hne, hdet, rest2⟩ := this.1 hcode
        refine ⟨h1, h2, j + 1, op', by simpa using hget, hne, ?_, ?_⟩
        · have : i + 1 + j = i + (j + 1) := by omega
          rw [this] at hdet
          exact hdet
        · have heq : i + 1 + j = i + (j + 1) := by omega
          rw [heq] at rest2
          exact rest2
      · rw [if_neg hs] at hloop
        cases hloop
        simp only [txOpError, Result.error] at herr
        cases herr
        refine ⟨fun _ => ⟨rfl, rfl, 0, op, rfl, hchk, rfl, aliases, ?_, ?_⟩,
                fun hcode => by simp [ResultError.code] at hcode⟩
        · simpa using hs
        · rfl

/-- Claim C1, amended: when a transaction result carries a
TX_OPERATION_ERROR, some non-check step failed, the underlying
transaction was rolled back before returning and the returned message
wraps that step's own error with its 1-based index; when the final
commit fails the commit error is returned as TX_COMMIT_ERROR, but the
code performs no rollback in that path. -/
theorem c1_transaction_failure_semantics (o : TxOracle) (q : Query)
    (r : Result) (tr : TxTrace)
    (hrun : executeTransactionInternal o q = (r, tr))
    (e : ResultError) (herr : r.error = some e) :
    (e.code = "TX_OPERATION_ERROR" →
      tr.rolledBack = true ∧ tr.committed = false ∧
      ∃ j op, q.operations.get? j = some op ∧ op.action ≠ "check" ∧
        e.details = some (.opIndex j op) ∧
        ∃ aliases,
          (executeOperation o j (resolveReferences aliases op)).success
            = false ∧
          e.message = "operation " ++ natToStr (j + 1) ++ " failed: " ++
            failMsg (executeOperation o j (resolveReferences aliases op))) ∧
    (e.code = "TX_COMMIT_ERROR" →
      tr.rolledBack = false ∧ tr.committed = false ∧
      o.commitResp = .error e.message) := by
  unfold executeTransactionInternal at hrun
  by_cases hops : q.operations.length = 0
  · rw [if_pos hops] at hrun
    cases hrun
    simp only [errResult, Result.error] at herr
    cases herr
    exact ⟨fun hcode => by simp [ResultError.code] at hcode,
           fun hcode => by simp [ResultError.code] at hcode⟩
  · rw [if_neg hops] at hrun
    cases hb : o.beginResp with
    | error eb =>
      rw [hb] at hrun
      cases hrun
      simp only [errResult, Result.error] at herr
      cases herr
      exact ⟨fun hcode => by simp [ResultError.code] at hcode,
             fun hcode => by simp [ResultError.code] at hcode⟩
    | ok u =>
      rw [hb] at hrun
      have := txLoop_spec o q.operations 0 [] [] r tr hrun e herr
      refine ⟨fun hcode => ?_, this.2⟩
      obtain ⟨h1, h2, j, op, hget, hne, hdet, rest2⟩ := this.1 hcode
      exact ⟨h1, h2, j, op, hget, hne, by simpa using hdet, by simpa using rest2⟩

/-- All-ok oracle except for a failing commit. -/
def c1Oracle : TxOracle :=
  { dialect := PostgresDialect,
    beginResp := .ok (),
    createScanResp := fun _ => .row 1,
    lastInsertIdResp := fun _ => .ok 1,
    execResp := fun _ => .ok 1,
    findResp := fun _ => .ok [],
    commitResp := .error "commit failed",
    nowNano := 7 }

/-- A one-step transaction query (a find step). -/
def c1Query : Query :=
  .mk "" "transaction" [] [] [] [] [] [] [] 0 0 []
    [.mk "users" "find" [] [] [] [] [] [] [] 0 0 [] [] ""] ""

/-- Claim C1, counterexample: with every step succeeding and the final
commit failing, the code returns TX_COMMIT_ERROR but does not roll the
transaction back — the claim's "likewise rolled back when the final
commit itself returns an error" is false on the code. -/
theorem c1_commit_error_no_rollback_counterexample :
    (executeTransactionInternal c1Oracle c1Query).2.rolledBack = false ∧
    (match (executeTransactionInternal c1Oracle c1Query).1.error with
     | some e => e.code
     | none => "") = "TX_COMMIT_ERROR" := ⟨rfl, rfl⟩

/-- Oracle whose find steps fail. -/
def c1FailOracle : TxOracle :=
  { dialect := PostgresDialect,
    beginResp := .ok (),
    createScanResp := fun _ => .row 1,
    lastInsertIdResp := fun _ => .ok 1,
    execResp := fun _ => .ok 1,
    findResp := fun _ => .error "boom",
    commitResp := .ok (),
    nowNano := 7 }

/-- Claim C1, witness: on a concrete transaction whose first step fails,
the amended theorem yields the rollback and the index-wrapped message. -/
theorem c1_transaction_failure_semantics_witness :
    (executeTransactionInternal c1FailOracle c1Query).2.rolledBack = true ∧
    (match (executeTransactionInternal c1FailOracle c1Query).1.error with
     | some e => e.message
     | none => "") = "operation 1 failed: boom" := by
  have h := c1_transaction_failure_semantics c1FailOracle c1Query
    (executeTransactionInternal c1FailOracle c1Query).1
    (executeTransactionInternal c1FailOracle c1Query).2
    rfl
    ⟨"TX_OPERATION_ERROR", "operation 1 failed: boom", "",
      some (.opIndex 0 (.mk "users" "find" [] [] [] [] [] [] [] 0 0 [] [] ""))⟩
    rfl
  exact ⟨(h.1 rfl).1, rfl⟩

/-- Claim C7, amended, part for the loop: a reached step whose action is
outside find/create/update/delete and is not `check` fails the whole
transaction immediately (rolled back, with that step's wrapped error),
while a `check` step is skipped entirely rather than failing. -/
theorem c7_unsupported_action_fails (o : TxOracle) :
    (∀ i op, op.action ∉ (["find", "create", "update", "delete"] : List String) →
      (executeOperation o i op).success = false) ∧
    (∀ op rest i aliases acc,
      op.action ∉ (["find", "create", "update", "delete"] : List String) →
      op.action ≠ "check" →
      txLoop o (op :: rest) i aliases acc =
        (txOpError i op
          (executeOperation o i (resolveReferences aliases op)),
         ⟨true, false⟩)) ∧
    (∀ op rest i aliases acc, op.action = "check" →
      txLoop o (op :: rest) i aliases acc = txLoop o rest (i + 1) aliases acc) := by
  refine ⟨fun i op h => executeOperation_unsupported o i op h, ?_, ?_⟩
  · intro op rest i aliases acc hbad hchk
    have hfail : (executeOperation o i (resolveReferences aliases op)).success
        = false := by
      apply executeOperation_unsupported
      rw [resolveReferences_action]
      exact hbad
    unfold txLoop
    rw [if_neg hchk]
    simp only [hfail]
    rfl
  · intro op rest i aliases acc hchk
    simp only [txLoop]
    rw [if_pos hchk]

/-- A one-step transaction whose only step is a `check` action. -/
def c7CheckQuery : Query :=
  .mk "" "transaction" [] [] [] [] [] [] [] 0 0 []
    [.mk "" "check" [] [] [] [] [] [] [] 0 0 [] [] ""] ""

/-- All-ok oracle. -/
def c7Oracle : TxOracle :=
  { dialect := PostgresDialect,
    beginResp := .ok (),
    createScanResp := fun _ => .row 1,
    lastInsertIdResp := fun _ => .ok 1,
    execResp := fun _ => .ok 1,
    findResp := fun _ => .ok [],
    commitResp := .ok (),
    nowNano := 7 }

/-- Claim C7, counterexample: a step with action `check` — which is
neither find, create, update nor delete — does not fail the
transaction: the loop skips it and the transaction commits
successfully, contradicting the claim that every other action fails
the step and the whole transaction. -/
theorem c7_check_step_is_skipped_counterexample :
    (executeTransactionInternal c7Oracle c7CheckQuery).1.success = true ∧
    (executeTransactionInternal c7Oracle c7CheckQuery).2.committed = true :=
  ⟨rfl, rfl⟩

/-- Claim C7, witness: a `count` step fails immediately with rollback. -/
theorem c7_unsupported_action_fails_witness :
    (executeOperation c7Oracle 0
      (.mk "users" "count" [] [] [] [] [] [] [] 0 0 [] [] "")).success
      = false ∧
    txLoop c7Oracle
        [.mk "users" "count" [] [] [] [] [] [] [] 0 0 [] [] ""] 0 [] [] =
      (txOpError 0 (.mk "users" "count" [] [] [] [] [] [] [] 0 0 [] [] "")
        (executeOperation c7Oracle 0
          (resolveReferences [] (.mk "users" "count" [] [] [] [] [] [] [] 0 0 [] [] ""))),
       ⟨true, false⟩) := by
  constructor
  · exact (c7_unsupported_action_fails c7Oracle).1 0 _ (by decide)
  · exact (c7_unsupported_action_fails c7Oracle).2.1 _ [] 0 [] [] (by decide)
      (by decide)

/-! ## Claim C8: has-many eager loading -/

/-- Updating a record binds the written key. -/
theorem lookupVal_rset (row : Record) (k : String) (v : Value) :
    lookupVal (rset row k v) k = some v := by
  induction row with
  | nil => simp [rset, lookupVal]
  | cons kv rest ih =>
    obtain ⟨k', v'⟩ := kv
    by_cases h : k' = k
    · simp [rset, h, lookupVal]
    · simp [rset, h, lookupVal, ih]

/-- Updating a record binds the written key (`rget` form). -/
theorem rget_rset (row : Record) (k : String) (v : Value) :
    rget (rset row k v) k = some v := lookupVal_rset row k v

/-- A value found through `vlookup` is one of the map's stored indices. -/
theorem vlookup_mem (m : List (Value × Nat)) (v : Value) (n : Nat)
    (h : vlookup m v = some n) : ∃ k, (k, n) ∈ m := by
  induction m with
  | nil => simp [vlookup] at h
  | cons kv rest ih =>
    unfold vlookup at h
    by_cases hb : Value.beq kv.1 v
    · rw [if_pos hb] at h
      cases h
      exact ⟨kv.1, by simp⟩
    · rw [if_neg hb] at h
      obtain ⟨k, hk⟩ := ih h
      exact ⟨k, by simp [hk]⟩

/-- `vinsert` adds the new binding or keeps old ones. -/
theorem vinsert_mem (m : List (Value × Nat)) (k : Value) (n : Nat)
    (kv : Value × Nat) (h : kv ∈ vinsert m k n) :
    kv = (k, n) ∨ kv ∈ m := by
  induction m with
  | nil => simpa [vinsert] using h
  | cons kv' rest ih =>
    unfold vinsert at h
    by_cases hb : Value.beq kv'.1 k
    · rw [if_pos hb] at h
      rcases List.mem_cons.mp h with h1 | h2
      · exact Or.inl h1
      · exact Or.inr (List.mem_cons_of_mem _ h2)
    · rw [if_neg hb] at h
      rcases List.mem_cons.mp h with h1 | h2
      · exact Or.inr (h1 ▸ List.mem_cons_self _ _)
      · rcases ih h2 with h3 | h4
        · exact Or.inl h3
        · exact Or.inr (List.mem_cons_of_mem _ h4)

/-- Every entry of `idToIdx` points at a source record that carries the
reference key. -/
theorem buildIdToIdx_sound (rel : RelationSchema) (data : List Record)
    (kv : Value × Nat) (h : kv ∈ buildIdToIdx rel data) :
    ∃ row, data.get? kv.2 = some row ∧
      rget row rel.referenceKey = some kv.1 := by
  suffices hgen : ∀ (rows : List Record) (i : Nat) (acc : List (Value × Nat)),
      kv ∈ buildIdToIdx.go rel rows i acc →
      kv ∈ acc ∨ ∃ j row, rows.get? j = some row ∧ kv.2 = i + j ∧
        rget row rel.referenceKey = some kv.1 by
    have := hgen data 0 [] h
    rcases this with habs | ⟨j, row, hrow, hidx, hget⟩
    · simp at habs
    · exact ⟨row, by rw [hidx]; simpa using hrow, hget⟩
  intro rows
  induction rows with
  | nil =>
    intro i acc hmem
    exact Or.inl (by simpa [buildIdToIdx.go] using hmem)
  | cons row rest ih =>
    intro i acc hmem
    unfold buildIdToIdx.go at hmem
    cases hr : rget row rel.referenceKey with
    | some idv =>
      rw [hr] at hmem
      rcases ih (i + 1) _ hmem with hacc | ⟨j, row', hrow', hidx, hget⟩
      · rcases vinsert_mem acc idv i kv hacc with h1 | h2
        · right
          refine ⟨0, row, rfl, by simp [h1], ?_⟩
          rw [h1]
          exact hr
        · exact Or.inl h2
      · right
        exact ⟨j + 1, row', by simpa using hrow', by omega, hget⟩
    | none =>
      rw [hr] at hmem
      rcases ih (i + 1) acc hmem with hacc | ⟨j, row', hrow', hidx, hget⟩
      · exact Or.inl hacc
      · right
        exact ⟨j + 1, row', by simpa using hrow', by omega, hget⟩

/-- The invariant carried through redistribution: lengths are kept,
keyed records keep a (possibly grown) related collection, unkeyed
records are untouched. -/
def DistInv (rel : RelationSchema) (data cur : List Record) : Prop :=
  cur.length = data.length ∧
  ∀ i row, data.get? i = some row →
    ((rget row rel.referenceKey).isSome = true →
      ∃ row' l, cur.get? i = some row' ∧
        rget row' rel.name = some (.vArr l)) ∧
    ((rget row rel.referenceKey) = none → cur.get? i = some row)

/-- One redistribution step preserves the invariant (it only ever
touches an index stored in `idToIdx`, and those indices belong to keyed
records). -/
theorem applyRelRow_preserves (rel : RelationSchema) (data : List Record)
    (idToIdx : List (Value × Nat))
    (hsound : ∀ kv ∈ idToIdx, ∃ row, data.get? kv.2 = some row ∧
      rget row rel.referenceKey = some kv.1)
    (relRow : Record) (cur : List Record)
    (hinv : DistInv rel data cur) :
    DistInv rel data (applyRelRow rel idToIdx relRow cur) := by
  unfold applyRelRow
  split
  case h_2 => exact hinv
  rename_i fkVal hfk
  split
  case h_2 => exact hinv
  rename_i idx hlk
  split
  case h_2 => exact hinv
  rename_i row hrow
  split
  case h_2 => exact hinv
  rename_i arr hname
  obtain ⟨hlen, hpt⟩ := hinv
  refine ⟨by simpa using hlen, ?_⟩
  intro i row0 hrow0
  constructor
  · intro hkey
    by_cases hidx : idx = i
    · subst hidx
      refine ⟨rset row rel.name (.vArr (arr ++ [.vMap relRow])),
        arr ++ [.vMap relRow], ?_, rget_rset _ _ _⟩
      rw [List.get?_set_eq_of_lt]
      obtain ⟨hlt, -⟩ := List.get?_eq_some.mp hrow
      exact hlt
    · rw [List.get?_set_ne _ _ hidx]
      exact (hpt i row0 hrow0).1 hkey
  · intro hkey
    by_cases hidx : idx = i
    · subst hidx
      obtain ⟨k, hkmem⟩ := vlookup_mem idToIdx fkVal idx hlk
      obtain ⟨rowd, hrowd, hgetd⟩ := hsound (k, idx) hkmem
      rw [hrow0] at hrowd
      cases hrowd
      rw [hkey] at hgetd
      cases hgetd
    · rw [List.get?_set_ne _ _ hidx]
      exact (hpt i row0 hrow0).2 hkey

/-- The whole redistribution pass preserves the invariant. -/
theorem distributeHasMany_preserves (rel : RelationSchema)
    (data : List Record) (idToIdx : List (Value × Nat))
    (hsound : ∀ kv ∈ idToIdx, ∃ row, data.get? kv.2 = some row ∧
      rget row rel.referenceKey = some kv.1) :
    ∀ (relRows : List Record) (cur : List Record),
    DistInv rel data cur →
    DistInv rel data (distributeHasMany rel idToIdx relRows cur) := by
  intro relRows
  induction relRows with
  | nil => intro cur hinv; simpa [distributeHasMany] using hinv
  | cons relRow rest ih =>
    intro cur hinv
    unfold distributeHasMany
    exact ih _ (applyRelRow_preserves rel data idToIdx hsound relRow cur hinv)

/-- The initialization pass establishes the invariant. -/
theorem initHasMany_establishes (rel : RelationSchema) (data : List Record) :
    DistInv rel data (initHasMany rel data) := by
  refine ⟨by simp [initHasMany], ?_⟩
  intro i row hrow
  constructor
  · intro hkey
    refine ⟨rset row rel.name (.vArr []), [], ?_, rget_rset _ _ _⟩
    unfold initHasMany
    rw [List.get?_map, hrow]
    simp [hkey]
  · intro hkey
    unfold initHasMany
    rw [List.get?_map, hrow]
    simp [hkey, rget] at *
    simp [hkey]

/-- Claim C8, amended: a successful nested-free has-many load issues at
most one follow-up query — exactly one (the single IN query over the
collected reference-key values) precisely when some source record
carries the reference key — keeps the record count, binds on every
source record that carries the reference key the relation name to a
(possibly empty) collection, and leaves records without the reference
key entirely untouched (in particular without the relation key). -/
theorem c8_loadHasMany_shape (exec : Query → Except String (List Record))
    (loadNested : List Record → Except String (List Record))
    (data : List Record) (rel : RelationSchema)
    (out : List Record) (n : Nat)
    (h : loadHasMany exec loadNested false data rel = .ok (out, n)) :
    out.length = data.length ∧
    (n = 0 ∨ n = 1) ∧
    (n = 1 ↔ ∃ row ∈ data, (rget row rel.referenceKey).isSome = true) ∧
    (n = 1 → ∃ relRows,
      exec (hasManyQuery rel
        (data.filterMap (fun row => rget row rel.referenceKey))) =
          .ok relRows) ∧
    (∀ i row, data.get? i = some row →
      ((rget row rel.referenceKey).isSome = true →
        ∃ row' l, out.get? i = some row' ∧
          rget row' rel.name = some (.vArr l)) ∧
      ((rget row rel.referenceKey) = none → out.get? i = some row)) := by
  unfold loadHasMany at h
  by_cases hids :
      (data.filterMap (fun row => rget row rel.referenceKey)).length = 0
  · rw [if_pos hids] at h
    cases h
    have hnil : data.filterMap (fun row => rget row rel.referenceKey) = [] :=
      List.length_eq_zero.mp hids
    have hnone : ∀ row ∈ data, rget row rel.referenceKey = none :=
      List.filterMap_eq_nil.mp hnil
    refine ⟨rfl, Or.inl rfl, ?_, ?_, ?_⟩
    · constructor
      · intro h1; cases h1
      · rintro ⟨row, hmem, hsome⟩
        rw [hnone row hmem] at hsome
        cases hsome
    · intro h1; cases h1
    · intro i row hrow
      have hmem : row ∈ data := List.get?_mem hrow
      refine ⟨fun hkey => ?_, fun _ => hrow⟩
      rw [hnone row hmem] at hkey
      cases hkey
  · rw [if_neg hids] at h
    cases hex : exec (hasManyQuery rel
        (data.filterMap (fun row => rget row rel.referenceKey))) with
    | error msg => rw [hex] at h; cases h
    | ok relRows0 =>
      rw [hex] at h
      simp only [Bind.bind, Except.bind] at h
      cases h
      have hsound := fun kv hkv => buildIdToIdx_sound rel data kv hkv
      have hinv := distributeHasMany_preserves rel data
        (buildIdToIdx rel data) hsound relRows0 (initHasMany rel data)
        (initHasMany_establishes rel data)
      refine ⟨hinv.1, Or.inr rfl, ?_, fun _ => ⟨relRows0, rfl⟩, hinv.2⟩
      refine ⟨fun _ => ?_, fun _ => rfl⟩
      have hne : data.filterMap (fun row => rget row rel.referenceKey) ≠ [] :=
        fun hc => hids (by rw [hc]; rfl)
      have := mt List.filterMap_eq_nil.mpr hne
      push_neg at this
      obtain ⟨row, hmem, hval⟩ := this
      exact ⟨row, hmem, Option.isSome_iff_ne_none.mpr hval⟩

/-- Concrete inputs for the C8 counterexample: two source records, the
second without the reference key; the related table answers empty. -/
def c8Rel : RelationSchema :=
  { name := "posts", typ := "has_many", model := "posts",
    foreignKey := "user_id", referenceKey := "id",
    joinTable := "", joinForeignKey := "", joinReferenceKey := "" }

def c8Data : List Record := [[("id", Value.vInt 1)], []]

/-- Claim C8, counterexample: on a successful has-many load over a
source record that lacks the reference key, the loader leaves that
record without the relation key — the claimed "every source record
contains the relation key bound to a possibly-empty collection — never
a missing key" is false on the code. -/
theorem c8_missing_key_counterexample :
    (match loadHasMany (fun _ => .ok []) (fun rows => .ok rows) false
        c8Data c8Rel with
     | .ok (out, _) =>
       (out.get? 0).bind (fun r => rget r "posts") = some (.vArr []) ∧
       (out.get? 1).bind (fun r => rget r "posts") = none
     | .error _ => False) := ⟨rfl, rfl⟩

/-- Claim C8, witness: the amended theorem applied to the concrete
inputs — one query is issued and the keyed record ends with an empty
collection. -/
theorem c8_loadHasMany_shape_witness :
    ∃ out n, loadHasMany (fun _ => .ok []) (fun rows => .ok rows) false
        c8Data c8Rel = .ok (out, n) ∧ n = 1 ∧ out.length = 2 := by
  refine ⟨[[("id", Value.vInt 1), ("posts", Value.vArr [])], []], 1, rfl, rfl, ?_⟩
  have h := c8_loadHasMany_shape (fun _ => .ok []) (fun rows => .ok rows)
    c8Data c8Rel [[("id", Value.vInt 1), ("posts", Value.vArr [])], []] 1 rfl
  exact h.1

/-! ## Claim C9: migration planning -/

/-- The live schema already matches the registered models: every
declared table exists, every declared field exists with a compatible
type, and — in aggressive mode — there is no undeclared non-system
table and no undeclared column on a declared table. -/
def SchemaConforms (m : MigratorEnv) (dbTables : List DBTable)
    (models : List ModelMeta) : Prop :=
  (∀ meta ∈ models, ∃ dbCols,
    dbLookup dbTables meta.tableName = some dbCols ∧
    ∀ field ∈ meta.fields, ∃ dbCol,
      colLookup dbCols field.columnName = some dbCol ∧
      typesCompatible dbCol.typ (m.goTypeToSQL field.goType field.tags)
        = true) ∧
  (m.aggressive = true →
    (∀ t ∈ dbTables,
      (∃ meta ∈ models, meta.tableName = t.name) ∨
      isSystemTable t.name = true) ∧
    (∀ meta ∈ models, ∀ dbCols,
      dbLookup dbTables meta.tableName = some dbCols →
      ∀ col ∈ dbCols, ∃ f ∈ meta.fields, f.columnName = col.name))

/-- Claim C9, amended: `Plan` is pure, so a second run with no
intervening change returns exactly the first run's change list — and
that list is empty precisely when the live schema already conforms to
the registered models, not unconditionally. -/
theorem c9_planTwice_characterization (m : MigratorEnv)
    (dbTables : List DBTable) (models : List ModelMeta) :
    (planTwice m dbTables models).1 = (planTwice m dbTables models).2 ∧
    ((planTwice m dbTables models).2.changes = [] ↔
      SchemaConforms m dbTables models) := by
  refine ⟨rfl, ?_⟩
  show (Plan m dbTables models).changes = [] ↔ _
  unfold Plan SchemaConforms
  simp only [List.append_eq_nil]
  constructor
  · rintro ⟨⟨hcr, ham⟩, hdrop⟩
    have hcr' := List.filterMap_eq_nil.mp hcr
    have ham' := List.flatMap_eq_nil_iff.mp ham
    constructor
    · intro meta hmeta
      have h1 := hcr' meta hmeta
      have hs : (dbLookup dbTables meta.tableName).isSome := by
        by_contra hno
        rw [if_neg hno] at h1
        cases h1
      obtain ⟨dbCols, hcols⟩ := Option.isSome_iff_exists.mp hs
      refine ⟨dbCols, hcols, ?_⟩
      have h2 := ham' meta hmeta
      rw [hcols] at h2
      have h2' := List.filterMap_eq_nil.mp h2
      intro field hfield
      have h3 := h2' field hfield
      cases hcl : colLookup dbCols field.columnName with
      | none => simp [hcl] at h3
      | some dbCol =>
        simp only [hcl] at h3
        by_cases hc : typesCompatible dbCol.typ
            (m.goTypeToSQL field.goType field.tags) = true
        · exact ⟨dbCol, rfl, hc⟩
        · rw [if_neg hc] at h3
          cases h3
    · intro haggr
      rw [if_pos haggr] at hdrop
      have hdrop' := List.append_eq_nil.mp hdrop
      have hdt := List.filterMap_eq_nil.mp hdrop'.1
      have hdc := List.flatMap_eq_nil_iff.mp hdrop'.2
      constructor
      · intro t ht
        have h1 := hdt t ht
        by_cases hf : (models.find? (fun meta => meta.tableName == t.name)).isSome
        · obtain ⟨meta, hmem, hp⟩ := List.find?_isSome.mp hf
          exact Or.inl ⟨meta, hmem, by simpa using hp⟩
        · rw [if_neg hf] at h1
          by_cases hsys : isSystemTable t.name = true
          · exact Or.inr hsys
          · rw [if_neg hsys] at h1; cases h1
      · intro meta hmeta dbCols hcols col hcol
        have h1 := hdc meta hmeta
        rw [hcols] at h1
        have h1' := List.filterMap_eq_nil.mp h1
        have h2 := h1' col hcol
        by_cases hany : meta.fields.any (fun f => f.columnName == col.name)
        · obtain ⟨f, hf, hpf⟩ := List.any_eq_true.mp hany
          exact ⟨f, hf, by simpa using hpf⟩
        · rw [if_neg hany] at h2; cases h2
  · rintro ⟨hconf, haggr⟩
    refine ⟨⟨?_, ?_⟩, ?_⟩
    · apply List.filterMap_eq_nil.mpr
      intro meta hmeta
      obtain ⟨dbCols, hcols, -⟩ := hconf meta hmeta
      rw [if_pos (by simp [hcols])]
    · apply List.flatMap_eq_nil_iff.mpr
      intro meta hmeta
      obtain ⟨dbCols, hcols, hfields⟩ := hconf meta hmeta
      rw [hcols]
      apply List.filterMap_eq_nil.mpr
      intro field hfield
      obtain ⟨dbCol, hcl, hcompat⟩ := hfields field hfield
      simp [hcl, hcompat]
    · by_cases ha : m.aggressive = true
      · rw [if_pos ha]
        obtain ⟨htabs, hcols⟩ := haggr ha
        apply List.append_eq_nil.mpr
        constructor
        · apply List.filterMap_eq_nil.mpr
          intro t ht
          by_cases hf :
              (models.find? (fun meta => meta.tableName == t.name)).isSome = true
          · rw [if_pos hf]
          · rw [if_neg hf]
            rcases htabs t ht with ⟨meta, hmem, hname⟩ | hsys
            · exact absurd
                (List.find?_isSome.mpr ⟨meta, hmem, by simpa using hname⟩) hf
            · rw [if_pos hsys]
        · apply List.flatMap_eq_nil_iff.mpr
          intro meta hmeta
          cases hcl : dbLookup dbTables meta.tableName with
          | none => rfl
          | some dbCols =>
            apply List.filterMap_eq_nil.mpr
            intro col hcol
            obtain ⟨f, hf, hfn⟩ := hcols meta hmeta dbCols hcl col hcol
            rw [if_pos (List.any_eq_true.mpr ⟨f, hf, by simpa using hfn⟩)]
      · rw [if_neg ha]

/-- Concrete migrator environment (Postgres, non-aggressive). -/
def c9Env : MigratorEnv := pgMigratorEnv false "20240101_000000"

/-- One registered model: `users` with a single bigint id column. -/
def c9Models : List ModelMeta :=
  [{ tableName := "users",
     fields := [{ columnName := "id", sqlType := "BIGSERIAL",
                  goType := "int64", tags := [], nullable := false,
                  primaryKey := true, autoIncrement := true,
                  unique := false, defaultVal := "" }] }]

/-- Claim C9, counterexample: with an empty live schema and one
registered model, two consecutive `Plan` runs with no intervening
change return the same non-empty change list — the second run's list is
not empty, because `Plan` is read-only and applies nothing. -/
theorem c9_plan_not_idempotent_counterexample :
    (planTwice c9Env [] c9Models).1 = (planTwice c9Env [] c9Models).2 ∧
    ¬ ((planTwice c9Env [] c9Models).2.changes = []) := by
  refine ⟨rfl, fun h => ?_⟩
  exact absurd (congrArg List.length h) (by decide)

/-- A live schema that already conforms to `c9Models`. -/
def c9Db : List DBTable :=
  [{ name := "users",
     columns := [{ name := "id", typ := "BIGINT", nullable := false,
                   defaultVal := none }] }]

/-- Claim C9, witness: on a conforming live schema the amended theorem
yields an empty change list for the second (and first) run. -/
theorem c9_planTwice_characterization_witness :
    (planTwice c9Env c9Db c9Models).2.changes = [] := by
  refine (c9_planTwice_characterization c9Env c9Db c9Models).2.mpr ⟨?_, ?_⟩
  · intro meta hmeta
    simp only [c9Models, List.mem_singleton] at hmeta
    subst hmeta
    refine ⟨[{ name := "id", typ := "BIGINT", nullable := false,
               defaultVal := none }], rfl, ?_⟩
    intro field hf
    simp only [List.mem_singleton] at hf
    subst hf
    exact ⟨{ name := "id", typ := "BIGINT", nullable := false,
             defaultVal := none }, rfl, rfl⟩
  · intro h
    simp [c9Env, pgMigratorEnv] at h

/-! ## Claim C5: build errors -/

/-- Claim C5: `Build` reports a build error — an `Except.error`, so no
statement is returned — for a create with a missing data payload, an
update with a missing data payload, an IN/NOT IN condition whose value
is not an array, a BETWEEN condition whose value is not a two-element
array, an EXISTS condition without a subquery (for plain conditions,
i.e. without a nested group, subquery or column reference, per the data
model's invariant), and a query whose action is outside the seven
supported statement kinds. -/
theorem c5_build_errors (d : Dialect) :
    (∀ q : Query, q.action = "create" → q.data = [] →
      Build d q = .error "no data provided for insert") ∧
    (∀ q : Query, q.action = "update" → q.data = [] →
      Build d q = .error "no data provided for update") ∧
    (∀ fuel field op v orF st, (op = "in" ∨ op = "not_in") →
      (∀ vs, v ≠ Value.vArr vs) →
      buildConditionM d (fuel + 1) (.mk field op v orF "" none [] []) st =
        .error "IN operator requires array value") ∧
    (∀ fuel field v orF st, (∀ vs, v = Value.vArr vs → vs.length ≠ 2) →
      buildConditionM d (fuel + 1) (.mk field "between" v orF "" none [] []) st =
        .error "BETWEEN operator requires array of two values") ∧
    (∀ fuel field v orF st,
      buildConditionM d (fuel + 1) (.mk field "exists" v orF "" none [] []) st =
        .error "EXISTS operator requires subquery") ∧
    (∀ q : Query,
      q.action ∉ (["find", "create", "create_batch", "update", "delete",
        "count", "aggregate"] : List String) →
      Build d q = .error ("unsupported action for SQL building: " ++ q.action)) := by
  refine ⟨?_, ?_, ?_, ?_, ?_, ?_⟩
  · intro q ha hd
    unfold Build
    rw [ha]
    unfold buildInsert
    rw [hd]
    rfl
  · intro q ha hd
    unfold Build
    rw [ha]
    unfold buildUpdate
    rw [hd]
    rfl
  · intro fuel field op v orF st hop hv
    rcases hop with hop | hop <;> subst hop <;>
      cases v <;> simp [buildConditionM] <;>
      exact absurd rfl (hv _)
  · intro fuel field v orF st hv
    cases v with
    | vArr vs =>
      match vs with
      | [] => simp [buildConditionM]
      | [a] => simp [buildConditionM]
      | [a, b] => exact absurd rfl (hv [a, b] rfl)
      | a :: b :: c :: rest => simp [buildConditionM]
    | vNull => simp [buildConditionM]
    | vBool b => simp [buildConditionM]
    | vInt n => simp [buildConditionM]
    | vStr s => simp [buildConditionM]
    | vMap m => simp [buildConditionM]
  · intro fuel field v orF st
    simp [buildConditionM]
  · intro q hna
    unfold Build
    split
    · exact absurd (by simp_all) hna
    · exact absurd (by simp_all) hna
    · exact absurd (by simp_all) hna
    · exact absurd (by simp_all) hna
    · exact absurd (by simp_all) hna
    · exact absurd (by simp_all) hna
    · exact absurd (by simp_all) hna
    · rfl

/-- Claim C5, witness: each error case at a concrete input. -/
theorem c5_build_errors_witness :
    Build PostgresDialect (.mk "t" "create" [] [] [] [] [] [] [] 0 0 [] [] "")
      = .error "no data provided for insert" ∧
    Build PostgresDialect (.mk "t" "update" [] [] [] [] [] [] [] 0 0 [] [] "")
      = .error "no data provided for update" ∧
    buildConditionM PostgresDialect 1 (.mk "f" "in" (.vInt 3) false "" none [] [])
        ⟨[], 0⟩ = .error "IN operator requires array value" ∧
    buildConditionM PostgresDialect 1
        (.mk "f" "between" (.vArr [.vInt 1]) false "" none [] []) ⟨[], 0⟩
      = .error "BETWEEN operator requires array of two values" ∧
    buildConditionM PostgresDialect 1 (.mk "f" "exists" .vNull false "" none [] [])
        ⟨[], 0⟩ = .error "EXISTS operator requires subquery" ∧
    Build PostgresDialect (.mk "t" "explain" [] [] [] [] [] [] [] 0 0 [] [] "")
      = .error "unsupported action for SQL building: explain" := by
  have h := c5_build_errors PostgresDialect
  refine ⟨h.1 _ rfl rfl, h.2.1 _ rfl rfl, ?_, ?_, ?_, ?_⟩
  · exact h.2.2.1 0 "f" "in" (.vInt 3) false ⟨[], 0⟩ (Or.inl rfl)
      (fun vs hv => by cases hv)
  · exact h.2.2.2.1 0 "f" (.vArr [.vInt 1]) false ⟨[], 0⟩
      (fun vs hv => by cases hv; decide)
  · exact h.2.2.2.2.1 0 "f" .vNull false ⟨[], 0⟩
  · exact h.2.2.2.2.2 _ (by decide)

/-! ## Character plumbing shared by the WHERE-absence and placeholder
theorems -/

/-- Every character of a string satisfies `p`. -/
def strAll (p : Char → Bool) (s : String) : Bool := s.data.all p

theorem strAll_append (p : Char → Bool) (s t : String) :
    strAll p (s ++ t) = (strAll p s && strAll p t) := by
  simp [strAll, String.data_append]

theorem strAll_sjoin (p : Char → Bool) (sep : String) (parts : List String)
    (hsep : strAll p sep = true) (hparts : ∀ x ∈ parts, strAll p x = true) :
    strAll p (sjoin sep parts) = true := by
  induction parts with
  | nil => simp [sjoin, strAll]
  | cons x rest ih =>
    cases rest with
    | nil => exact hparts x (by simp)
    | cons y t =>
      rw [show sjoin sep (x :: y :: t) = x ++ sep ++ sjoin sep (y :: t) from rfl]
      rw [strAll_append, strAll_append]
      rw [hparts x (by simp), hsep, ih (fun z hz => hparts z (by simp [hz]))]
      rfl

theorem strAll_sconcat (p : Char → Bool) (parts : List String)
    (hparts : ∀ x ∈ parts, strAll p x = true) :
    strAll p (sconcat parts) = true := by
  induction parts with
  | nil => simp [sconcat, strAll]
  | cons x rest ih =>
    rw [sconcat, strAll_append, hparts x (by simp),
      ih (fun z hz => hparts z (by simp [hz]))]
    rfl

/-- Characters occurring in the builder's literal SQL fragments outside
the WHERE machinery (no `W`/`w`, no `$`). -/
def builderLitChars : List Char :=
  "ABCDEFGHIJKLMNOPQRSTUVXYZid ()*,\"=!<>+-`?".data

theorem strAll_of_sub (p : Char → Bool)
    (hlit : ∀ c ∈ builderLitChars, p c = true) (s : String)
    (hsub : ∀ c ∈ s.data, c ∈ builderLitChars) : strAll p s = true := by
  simp only [strAll, List.all_eq_true]
  exact fun c hc => hlit c (hsub c hc)

theorem digitChar_isDigit (d : Nat) : (digitChar d).isDigit = true := by
  unfold digitChar
  split <;> decide

theorem natDigitsGo_digits (fuel n : Nat) :
    ∀ c ∈ natDigitsGo fuel n, c.isDigit = true := by
  induction fuel generalizing n with
  | zero => intro c hc; simp [natDigitsGo] at hc
  | succ fuel ih =>
    intro c hc
    unfold natDigitsGo at hc
    by_cases h : n < 10
    · rw [if_pos h] at hc
      simp at hc
      rw [hc]
      exact digitChar_isDigit n
    · rw [if_neg h] at hc
      rcases List.mem_append.mp hc with h1 | h2
      · exact ih (n / 10) c h1
      · simp at h2
        rw [h2]
        exact digitChar_isDigit (n % 10)

theorem natDigits_digits (n : Nat) : ∀ c ∈ natDigits n, c.isDigit = true :=
  natDigitsGo_digits (n + 1) n

theorem strAll_natToStr (p : Char → Bool)
    (hdig : ∀ c, c.isDigit = true → p c = true) (n : Nat) :
    strAll p (natToStr n) = true := by
  simp only [strAll, natToStr, List.all_eq_true]
  exact fun c hc => hdig c (natDigits_digits n c hc)

theorem strAll_intToStr (p : Char → Bool)
    (hdig : ∀ c, c.isDigit = true → p c = true) (hminus : p '-' = true)
    (n : Int) : strAll p (intToStr n) = true := by
  unfold intToStr
  split
  · rw [strAll_append]
    rw [strAll_natToStr p hdig]
    have : strAll p "-" = true := by simp [strAll, hminus]
    rw [this]
    rfl
  · exact strAll_natToStr p hdig n.toNat

theorem strAll_pgQuote (p : Char → Bool) (hq : p '"' = true) (s : String)
    (hs : strAll p s = true) :
    strAll p (PostgresDialect.quote s) = true := by
  show strAll p ("\"" ++ s ++ "\"") = true
  rw [strAll_append, strAll_append, hs]
  have : strAll p "\"" = true := by simp [strAll, hq]
  rw [this]
  rfl

theorem strAll_pgPlaceholder (p : Char → Bool)
    (hdig : ∀ c, c.isDigit = true → p c = true) (hd : p '$' = true) (n : Nat) :
    strAll p (PostgresDialect.placeholder n) = true := by
  show strAll p ("$" ++ natToStr n) = true
  rw [strAll_append, strAll_natToStr p hdig]
  have : strAll p "$" = true := by simp [strAll, hd]
  rw [this]
  rfl

theorem strAll_strToUpper (p : Char → Bool)
    (hup : ∀ c, p c = true → p (charUpper c) = true) (s : String)
    (hs : strAll p s = true) : strAll p (strToUpper s) = true := by
  simp only [strAll, strToUpper, List.all_eq_true] at *
  intro c hc
  obtain ⟨c0, hc0, hmap⟩ := List.mem_map.mp hc
  rw [← hmap]
  exact hup c0 (hs c0 hc0)

/-- The no-WHERE character predicate: neither `W` nor `w`. -/
def noWChar : Char → Bool := fun c => !(c = 'W' || c = 'w')

theorem noWChar_lit : ∀ c ∈ builderLitChars, noWChar c = true := by decide

theorem noWChar_digit : ∀ c : Char, c.isDigit = true → noWChar c = true := by
  intro c hc
  by_cases h1 : c = 'W'
  · rw [h1] at hc; exact absurd hc (by decide)
  · by_cases h2 : c = 'w'
    · rw [h2] at hc; exact absurd hc (by decide)
    · simp [noWChar, h1, h2]

theorem noWChar_upper : ∀ c : Char, noWChar c = true → noWChar (charUpper c) = true := by
  intro c hc
  unfold charUpper
  split <;> first | decide | simp_all [noWChar]

/-- A string without `W` cannot contain the substring `WHERE`. -/
theorem no_WHERE_of_noW (s : String) (h : strAll noWChar s = true) :
    strContains s "WHERE" = false := by
  have hW : 'W' ∉ s.data := by
    intro hmem
    simp only [strAll, List.all_eq_true] at h
    have := h 'W' hmem
    simp [noWChar] at this
  show hasSubstrL s.toList "WHERE".toList = false
  have : s.toList = s.data := rfl
  rw [this]
  generalize hl : s.data = l at hW ⊢
  clear hl h this
  induction l with
  | nil => simp [hasSubstrL]
  | cons c t ih =>
    unfold hasSubstrL
    have hpre : "WHERE".toList.isPrefixOf (c :: t) = false := by
      by_cases hc : c = 'W'
      · exact absurd (hc ▸ List.mem_cons_self c t) hW
      · show List.isPrefixOf ('W' :: _) (c :: t) = false
        simp [List.isPrefixOf]
        intro h
        exact absurd h.symm hc
    rw [hpre]
    simpa using ih (fun hmem => hW (List.mem_cons_of_mem c hmem))

/-- Per-item cleanliness of a SELECT-list entry. -/
def selStrAll (p : Char → Bool) : SelItem → Bool
  | .str s => strAll p s
  | .agg m => strAll p (lookupStr m "fn") && strAll p (lookupStr m "field") &&
      strAll p (lookupStr m "as")

/-- Cleanliness of the non-predicate strings a query feeds into the
builder (table, projections, ordering, grouping, having, joins, data
keys). -/
def queryStrAll (p : Char → Bool) (q : Query) : Bool :=
  strAll p q.table &&
  q.sel.all (selStrAll p) &&
  q.orderBy.all (fun o => strAll p o.field) &&
  q.groupBy.all (strAll p) &&
  (q.having.all fun h =>
    strAll p h.fn && strAll p h.field && strAll p h.op) &&
  (q.join.all fun j => strAll p j.table && strAll p j.joinType &&
    j.onConds.all fun pr => strAll p pr.1 && strAll p pr.2) &&
  (q.data.all fun kv => strAll p kv.1) &&
  (q.dataBatch.all fun rec => rec.all fun kv => strAll p kv.1)

section StrAllBuilder

variable (p : Char → Bool)
variable (hlit : ∀ c ∈ builderLitChars, p c = true)
variable (hdig : ∀ c, c.isDigit = true → p c = true)
variable (hup : ∀ c, p c = true → p (charUpper c) = true)
variable (hdol : p '$' = true)

include hlit hdig hup hdol

theorem strAll_ite_append (c : Prop) [Decidable c] (s t : String)
    (hs : strAll p s = true) (ht : strAll p t = true) :
    strAll p (if c then s ++ t else s) = true := by
  split
  · rw [strAll_append, hs, ht]; rfl
  · exact hs

omit hdol in
theorem strAll_buildSelectColumns (sel : List SelItem)
    (hsel : ∀ it ∈ sel, selStrAll p it = true) :
    strAll p (buildSelectColumns PostgresDialect sel) = true := by
  simp only [buildSelectColumns]
  split
  · exact strAll_of_sub p hlit "*" (by decide)
  · apply strAll_sjoin p _ _ (strAll_of_sub p hlit ", " (by decide))
    intro x hx
    obtain ⟨it, hit, hmap⟩ := List.mem_map.mp hx
    subst hmap
    have hsi := hsel it hit
    cases it with
    | str v =>
      simp only [selStrAll] at hsi
      show strAll p (if (decide (v = "*") || strContainsChar v '.') = true
        then v else PostgresDialect.quote v) = true
      split
      · exact hsi
      · exact strAll_pgQuote p (hlit '"' (by decide)) v hsi
    | agg m =>
      simp only [selStrAll, Bool.and_eq_true] at hsi
      obtain ⟨⟨hfn, hfield⟩, has⟩ := hsi
      have hexpr : strAll p
          (if (decide (lookupStr m "field" = "") ||
               decide (lookupStr m "field" = "*")) = true then
            strToUpper (lookupStr m "fn") ++ "(*)"
          else strToUpper (lookupStr m "fn") ++ "(" ++
            PostgresDialect.quote (lookupStr m "field") ++ ")") = true := by
        split
        · rw [strAll_append, strAll_strToUpper p hup _ hfn,
            strAll_of_sub p hlit "(*)" (by decide)]
          rfl
        · rw [strAll_append, strAll_append, strAll_append,
            strAll_strToUpper p hup _ hfn,
            strAll_of_sub p hlit "(" (by decide),
            strAll_pgQuote p (hlit '"' (by decide)) _ hfield,
            strAll_of_sub p hlit ")" (by decide)]
          rfl
      show strAll p (if lookupStr m "as" ≠ "" then _ ++ " AS " ++
          PostgresDialect.quote (lookupStr m "as") else _) = true
      split
      · rw [strAll_append, strAll_append, hexpr,
          strAll_of_sub p hlit " AS " (by decide),
          strAll_pgQuote p (hlit '"' (by decide)) _ has]
        rfl
      · exact hexpr

omit hdol in
theorem strAll_buildJoins (joins : List JoinClause)
    (hj : ∀ j ∈ joins, strAll p j.table = true ∧ strAll p j.joinType = true ∧
      ∀ pr ∈ j.onConds, strAll p pr.1 = true ∧ strAll p pr.2 = true) :
    strAll p (buildJoins PostgresDialect joins) = true := by
  simp only [buildJoins]
  apply strAll_sconcat
  intro x hx
  obtain ⟨j, hjm, hmap⟩ := List.mem_map.mp hx
  subst hmap
  obtain ⟨ht, hty, hon⟩ := hj j hjm
  have hjt : strAll p (if strToUpper j.joinType = "" then "INNER"
      else strToUpper j.joinType) = true := by
    split
    · exact strAll_of_sub p hlit "INNER" (by decide)
    · exact strAll_strToUpper p hup _ hty
  have hops : strAll p (sjoin " AND "
      (j.onConds.map (fun lr => lr.1 ++ " = " ++ lr.2))) = true := by
    apply strAll_sjoin p _ _ (strAll_of_sub p hlit " AND " (by decide))
    intro y hy
    obtain ⟨pr, hpr, hmap⟩ := List.mem_map.mp hy
    subst hmap
    rw [strAll_append, strAll_append, (hon pr hpr).1,
      strAll_of_sub p hlit " = " (by decide), (hon pr hpr).2]
    rfl
  rw [strAll_append, strAll_append, strAll_append, strAll_append,
    strAll_append, strAll_of_sub p hlit " " (by decide), hjt,
    strAll_of_sub p hlit " JOIN " (by decide),
    strAll_pgQuote p (hlit '"' (by decide)) _ ht,
    strAll_of_sub p hlit " ON " (by decide), hops]
  rfl

omit hdol in
theorem strAll_buildGroupBy (cols : List String)
    (hc : ∀ c ∈ cols, strAll p c = true) :
    strAll p (buildGroupBy PostgresDialect cols) = true := by
  simp only [buildGroupBy]
  apply strAll_sjoin p _ _ (strAll_of_sub p hlit ", " (by decide))
  intro x hx
  obtain ⟨c, hcm, hmap⟩ := List.mem_map.mp hx
  subst hmap
  split
  · exact hc c hcm
  · exact strAll_pgQuote p (hlit '"' (by decide)) _ (hc c hcm)

omit hdol in
theorem strAll_buildOrderBy (os : List OrderBy)
    (ho : ∀ o ∈ os, strAll p o.field = true) :
    strAll p (buildOrderBy PostgresDialect os) = true := by
  simp only [buildOrderBy]
  apply strAll_sjoin p _ _ (strAll_of_sub p hlit ", " (by decide))
  intro x hx
  obtain ⟨o, hom, hmap⟩ := List.mem_map.mp hx
  subst hmap
  have hf : strAll p (if strContainsChar o.field '.' = true then o.field
      else PostgresDialect.quote o.field) = true := by
    split
    · exact ho o hom
    · exact strAll_pgQuote p (hlit '"' (by decide)) _ (ho o hom)
  split
  · rw [strAll_append, hf, strAll_of_sub p hlit " DESC" (by decide)]; rfl
  · rw [strAll_append, hf, strAll_of_sub p hlit " ASC" (by decide)]; rfl

omit hlit hup in
theorem strAll_addParam (v : Value) (st : BState) :
    strAll p (addParam PostgresDialect v st).1 = true :=
  strAll_pgPlaceholder p hdig hdol (st.paramN + 1)

omit hlit hup in
theorem strAll_addParams (vs : List Value) (st : BState) :
    ∀ x ∈ (addParams PostgresDialect vs st).1, strAll p x = true := by
  induction vs generalizing st with
  | nil => intro x hx; simp [addParams] at hx
  | cons v rest ih =>
    intro x hx
    unfold addParams at hx
    rcases List.mem_cons.mp hx with h1 | h2
    · rw [h1]; exact strAll_addParam p hdig hdol v st
    · exact ih _ x h2

omit hlit hdig hup hdol in
theorem buildHavingParts_cons (d : Dialect) (h : HavingCondition)
    (rest : List HavingCondition) (st : BState) :
    buildHavingParts d (h :: rest) st =
      (((if h.field = "" || h.field = "*" then strToUpper h.fn ++ "(*)"
          else strToUpper h.fn ++ "(" ++ d.quote h.field ++ ")") ++ " " ++
          opToSQL h.op ++ " " ++ (addParam d h.value st).1) ::
        (buildHavingParts d rest (addParam d h.value st).2).1,
       (buildHavingParts d rest (addParam d h.value st).2).2) := rfl

theorem strAll_buildHavingParts (hs : List HavingCondition)
    (hh : ∀ h ∈ hs, strAll p h.fn = true ∧ strAll p h.field = true ∧
      strAll p h.op = true) :
    ∀ (st : BState) x, x ∈ (buildHavingParts PostgresDialect hs st).1 →
      strAll p x = true := by
  induction hs with
  | nil => intro st x hx; simp [buildHavingParts] at hx
  | cons h rest ih =>
    intro st x hx
    rw [buildHavingParts_cons] at hx
    rcases List.mem_cons.mp hx with h1 | h2
    · obtain ⟨hfn, hfield, hop⟩ := hh h (by simp)
      subst h1
      have hexpr : strAll p (if h.field = "" || h.field = "*" then
          strToUpper h.fn ++ "(*)"
          else strToUpper h.fn ++ "(" ++ PostgresDialect.quote h.field ++ ")")
          = true := by
        split
        · rw [strAll_append, strAll_strToUpper p hup _ hfn,
            strAll_of_sub p hlit "(*)" (by decide)]
          rfl
        · rw [strAll_append, strAll_append, strAll_append,
            strAll_strToUpper p hup _ hfn,
            strAll_of_sub p hlit "(" (by decide),
            strAll_pgQuote p (hlit '"' (by decide)) _ hfield,
            strAll_of_sub p hlit ")" (by decide)]
          rfl
      have hopTo : strAll p (opToSQL h.op) = true := by
        unfold opToSQL
        split
        all_goals first
          | exact hop
          | exact strAll_of_sub p hlit _ (by decide)
      rw [strAll_append, strAll_append, strAll_append, strAll_append, hexpr,
        strAll_of_sub p hlit " " (by decide), hopTo,
        strAll_addParam p hdig hdol]
      rfl
    · exact ih (fun h' hm => hh h' (by simp [hm])) _ x h2

omit hlit hdig hup hdol in
theorem buildHavingM_eq (d : Dialect) (hs : List HavingCondition)
    (st : BState) :
    buildHavingM d hs st =
      (sjoin " AND " (buildHavingParts d hs st).1,
       (buildHavingParts d hs st).2) := rfl

theorem strAll_buildHavingM (hs : List HavingCondition) (st : BState)
    (hh : ∀ h ∈ hs, strAll p h.fn = true ∧ strAll p h.field = true ∧
      strAll p h.op = true) :
    strAll p (buildHavingM PostgresDialect hs st).1 = true := by
  rw [buildHavingM_eq]
  exact strAll_sjoin p _ _ (strAll_of_sub p hlit " AND " (by decide))
    (fun x hx => strAll_buildHavingParts p hlit hdig hup hdol hs hh st x hx)



omit hlit hdig hup hdol in
theorem excBind_ok {α β : Type} (x : α) (f : α → Except String β) :
    (Except.ok x >>= f) = f x := rfl

omit hlit hdig hup hdol in
theorem strAll_app2 (s t : String) (hs : strAll p s = true)
    (ht : strAll p t = true) : strAll p (s ++ t) = true := by
  rw [strAll_append, hs, ht]; rfl

omit hlit hdig hup hdol in
theorem strAll_ite (c : Prop) [Decidable c] (s t : String)
    (hs : strAll p s = true) (ht : strAll p t = true) :
    strAll p (if c then s else t) = true := by
  split
  · exact hs
  · exact ht

set_option maxHeartbeats 1000000 in
theorem strAll_buildSelectQ_noW (fuel : Nat)
    (table action : String) (data : List (String × Value))
    (dataBatch : List (List (String × Value))) (sel : List SelItem)
    (orderBy : List OrderBy) (groupBy : List String)
    (having : List HavingCondition) (limit offset : Int)
    (join : List JoinClause) (ops : List Query) (al : String)
    (st : BState) (s : String) (st' : BState)
    (htab : strAll p table = true)
    (hsel : ∀ it ∈ sel, selStrAll p it = true)
    (hord : ∀ o ∈ orderBy, strAll p o.field = true)
    (hgrp : ∀ c ∈ groupBy, strAll p c = true)
    (hhav : ∀ h ∈ having, strAll p h.fn = true ∧ strAll p h.field = true ∧
      strAll p h.op = true)
    (hjoin : ∀ j ∈ join, strAll p j.table = true ∧
      strAll p j.joinType = true ∧
      ∀ pr ∈ j.onConds, strAll p pr.1 = true ∧ strAll p pr.2 = true)
    (hb : buildSelectQ PostgresDialect (fuel + 1)
      (.mk table action [] data dataBatch sel orderBy groupBy having
        limit offset join ops al) st = Except.ok (s, st')) :
    strAll p s = true := by
  simp only [buildSelectQ, List.length_nil, lt_self_iff_false, if_false,
    excBind_ok, buildHavingM_eq, apply_ite Prod.fst,
    Except.ok.injEq, Prod.mk.injEq] at hb
  obtain ⟨hs8, -⟩ := hb
  subst hs8
  set E1 := ("SELECT " ++
      if 0 < sel.length then buildSelectColumns PostgresDialect sel
      else "*") ++ " FROM " ++ PostgresDialect.quote table with hE1def
  have hquote := strAll_pgQuote p (hlit '"' (by decide)) table htab
  have hcols := strAll_buildSelectColumns p hlit hdig hup sel hsel
  have hjs := strAll_buildJoins p hlit hdig hup join hjoin
  have hgb := strAll_buildGroupBy p hlit hdig hup groupBy hgrp
  have hob := strAll_buildOrderBy p hlit hdig hup orderBy hord
  have hhv : strAll p
      (sjoin " AND " (buildHavingParts PostgresDialect having st).1) = true :=
    strAll_sjoin p _ _ (strAll_of_sub p hlit " AND " (by decide))
      (fun x hx => strAll_buildHavingParts p hlit hdig hup hdol having hhav st x hx)
  have hlim := strAll_intToStr p hdig (hlit '-' (by decide)) limit
  have hoff := strAll_intToStr p hdig (hlit '-' (by decide)) offset
  have hL1 := strAll_of_sub p hlit "SELECT " (by decide)
  have hL2 := strAll_of_sub p hlit "*" (by decide)
  have hL3 := strAll_of_sub p hlit " FROM " (by decide)
  have hL4 := strAll_of_sub p hlit " GROUP BY " (by decide)
  have hL5 := strAll_of_sub p hlit " HAVING " (by decide)
  have hL6 := strAll_of_sub p hlit " ORDER BY " (by decide)
  have hL7 := strAll_of_sub p hlit " LIMIT " (by decide)
  have hL8 := strAll_of_sub p hlit " OFFSET " (by decide)
  have hE1 : strAll p E1 = true := by
    rw [hE1def]
    exact strAll_app2 p _ _
      (strAll_app2 p _ _
        (strAll_app2 p _ _ hL1 (strAll_ite p _ _ _ hcols hL2)) hL3) hquote
  clear hE1def
  repeat'
    first
      | assumption
      | apply strAll_ite p
      | apply strAll_app2 p

theorem strAll_buildInsert_noW (q : Query) (st : BState)
    (s : String) (st' : BState)
    (htab : strAll p q.table = true)
    (hdata : ∀ kv ∈ q.data, strAll p kv.1 = true)
    (hb : buildInsert PostgresDialect q st = Except.ok (s, st')) :
    strAll p s = true := by
  by_cases hd : q.data.length = 0
  · rw [buildInsert, if_pos hd] at hb
    exact absurd hb (by simp)
  · rw [buildInsert, if_neg hd] at hb
    simp only [Except.ok.injEq, Prod.mk.injEq] at hb
    obtain ⟨hs, -⟩ := hb
    subst hs
    have hcols : strAll p
        (sjoin ", " (q.data.map (fun e => PostgresDialect.quote e.1))) = true := by
      apply strAll_sjoin p _ _ (strAll_of_sub p hlit ", " (by decide))
      intro x hx
      obtain ⟨kv, hkv, hmap⟩ := List.mem_map.mp hx
      subst hmap
      exact strAll_pgQuote p (hlit '"' (by decide)) _ (hdata kv hkv)
    have hphs : strAll p
        (sjoin ", " (addParams PostgresDialect (q.data.map (·.2)) st).1) = true :=
      strAll_sjoin p _ _ (strAll_of_sub p hlit ", " (by decide))
        (fun x hx => strAll_addParams p hdig hdol _ st x hx)
    show strAll p (if PostgresDialect.supportsReturning = true then _ ++ " RETURNING id" else _) = true
    rw [if_pos (show PostgresDialect.supportsReturning = true from rfl)]
    exact strAll_app2 p _ _
      (strAll_app2 p _ _
        (strAll_app2 p _ _
          (strAll_app2 p _ _
            (strAll_app2 p _ _
              (strAll_app2 p _ _
                (strAll_app2 p _ _
                  (strAll_of_sub p hlit "INSERT INTO " (by decide))
                  (strAll_pgQuote p (hlit '"' (by decide)) _ htab))
                (strAll_of_sub p hlit " (" (by decide)))
              hcols)
            (strAll_of_sub p hlit ") VALUES (" (by decide)))
          hphs)
        (strAll_of_sub p hlit ")" (by decide)))
      (strAll_of_sub p hlit " RETURNING id" (by decide))

omit hup in
theorem strAll_batchRows (cols : List String) (rows : List (List (String × Value))) :
    ∀ (st : BState) x, x ∈ (batchRows PostgresDialect cols rows st).1 →
      strAll p x = true := by
  induction rows with
  | nil => intro st x hx; simp [batchRows] at hx
  | cons r rest ih =>
    intro st x hx
    simp only [batchRows] at hx
    rcases List.mem_cons.mp hx with h1 | h2
    · subst h1
      exact strAll_app2 p _ _
        (strAll_app2 p _ _ (strAll_of_sub p hlit "(" (by decide))
          (strAll_sjoin p _ _ (strAll_of_sub p hlit ", " (by decide))
            (fun y hy => strAll_addParams p hdig hdol _ st y hy)))
        (strAll_of_sub p hlit ")" (by decide))
    · exact ih _ x h2

theorem strAll_buildInsertBatch_noW (q : Query) (st : BState)
    (s : String) (st' : BState)
    (htab : strAll p q.table = true)
    (hdb2 : ∀ r ∈ q.dataBatch, ∀ kv ∈ r, strAll p kv.1 = true)
    (hb : buildInsertBatch PostgresDialect q st = Except.ok (s, st')) :
    strAll p s = true := by
  rcases hdb : q.dataBatch with - | ⟨first, rest⟩
  · rw [buildInsertBatch, hdb] at hb
    exact absurd hb (by simp)
  · rw [buildInsertBatch, hdb] at hb
    simp only [Except.ok.injEq, Prod.mk.injEq] at hb
    obtain ⟨hs, -⟩ := hb
    subst hs
    have hfirst : ∀ kv ∈ first, strAll p kv.1 = true :=
      hdb2 first (by rw [hdb]; exact List.mem_cons_self _ _)
    have hcols : strAll p
        (sjoin ", " ((first.map (·.1)).map PostgresDialect.quote)) = true := by
      apply strAll_sjoin p _ _ (strAll_of_sub p hlit ", " (by decide))
      intro x hx
      obtain ⟨c, hc, hmap⟩ := List.mem_map.mp hx
      obtain ⟨kv, hkv, hmap2⟩ := List.mem_map.mp hc
      subst hmap; subst hmap2
      exact strAll_pgQuote p (hlit '"' (by decide)) _ (hfirst kv hkv)
    have hrows : strAll p
        (sjoin ", " (batchRows PostgresDialect (first.map (·.1))
          q.dataBatch st).1) = true :=
      strAll_sjoin p _ _ (strAll_of_sub p hlit ", " (by decide))
        (fun y hy => strAll_batchRows p hlit hdig hdol _ _ st y hy)
    show strAll p (if PostgresDialect.supportsReturning = true
        then _ ++ " RETURNING id" else _) = true
    rw [if_pos (show PostgresDialect.supportsReturning = true from rfl),
      ← hdb]
    exact strAll_app2 p _ _
      (strAll_app2 p _ _
        (strAll_app2 p _ _
          (strAll_app2 p _ _
            (strAll_app2 p _ _
              (strAll_app2 p _ _
                (strAll_of_sub p hlit "INSERT INTO " (by decide))
                (strAll_pgQuote p (hlit '"' (by decide)) _ htab))
              (strAll_of_sub p hlit " (" (by decide)))
            hcols)
          (strAll_of_sub p hlit ") VALUES " (by decide)))
        hrows)
      (strAll_of_sub p hlit " RETURNING id" (by decide))

theorem strAll_buildSetParts (kvs : List (String × Value))
    (hk : ∀ kv ∈ kvs, strAll p kv.1 = true) :
    ∀ (st : BState) x, x ∈ (buildSetParts PostgresDialect kvs st).1 →
      strAll p x = true := by
  induction kvs with
  | nil => intro st x hx; simp [buildSetParts] at hx
  | cons kv rest ih =>
    obtain ⟨col, val⟩ := kv
    intro st x hx
    simp only [buildSetParts] at hx
    rcases List.mem_cons.mp hx with h1 | h2
    · subst h1
      have hcol : strAll p col = true := hk (col, val) (by simp)
      have hquote := strAll_pgQuote p (hlit '"' (by decide)) col hcol
      have hplain : ∀ (v : Value) (st0 : BState), strAll p
          (PostgresDialect.quote col ++ " = " ++
            (addParam PostgresDialect v st0).1) = true := fun v st0 =>
        strAll_app2 p _ _
          (strAll_app2 p _ _ hquote (strAll_of_sub p hlit " = " (by decide)))
          (strAll_addParam p hdig hdol v st0)
      cases val with
      | vMap m =>
        rcases hincr : lookupVal m "$incr" with - | incr
        · rcases hdecr : lookupVal m "$decr" with - | decr
          · simp only [hincr, hdecr]
            exact hplain (Value.vMap m) st
          · simp only [hincr, hdecr]
            exact strAll_app2 p _ _
              (strAll_app2 p _ _
                (strAll_app2 p _ _
                  (strAll_app2 p _ _ hquote
                    (strAll_of_sub p hlit " = " (by decide)))
                  hquote)
                (strAll_of_sub p hlit " - " (by decide)))
              (strAll_addParam p hdig hdol decr st)
        · simp only [hincr]
          exact strAll_app2 p _ _
            (strAll_app2 p _ _
              (strAll_app2 p _ _
                (strAll_app2 p _ _ hquote
                  (strAll_of_sub p hlit " = " (by decide)))
                hquote)
              (strAll_of_sub p hlit " + " (by decide)))
            (strAll_addParam p hdig hdol incr st)
      | vNull => exact hplain Value.vNull st
      | vBool b => exact hplain (Value.vBool b) st
      | vInt n => exact hplain (Value.vInt n) st
      | vStr s2 => exact hplain (Value.vStr s2) st
      | vArr vs => exact hplain (Value.vArr vs) st
    · exact ih (fun kv' hm => hk kv' (List.mem_cons_of_mem _ hm)) _ x h2

theorem strAll_buildUpdate_noW (fuel : Nat) (q : Query) (st : BState)
    (s : String) (st' : BState)
    (hw : q.whereC = [])
    (htab : strAll p q.table = true)
    (hdata : ∀ kv ∈ q.data, strAll p kv.1 = true)
    (hb : buildUpdate PostgresDialect fuel q st = Except.ok (s, st')) :
    strAll p s = true := by
  by_cases hd : q.data.length = 0
  · rw [buildUpdate, if_pos hd] at hb
    exact absurd hb (by simp)
  · rw [buildUpdate, if_neg hd] at hb
    simp only [hw, List.length_nil, lt_self_iff_false, if_false,
      Except.ok.injEq, Prod.mk.injEq] at hb
    obtain ⟨hs, -⟩ := hb
    subst hs
    exact strAll_app2 p _ _
      (strAll_app2 p _ _
        (strAll_app2 p _ _ (strAll_of_sub p hlit "UPDATE " (by decide))
          (strAll_pgQuote p (hlit '"' (by decide)) _ htab))
        (strAll_of_sub p hlit " SET " (by decide)))
      (strAll_sjoin p _ _ (strAll_of_sub p hlit ", " (by decide))
        (fun y hy => strAll_buildSetParts p hlit hdig hup hdol _ hdata st y hy))

theorem strAll_buildDelete_noW (fuel : Nat) (q : Query) (st : BState)
    (s : String) (st' : BState)
    (hw : q.whereC = [])
    (htab : strAll p q.table = true)
    (hb : buildDelete PostgresDialect fuel q st = Except.ok (s, st')) :
    strAll p s = true := by
  rw [buildDelete] at hb
  simp only [hw, List.length_nil, lt_self_iff_false, if_false,
    Except.ok.injEq, Prod.mk.injEq] at hb
  obtain ⟨hs, -⟩ := hb
  subst hs
  exact strAll_app2 p _ _ (strAll_of_sub p hlit "DELETE FROM " (by decide))
    (strAll_pgQuote p (hlit '"' (by decide)) _ htab)

theorem strAll_buildCount_noW (fuel : Nat) (q : Query) (st : BState)
    (s : String) (st' : BState)
    (hw : q.whereC = [])
    (htab : strAll p q.table = true)
    (hb : buildCount PostgresDialect fuel q st = Except.ok (s, st')) :
    strAll p s = true := by
  rw [buildCount] at hb
  simp only [hw, List.length_nil, lt_self_iff_false, if_false,
    Except.ok.injEq, Prod.mk.injEq] at hb
  obtain ⟨hs, -⟩ := hb
  subst hs
  exact strAll_app2 p _ _
    (strAll_of_sub p hlit "SELECT COUNT(*) FROM " (by decide))
    (strAll_pgQuote p (hlit '"' (by decide)) _ htab)

set_option maxHeartbeats 1000000 in
theorem strAll_buildAggregate_noW (fuel : Nat) (q : Query) (st : BState)
    (s : String) (st' : BState)
    (hw : q.whereC = [])
    (htab : strAll p q.table = true)
    (hsel : ∀ it ∈ q.sel, selStrAll p it = true)
    (hord : ∀ o ∈ q.orderBy, strAll p o.field = true)
    (hgrp : ∀ c ∈ q.groupBy, strAll p c = true)
    (hhav : ∀ h ∈ q.having, strAll p h.fn = true ∧ strAll p h.field = true ∧
      strAll p h.op = true)
    (hjoin : ∀ j ∈ q.join, strAll p j.table = true ∧
      strAll p j.joinType = true ∧
      ∀ pr ∈ j.onConds, strAll p pr.1 = true ∧ strAll p pr.2 = true)
    (hb : buildAggregate PostgresDialect fuel q st = Except.ok (s, st')) :
    strAll p s = true := by
  rw [buildAggregate] at hb
  simp only [hw, List.length_nil, lt_self_iff_false, if_false,
    excBind_ok, buildHavingM_eq, apply_ite Prod.fst,
    Except.ok.injEq, Prod.mk.injEq] at hb
  obtain ⟨hs8, -⟩ := hb
  subst hs8
  set E1 := "SELECT " ++ buildSelectColumns PostgresDialect q.sel ++
    " FROM " ++ PostgresDialect.quote q.table with hE1def
  have hquote := strAll_pgQuote p (hlit '"' (by decide)) q.table htab
  have hcols := strAll_buildSelectColumns p hlit hdig hup q.sel hsel
  have hjs := strAll_buildJoins p hlit hdig hup q.join hjoin
  have hgb := strAll_buildGroupBy p hlit hdig hup q.groupBy hgrp
  have hob := strAll_buildOrderBy p hlit hdig hup q.orderBy hord
  have hhv : strAll p
      (sjoin " AND " (buildHavingParts PostgresDialect q.having st).1) = true :=
    strAll_sjoin p _ _ (strAll_of_sub p hlit " AND " (by decide))
      (fun x hx =>
        strAll_buildHavingParts p hlit hdig hup hdol q.having hhav st x hx)
  have hL1 := strAll_of_sub p hlit "SELECT " (by decide)
  have hL3 := strAll_of_sub p hlit " FROM " (by decide)
  have hL4 := strAll_of_sub p hlit " GROUP BY " (by decide)
  have hL5 := strAll_of_sub p hlit " HAVING " (by decide)
  have hL6 := strAll_of_sub p hlit " ORDER BY " (by decide)
  have hE1 : strAll p E1 = true := by
    rw [hE1def]
    exact strAll_app2 p _ _
      (strAll_app2 p _ _ (strAll_app2 p _ _ hL1 hcols) hL3) hquote
  clear hE1def
  repeat'
    first
      | assumption
      | apply strAll_ite p
      | apply strAll_app2 p

omit hlit hdig hup hdol in
theorem excBind_err {α β : Type} (e : String) (f : α → Except String β) :
    ((Except.error e : Except String α) >>= f) = Except.error e := rfl

theorem strAll_Build_noW (q : Query) (hw : q.whereC = [])
    (hq : queryStrAll p q = true) (br : BuildResult)
    (hb : Build PostgresDialect q = Except.ok br) :
    strAll p br.sql = true := by
  obtain ⟨table, action, whereC, data, dataBatch, sel, orderBy, groupBy,
    having, limit, offset, join, ops, al⟩ := q
  simp only [Query.whereC] at hw
  subst hw
  simp only [queryStrAll, Query.table, Query.sel, Query.orderBy,
    Query.groupBy, Query.having, Query.join, Query.data, Query.dataBatch,
    Bool.and_eq_true, List.all_eq_true] at hq
  obtain ⟨⟨⟨⟨⟨⟨⟨htab, hsel⟩, hord⟩, hgrp⟩, hhav⟩, hjoin⟩, hdata⟩, hdb2⟩ := hq
  have hhav' : ∀ h ∈ having, strAll p h.fn = true ∧
      strAll p h.field = true ∧ strAll p h.op = true := by
    intro h hm
    have h2 := hhav h hm
    simp only [Bool.and_eq_true] at h2
    exact ⟨h2.1.1, h2.1.2, h2.2⟩
  have hjoin' : ∀ j ∈ join, strAll p j.table = true ∧
      strAll p j.joinType = true ∧
      ∀ pr ∈ j.onConds, strAll p pr.1 = true ∧ strAll p pr.2 = true := by
    intro j hm
    have h2 := hjoin j hm
    simp only [Bool.and_eq_true, List.all_eq_true] at h2
    exact ⟨h2.1.1, h2.1.2, fun pr hpr => (h2.2 pr hpr)⟩
  simp only [Build, Query.action] at hb
  split at hb
  · rename_i heq
    cases hres : buildSelectQ PostgresDialect
        (qsize (.mk table "find" [] data dataBatch sel orderBy groupBy
          having limit offset join ops al) + 1)
        (.mk table "find" [] data dataBatch sel orderBy groupBy having
          limit offset join ops al) ⟨[], 0⟩ with
    | error e => rw [hres, excBind_err] at hb; simp at hb
    | ok pr =>
      obtain ⟨s0, st0⟩ := pr
      rw [hres, excBind_ok] at hb
      simp only [Except.ok.injEq] at hb
      subst hb
      exact strAll_buildSelectQ_noW p hlit hdig hup hdol _ table "find"
        data dataBatch sel orderBy groupBy having limit offset join ops al
        ⟨[], 0⟩ s0 st0 htab hsel hord hgrp hhav' hjoin' hres
  · rename_i heq
    cases hres : buildInsert PostgresDialect
        (.mk table "create" [] data dataBatch sel orderBy groupBy having
          limit offset join ops al) ⟨[], 0⟩ with
    | error e => rw [hres, excBind_err] at hb; simp at hb
    | ok pr =>
      obtain ⟨s0, st0⟩ := pr
      rw [hres, excBind_ok] at hb
      simp only [Except.ok.injEq] at hb
      subst hb
      exact strAll_buildInsert_noW p hlit hdig hup hdol
        (.mk table "create" [] data dataBatch sel orderBy groupBy having
          limit offset join ops al) ⟨[], 0⟩ s0 st0 htab hdata hres
  · rename_i heq
    cases hres : buildInsertBatch PostgresDialect
        (.mk table "create_batch" [] data dataBatch sel orderBy groupBy having
          limit offset join ops al) ⟨[], 0⟩ with
    | error e => rw [hres, excBind_err] at hb; simp at hb
    | ok pr =>
      obtain ⟨s0, st0⟩ := pr
      rw [hres, excBind_ok] at hb
      simp only [Except.ok.injEq] at hb
      subst hb
      exact strAll_buildInsertBatch_noW p hlit hdig hup hdol
        (.mk table "create_batch" [] data dataBatch sel orderBy groupBy having
          limit offset join ops al) ⟨[], 0⟩ s0 st0 htab hdb2 hres
  · rename_i heq
    cases hres : buildUpdate PostgresDialect
        (qsize (.mk table "update" [] data dataBatch sel orderBy groupBy
          having limit offset join ops al) + 1)
        (.mk table "update" [] data dataBatch sel orderBy groupBy having
          limit offset join ops al) ⟨[], 0⟩ with
    | error e => rw [hres, excBind_err] at hb; simp at hb
    | ok pr =>
      obtain ⟨s0, st0⟩ := pr
      rw [hres, excBind_ok] at hb
      simp only [Except.ok.injEq] at hb
      subst hb
      exact strAll_buildUpdate_noW p hlit hdig hup hdol _
        (.mk table "update" [] data dataBatch sel orderBy groupBy having
          limit offset join ops al) ⟨[], 0⟩ s0 st0 rfl htab hdata hres
  · rename_i heq
    cases hres : buildDelete PostgresDialect
        (qsize (.mk table "delete" [] data dataBatch sel orderBy groupBy
          having limit offset join ops al) + 1)
        (.mk table "delete" [] data dataBatch sel orderBy groupBy having
          limit offset join ops al) ⟨[], 0⟩ with
    | error e => rw [hres, excBind_err] at hb; simp at hb
    | ok pr =>
      obtain ⟨s0, st0⟩ := pr
      rw [hres, excBind_ok] at hb
      simp only [Except.ok.injEq] at hb
      subst hb
      exact strAll_buildDelete_noW p hlit hdig hup hdol _
        (.mk table "delete" [] data dataBatch sel orderBy groupBy having
          limit offset join ops al) ⟨[], 0⟩ s0 st0 rfl htab hres
  · rename_i heq
    cases hres : buildCount PostgresDialect
        (qsize (.mk table "count" [] data dataBatch sel orderBy groupBy
          having limit offset join ops al) + 1)
        (.mk table "count" [] data dataBatch sel orderBy groupBy having
          limit offset join ops al) ⟨[], 0⟩ with
    | error e => rw [hres, excBind_err] at hb; simp at hb
    | ok pr =>
      obtain ⟨s0, st0⟩ := pr
      rw [hres, excBind_ok] at hb
      simp only [Except.ok.injEq] at hb
      subst hb
      exact strAll_buildCount_noW p hlit hdig hup hdol _
        (.mk table "count" [] data dataBatch sel orderBy groupBy having
          limit offset join ops al) ⟨[], 0⟩ s0 st0 rfl htab hres
  · rename_i heq
    cases hres : buildAggregate PostgresDialect
        (qsize (.mk table "aggregate" [] data dataBatch sel orderBy groupBy
          having limit offset join ops al) + 1)
        (.mk table "aggregate" [] data dataBatch sel orderBy groupBy having
          limit offset join ops al) ⟨[], 0⟩ with
    | error e => rw [hres, excBind_err] at hb; simp at hb
    | ok pr =>
      obtain ⟨s0, st0⟩ := pr
      rw [hres, excBind_ok] at hb
      simp only [Except.ok.injEq] at hb
      subst hb
      exact strAll_buildAggregate_noW p hlit hdig hup hdol _
        (.mk table "aggregate" [] data dataBatch sel orderBy groupBy having
          limit offset join ops al) ⟨[], 0⟩ s0 st0 rfl htab hsel hord hgrp hhav' hjoin' hres
  · rw [excBind_err] at hb; simp at hb
end StrAllBuilder

theorem buildCondTail_shape (d : Dialect) (cs : List Condition) :
    ∀ (fuel : Nat) (st : BState) (ps : List String) (st' : BState),
      buildCondTail d fuel cs st = Except.ok (ps, st') →
      ∃ raw : List String, raw.length = cs.length ∧
        ps = List.zipWith
          (fun c sc => (if c.orFlag then "OR " else "AND ") ++ sc) cs raw := by
  induction cs with
  | nil =>
    intro fuel st ps st' hb
    cases fuel with
    | zero => exact absurd hb (by simp [buildCondTail])
    | succ fuel =>
      simp only [buildCondTail, Except.ok.injEq, Prod.mk.injEq] at hb
      exact ⟨[], rfl, hb.1.symm⟩
  | cons c rest ih =>
    intro fuel st ps st' hb
    cases fuel with
    | zero => exact absurd hb (by simp [buildCondTail])
    | succ fuel =>
      simp only [buildCondTail] at hb
      cases h1 : buildConditionM d fuel c st with
      | error e => rw [h1, excBind_err] at hb; exact absurd hb (by simp)
      | ok pr1 =>
        obtain ⟨s1, st1⟩ := pr1
        rw [h1, excBind_ok] at hb
        cases h2 : buildCondTail d fuel rest st1 with
        | error e => rw [h2, excBind_err] at hb; exact absurd hb (by simp)
        | ok pr2 =>
          obtain ⟨ps2, st2⟩ := pr2
          rw [h2, excBind_ok] at hb
          simp only [Except.ok.injEq, Prod.mk.injEq] at hb
          obtain ⟨hps, -⟩ := hb
          obtain ⟨raw2, hlen2, hps2⟩ := ih fuel st1 ps2 st2 h2
          refine ⟨s1 :: raw2, by simp [hlen2], ?_⟩
          rw [← hps, hps2, List.zipWith_cons_cons]
          cases hc : c.orFlag <;> simp [hc]

theorem buildConditionsM_shape (d : Dialect) (fuel : Nat) (c0 : Condition)
    (rest : List Condition) (st : BState) (s : String) (st' : BState)
    (hb : buildConditionsM d fuel (c0 :: rest) st = Except.ok (s, st')) :
    ∃ (fuel' : Nat) (s0 : String) (st1 : BState) (raw : List String),
      fuel = fuel' + 1 ∧
      buildConditionM d fuel' c0 st = Except.ok (s0, st1) ∧
      raw.length = rest.length ∧
      s = sjoin " " (s0 :: List.zipWith
        (fun c sc => (if c.orFlag then "OR " else "AND ") ++ sc) rest raw) := by
  cases fuel with
  | zero => exact absurd hb (by simp [buildConditionsM])
  | succ fuel =>
    simp only [buildConditionsM] at hb
    cases h1 : buildConditionM d fuel c0 st with
    | error e => rw [h1, excBind_err] at hb; exact absurd hb (by simp)
    | ok pr1 =>
      obtain ⟨s0, st1⟩ := pr1
      rw [h1, excBind_ok] at hb
      cases h2 : buildCondTail d fuel rest st1 with
      | error e => rw [h2, excBind_err] at hb; exact absurd hb (by simp)
      | ok pr2 =>
        obtain ⟨ps2, st2⟩ := pr2
        rw [h2, excBind_ok] at hb
        simp only [Except.ok.injEq, Prod.mk.injEq] at hb
        obtain ⟨hs, -⟩ := hb
        obtain ⟨raw2, hlen2, hps2⟩ := buildCondTail_shape d rest fuel st1 ps2 st2 h2
        exact ⟨fuel, s0, st1, raw2, rfl, h1, hlen2, by rw [← hs, hps2]⟩

/-- Concrete query for exercising the WHERE-clause claims: a bare find. -/
def c3q : Query := .mk "users" "find" [] [] [] [] [] [] [] 0 0 [] [] ""

/-- The build result for `c3q`. -/
def c3br : BuildResult := ⟨"SELECT * FROM \"users\"", []⟩

/-- First predicate of the concrete chain: no Or flag. -/
def c3c0 : Condition := .mk "age" ">" (.vInt 18) false "" none [] []

/-- Second predicate of the concrete chain: Or flag set. -/
def c3c1 : Condition := .mk "name" "=" (.vStr "bob") true "" none [] []

/-- Compiled text of the two-predicate chain. -/
def c3s : String := "\"age\" > $1 OR \"name\" = $2"

/-- C3: a query with an empty predicate list builds (for any action the
builder accepts, and any query whose identifier strings avoid `W`) to SQL
containing no `WHERE` at all; a non-empty predicate list compiles so that
the first predicate is unprefixed and each later predicate carries an
`OR `/`AND ` prefix according to its own Or flag, all joined with single
spaces and no extra parentheses. -/
theorem c3_where_clause_shape :
    (∀ (q : Query) (br : BuildResult), q.whereC = [] →
      queryStrAll noWChar q = true →
      Build PostgresDialect q = Except.ok br →
      strContains br.sql "WHERE" = false) ∧
    (∀ (d : Dialect) (fuel : Nat) (c0 : Condition) (rest : List Condition)
      (st : BState) (s : String) (st' : BState),
      buildConditionsM d fuel (c0 :: rest) st = Except.ok (s, st') →
      ∃ (fuel' : Nat) (s0 : String) (st1 : BState) (raw : List String),
        fuel = fuel' + 1 ∧
        buildConditionM d fuel' c0 st = Except.ok (s0, st1) ∧
        raw.length = rest.length ∧
        s = sjoin " " (s0 :: List.zipWith
          (fun c sc => (if c.orFlag then "OR " else "AND ") ++ sc)
          rest raw)) := by
  constructor
  · intro q br hw hq hb
    exact no_WHERE_of_noW _
      (strAll_Build_noW noWChar noWChar_lit noWChar_digit noWChar_upper
        (by decide) q hw hq br hb)
  · exact fun d fuel c0 rest st s st' hb =>
      buildConditionsM_shape d fuel c0 rest st s st' hb

/-- Witness for C3 at concrete inputs. -/
theorem c3_where_clause_shape_witness :
    (Build PostgresDialect c3q = Except.ok c3br ∧
      strContains c3br.sql "WHERE" = false) ∧
    (∃ (fuel' : Nat) (s0 : String) (st1 : BState) (raw : List String),
      (3 : Nat) = fuel' + 1 ∧
      buildConditionM PostgresDialect fuel' c3c0 ⟨[], 0⟩ =
        Except.ok (s0, st1) ∧
      raw.length = [c3c1].length ∧
      c3s = sjoin " " (s0 :: List.zipWith
        (fun c sc => (if c.orFlag then "OR " else "AND ") ++ sc)
        [c3c1] raw)) := by
  constructor
  · exact ⟨rfl, c3_where_clause_shape.1 c3q c3br rfl (by decide) rfl⟩
  · exact c3_where_clause_shape.2 PostgresDialect 3 c3c0 [c3c1] ⟨[], 0⟩
      c3s ⟨[.vInt 18, .vStr "bob"], 2⟩ rfl

/-- Numeric value of a decimal digit character. -/
def digitVal (c : Char) : Nat := c.toNat - 48

/-- Value of a most-significant-first digit string. -/
def digitsVal (ds : List Char) : Nat :=
  ds.foldl (fun a c => a * 10 + digitVal c) 0

/-- Scan a character list for PostgreSQL positional placeholders `$N`
(a dollar sign followed by a maximal non-empty digit run) and return
their numbers in text order.  The fuel only bounds the recursion depth;
the character count always suffices. -/
def extractPH : Nat → List Char → List Nat
  | 0, _ => []
  | _ + 1, [] => []
  | fuel + 1, c :: rest =>
    if c = '$' then
      match rest.takeWhile Char.isDigit with
      | [] => extractPH fuel rest
      | ds => digitsVal ds :: extractPH fuel (rest.dropWhile Char.isDigit)
    else extractPH fuel rest

/-- Placeholder numbers of a character list, in text order. -/
def extractL (cs : List Char) : List Nat := extractPH cs.length cs

theorem dropWhile_len_le (p : Char → Bool) :
    ∀ l : List Char, (l.dropWhile p).length ≤ l.length := by
  intro l
  induction l with
  | nil => simp
  | cons c rest ih =>
    rw [List.dropWhile_cons]
    split
    · exact le_trans ih (Nat.le_succ _)
    · exact le_refl _

theorem takeWhile_all_append (p : Char → Bool) (l1 l2 : List Char)
    (h1 : ∀ c ∈ l1, p c = true)
    (h2 : ∀ c, l2.head? = some c → p c = false) :
    (l1 ++ l2).takeWhile p = l1 := by
  induction l1 with
  | nil =>
    cases l2 with
    | nil => rfl
    | cons z zs => simp [List.takeWhile_cons, h2 z rfl]
  | cons d rest ih =>
    simp [List.takeWhile_cons, h1 d (by simp),
      ih (fun c hm => h1 c (List.mem_cons_of_mem _ hm))]

theorem dropWhile_all_append (p : Char → Bool) (l1 l2 : List Char)
    (h1 : ∀ c ∈ l1, p c = true)
    (h2 : ∀ c, l2.head? = some c → p c = false) :
    (l1 ++ l2).dropWhile p = l2 := by
  induction l1 with
  | nil =>
    cases l2 with
    | nil => rfl
    | cons z zs => simp [List.dropWhile_cons, h2 z rfl]
  | cons d rest ih =>
    simp [List.dropWhile_cons, h1 d (by simp),
      ih (fun c hm => h1 c (List.mem_cons_of_mem _ hm))]

theorem extractPH_fuel (f1 : Nat) : ∀ (f2 : Nat) (cs : List Char),
    cs.length ≤ f1 → cs.length ≤ f2 → extractPH f1 cs = extractPH f2 cs := by
  induction f1 with
  | zero =>
    intro f2 cs h1 h2
    rw [Nat.le_zero] at h1
    rw [List.length_eq_zero] at h1
    subst h1
    cases f2 <;> rfl
  | succ f1 ih =>
    intro f2 cs h1 h2
    cases cs with
    | nil => cases f2 <;> rfl
    | cons c rest =>
      cases f2 with
      | zero => exact absurd h2 (by simp)
      | succ f2 =>
        simp only [List.length_cons, Nat.succ_le_succ_iff] at h1 h2
        simp only [extractPH]
        have hdrop : (rest.dropWhile Char.isDigit).length ≤ rest.length :=
          dropWhile_len_le _ _
        by_cases hc : c = '$'
        · rw [if_pos hc, if_pos hc]
          cases htw : rest.takeWhile Char.isDigit with
          | nil => exact ih f2 rest h1 h2
          | cons d ds =>
            rw [ih f2 (rest.dropWhile Char.isDigit)
              (le_trans hdrop h1) (le_trans hdrop h2)]
        · rw [if_neg hc, if_neg hc]
          exact ih f2 rest h1 h2

theorem extractL_cons_ne (c : Char) (cs : List Char) (hc : ¬ c = '$') :
    extractL (c :: cs) = extractL cs := by
  show extractPH (cs.length + 1) (c :: cs) = extractPH cs.length cs
  simp only [extractPH, if_neg hc]

theorem extractL_nil : extractL [] = [] := rfl

theorem extractL_dollarFree (cs : List Char) (h : ∀ c ∈ cs, ¬ c = '$') :
    extractL cs = [] := by
  induction cs with
  | nil => rfl
  | cons c rest ih =>
    rw [extractL_cons_ne c rest (h c (by simp))]
    exact ih (fun c' hm => h c' (List.mem_cons_of_mem _ hm))

theorem extractL_dollar_noDigit (cs : List Char)
    (h : ∀ c, cs.head? = some c → c.isDigit = false) :
    extractL ('$' :: cs) = extractL cs := by
  show extractPH (cs.length + 1) ('$' :: cs) = extractPH cs.length cs
  simp only [extractPH, if_pos rfl]
  cases cs with
  | nil => rfl
  | cons c rest =>
    rw [List.takeWhile_cons, h c rfl]
    simp

theorem extractL_dollar_digits (d : Char) (ds2 Z : List Char)
    (hd : d.isDigit = true) (hds : ∀ c ∈ ds2, c.isDigit = true)
    (hZ : ∀ c, Z.head? = some c → c.isDigit = false) :
    extractL ('$' :: d :: (ds2 ++ Z)) =
      digitsVal (d :: ds2) :: extractL Z := by
  have htake : (ds2 ++ Z).takeWhile Char.isDigit = ds2 :=
    takeWhile_all_append _ _ _ hds hZ
  have hdropA : (ds2 ++ Z).dropWhile Char.isDigit = Z :=
    dropWhile_all_append _ _ _ hds hZ
  show extractPH ((d :: (ds2 ++ Z)).length + 1) ('$' :: d :: (ds2 ++ Z)) = _
  simp only [extractPH, if_pos rfl, List.takeWhile_cons, List.dropWhile_cons,
    hd, eq_self_iff_true, if_true, htake, hdropA]
  rw [extractPH_fuel _ Z.length Z
    (by simp [List.length_append]; omega) (le_refl _)]
  rfl

theorem dropWhile_head_not (p : Char → Bool) :
    ∀ (l : List Char) (c : Char), (l.dropWhile p).head? = some c →
      p c = false := by
  intro l
  induction l with
  | nil => intro c h; simp at h
  | cons a rest ih =>
    intro c h
    rw [List.dropWhile_cons] at h
    split at h
    · exact ih c h
    · rename_i hpa
      simp only [List.head?_cons, Option.some.injEq] at h
      subst h
      simp only [Bool.not_eq_true] at hpa
      exact hpa

theorem takeWhile_forall (p : Char → Bool) :
    ∀ (l : List Char) (c : Char), c ∈ l.takeWhile p → p c = true := by
  intro l
  induction l with
  | nil => intro c h; simp at h
  | cons a rest ih =>
    intro c h
    rw [List.takeWhile_cons] at h
    split at h
    · rcases List.mem_cons.mp h with h1 | h2
      · subst h1; assumption
      · exact ih c h2
    · simp at h

theorem extractL_append_headSafe :
    ∀ (n : Nat) (X Y : List Char), X.length ≤ n →
    (∀ c, Y.head? = some c → c.isDigit = false) →
    extractL (X ++ Y) = extractL X ++ extractL Y := by
  intro n
  induction n with
  | zero =>
    intro X Y h1 hY
    rw [Nat.le_zero, List.length_eq_zero] at h1
    subst h1
    simp [extractL_nil]
  | succ n ih =>
    intro X Y h1 hY
    cases X with
    | nil => simp [extractL_nil]
    | cons c X' =>
      simp only [List.length_cons, Nat.succ_le_succ_iff] at h1
      by_cases hc : c = '$'
      · subst hc
        cases htw : X'.takeWhile Char.isDigit with
        | nil =>
          cases X' with
          | nil =>
            rw [List.cons_append, List.nil_append,
              extractL_dollar_noDigit Y hY]
            rw [show extractL ['$'] = extractL [] from
              extractL_dollar_noDigit [] (by simp)]
            simp [extractL_nil]
          | cons c' X'' =>
            have hc' : c'.isDigit = false := by
              rw [List.takeWhile_cons] at htw
              by_cases h : c'.isDigit = true
              · rw [h] at htw; simp at htw
              · simpa using h
            rw [List.cons_append, List.cons_append,
              extractL_dollar_noDigit (c' :: (X'' ++ Y)) (by
                intro x hx
                simp only [List.head?_cons, Option.some.injEq] at hx
                subst hx; exact hc'),
              extractL_dollar_noDigit (c' :: X'') (by
                intro x hx
                simp only [List.head?_cons, Option.some.injEq] at hx
                subst hx; exact hc')]
            exact ih (c' :: X'') Y h1 hY
        | cons d ds2 =>
          have hXd : X' = (d :: ds2) ++ X'.dropWhile Char.isDigit := by
            conv_lhs => rw [← List.takeWhile_append_dropWhile
              (p := Char.isDigit) (l := X')]
            rw [htw]
          have hd : d.isDigit = true :=
            takeWhile_forall _ X' d (by rw [htw]; simp)
          have hds2 : ∀ x ∈ ds2, x.isDigit = true := fun x hx =>
            takeWhile_forall _ X' x (by rw [htw]; simp [hx])
          have hZhead : ∀ x, (X'.dropWhile Char.isDigit).head? = some x →
              x.isDigit = false := fun x hx => dropWhile_head_not _ X' x hx
          have hZlen : (X'.dropWhile Char.isDigit).length ≤ n :=
            le_trans (dropWhile_len_le _ X') h1
          rw [List.cons_append, hXd]
          rw [show ((d :: ds2) ++ X'.dropWhile Char.isDigit) ++ Y =
            d :: (ds2 ++ (X'.dropWhile Char.isDigit ++ Y)) by simp]
          rw [extractL_dollar_digits d ds2 (X'.dropWhile Char.isDigit ++ Y)
            hd hds2 (by
              intro x hx
              cases hZ : X'.dropWhile Char.isDigit with
              | nil => rw [hZ] at hx; simp only [List.nil_append] at hx
                       exact hY x hx
              | cons z zs =>
                rw [hZ] at hx
                simp only [List.cons_append, List.head?_cons,
                  Option.some.injEq] at hx
                subst hx
                exact hZhead z (by rw [hZ]; rfl))]
          rw [show (d :: ds2) ++ X'.dropWhile Char.isDigit =
            d :: (ds2 ++ X'.dropWhile Char.isDigit) by simp]
          rw [extractL_dollar_digits d ds2 (X'.dropWhile Char.isDigit)
            hd hds2 hZhead]
          rw [ih (X'.dropWhile Char.isDigit) Y hZlen hY]
          simp
      · rw [List.cons_append, extractL_cons_ne c (X' ++ Y) hc,
          extractL_cons_ne c X' hc]
        exact ih X' Y h1 hY

theorem extractL_append_lastSafe :
    ∀ (n : Nat) (X Y : List Char), X.length ≤ n →
    (∀ c, X.getLast? = some c → ¬ c = '$' ∧ c.isDigit = false) →
    extractL (X ++ Y) = extractL X ++ extractL Y := by
  intro n
  induction n with
  | zero =>
    intro X Y h1 hX
    rw [Nat.le_zero, List.length_eq_zero] at h1
    subst h1
    simp [extractL_nil]
  | succ n ih =>
    intro X Y h1 hX
    cases X with
    | nil => simp [extractL_nil]
    | cons c X' =>
      simp only [List.length_cons, Nat.succ_le_succ_iff] at h1
      cases X' with
      | nil =>
        obtain ⟨hc1, hc2⟩ := hX c (by simp)
        rw [List.cons_append, List.nil_append, extractL_cons_ne c Y hc1,
          extractL_cons_ne c [] hc1]
        simp [extractL_nil]
      | cons c2 X'' =>
        have hlast : ∀ x, (c2 :: X'').getLast? = some x →
            ¬ x = '$' ∧ x.isDigit = false := by
          intro x hx
          exact hX x (by rw [List.getLast?_cons_cons]; exact hx)
        by_cases hc : c = '$'
        · subst hc
          cases htw : (c2 :: X'').takeWhile Char.isDigit with
          | nil =>
            have hc2d : c2.isDigit = false := by
              rw [List.takeWhile_cons] at htw
              by_cases h : c2.isDigit = true
              · rw [h] at htw; simp at htw
              · simpa using h
            rw [List.cons_append, List.cons_append,
              extractL_dollar_noDigit (c2 :: (X'' ++ Y)) (by
                intro x hx
                simp only [List.head?_cons, Option.some.injEq] at hx
                subst hx; exact hc2d),
              extractL_dollar_noDigit (c2 :: X'') (by
                intro x hx
                simp only [List.head?_cons, Option.some.injEq] at hx
                subst hx; exact hc2d)]
            exact ih (c2 :: X'') Y h1 hlast
          | cons d ds2 =>
            have hXd : c2 :: X'' =
                (d :: ds2) ++ (c2 :: X'').dropWhile Char.isDigit := by
              conv_lhs => rw [← List.takeWhile_append_dropWhile
                (p := Char.isDigit) (l := c2 :: X'')]
              rw [htw]
            have hd : d.isDigit = true :=
              takeWhile_forall _ (c2 :: X'') d (by rw [htw]; simp)
            have hds2 : ∀ x ∈ ds2, x.isDigit = true := fun x hx =>
              takeWhile_forall _ (c2 :: X'') x (by rw [htw]; simp [hx])
            have hZhead : ∀ x,
                ((c2 :: X'').dropWhile Char.isDigit).head? = some x →
                x.isDigit = false :=
              fun x hx => dropWhile_head_not _ (c2 :: X'') x hx
            cases hZ : (c2 :: X'').dropWhile Char.isDigit with
            | nil =>
              exfalso
              rw [hZ, List.append_nil] at hXd
              have hlastd : ∀ x, (c2 :: X'').getLast? = some x →
                  x.isDigit = true := by
                intro x hx
                rw [hXd] at hx
                have hmem := List.mem_of_mem_getLast? (l := d :: ds2) (a := x) hx
                rcases List.mem_cons.mp hmem with h1 | h2
                · subst h1; exact hd
                · exact hds2 x h2
              obtain ⟨x, hx⟩ : ∃ x, (c2 :: X'').getLast? = some x := by
                cases hgl : (c2 :: X'').getLast? with
                | none => simp [List.getLast?_eq_none_iff] at hgl
                | some y => exact ⟨y, rfl⟩
              have := (hlast x hx).2
              rw [hlastd x hx] at this
              exact absurd this (by simp)
            | cons z zs =>
              have hZlast : ∀ x, (z :: zs).getLast? = some x →
                  ¬ x = '$' ∧ x.isDigit = false := by
                intro x hx
                apply hlast
                rw [hXd, hZ]
                rw [show d :: ds2 ++ (z :: zs) = (d :: ds2) ++ (z :: zs)
                  from rfl]
                rw [List.getLast?_append_of_ne_nil (d :: ds2) (by simp)]
                exact hx
              have hZlen : (z :: zs).length ≤ n := by
                have := dropWhile_len_le Char.isDigit (c2 :: X'')
                rw [hZ] at this
                simp only [List.length_cons] at this h1 ⊢
                omega
              rw [List.cons_append, hXd, hZ]
              rw [show ((d :: ds2) ++ (z :: zs)) ++ Y =
                d :: (ds2 ++ ((z :: zs) ++ Y)) by simp]
              rw [extractL_dollar_digits d ds2 ((z :: zs) ++ Y)
                hd hds2 (by
                  intro x hx
                  simp only [List.cons_append, List.head?_cons,
                    Option.some.injEq] at hx
                  subst hx
                  exact hZhead z (by rw [hZ]; rfl))]
              rw [show (d :: ds2) ++ (z :: zs) =
                d :: (ds2 ++ (z :: zs)) by simp]
              rw [extractL_dollar_digits d ds2 (z :: zs)
                hd hds2 (by
                  intro x hx
                  simp only [List.head?_cons, Option.some.injEq] at hx
                  subst hx
                  exact hZhead z (by rw [hZ]; rfl))]
              rw [ih (z :: zs) Y hZlen hZlast]
              simp
        · rw [List.cons_append, extractL_cons_ne c ((c2 :: X'') ++ Y) hc,
            extractL_cons_ne c (c2 :: X'') hc]
          exact ih (c2 :: X'') Y h1 hlast

theorem digitVal_digitChar (k : Nat) (hk : k < 10) :
    digitVal (digitChar k) = k := by
  interval_cases k <;> rfl

theorem digitsVal_append_one (xs : List Char) (c : Char) :
    digitsVal (xs ++ [c]) = digitsVal xs * 10 + digitVal c := by
  simp [digitsVal, List.foldl_append]

theorem digitsVal_natDigitsGo (fuel : Nat) :
    ∀ n, n < fuel → digitsVal (natDigitsGo fuel n) = n := by
  induction fuel with
  | zero => intro n h; omega
  | succ fuel ih =>
    intro n h
    rw [natDigitsGo]
    by_cases h10 : n < 10
    · rw [if_pos h10]
      simp [digitsVal, digitVal_digitChar n h10]
    · rw [if_neg h10]
      rw [digitsVal_append_one, ih (n / 10) (by omega),
        digitVal_digitChar (n % 10) (by omega)]
      omega

theorem digitsVal_natDigits (n : Nat) : digitsVal (natDigits n) = n :=
  digitsVal_natDigitsGo (n + 1) n (Nat.lt_succ_self n)

theorem natDigitsGo_ne_nil (fuel n : Nat) :
    natDigitsGo (fuel + 1) n ≠ [] := by
  rw [natDigitsGo]
  split
  · simp
  · simp

/-- A placeholder `$k` followed by text that does not begin with a digit
contributes exactly the number `k`. -/
theorem extractL_placeholder_append (k : Nat) (Y : List Char)
    (hY : ∀ c, Y.head? = some c → c.isDigit = false) :
    extractL ('$' :: (natDigits k ++ Y)) = k :: extractL Y := by
  cases hnd : natDigits k with
  | nil => exact absurd hnd (natDigitsGo_ne_nil k k)
  | cons d ds =>
    have hd : d.isDigit = true := by
      have := natDigits_digits k d (by rw [hnd]; simp)
      exact this
    have hds : ∀ c ∈ ds, c.isDigit = true := fun c hc =>
      natDigits_digits k c (by rw [hnd]; simp [hc])
    rw [List.cons_append, extractL_dollar_digits d ds Y hd hds hY]
    rw [show d :: ds = natDigits k from hnd.symm, digitsVal_natDigits]

theorem extractL_placeholder (k : Nat) :
    extractL ('$' :: natDigits k) = [k] := by
  have := extractL_placeholder_append k [] (by simp)
  rwa [List.append_nil, extractL_nil] at this

/-- Placeholder numbers of a string, in text order. -/
def extractStr (s : String) : List Nat := extractL s.data

/-- Safe to appear to the right of any text: does not begin with a digit
(so it cannot extend a preceding placeholder number). -/
def headSafe (t : String) : Prop :=
  ∀ c, t.data.head? = some c → c.isDigit = false

/-- Safe to appear to the left of any text: does not end with a dollar
or a digit (so it cannot open or extend a placeholder across the seam). -/
def lastSafe (s : String) : Prop :=
  ∀ c, s.data.getLast? = some c → ¬ c = '$' ∧ c.isDigit = false

theorem headSafe_mk (t : String) (c0 : Char) (h : t.data.head? = some c0)
    (h2 : c0.isDigit = false) : headSafe t := by
  intro c hc
  rw [h] at hc
  injection hc with hc
  subst hc
  exact h2

theorem headSafe_empty (t : String) (h : t.data = []) : headSafe t := by
  intro c hc
  rw [h] at hc
  simp at hc

theorem lastSafe_mk (s : String) (c0 : Char) (h : s.data.getLast? = some c0)
    (h1 : ¬ c0 = '$') (h2 : c0.isDigit = false) : lastSafe s := by
  intro c hc
  rw [h] at hc
  injection hc with hc
  subst hc
  exact ⟨h1, h2⟩

theorem extractStr_append_head (s t : String) (ht : headSafe t) :
    extractStr (s ++ t) = extractStr s ++ extractStr t := by
  show extractL (s ++ t).data = _
  rw [String.data_append]
  exact extractL_append_headSafe s.data.length s.data t.data (le_refl _) ht

theorem extractStr_append_last (s t : String) (hs : lastSafe s) :
    extractStr (s ++ t) = extractStr s ++ extractStr t := by
  show extractL (s ++ t).data = _
  rw [String.data_append]
  exact extractL_append_lastSafe s.data.length s.data t.data (le_refl _) hs

/-- No dollar sign: the character predicate under which a string
contributes no placeholder. -/
def noDollar : Char → Bool := fun c => !(c == '$')

theorem noDollar_lit : ∀ c ∈ builderLitChars, noDollar c = true := by decide

theorem noDollar_digit : ∀ c : Char, c.isDigit = true → noDollar c = true := by
  intro c hc
  by_cases h1 : c = '$'
  · rw [h1] at hc; exact absurd hc (by decide)
  · simp [noDollar, h1]

theorem noDollar_upper : ∀ c : Char, noDollar c = true →
    noDollar (charUpper c) = true := by
  intro c hc
  unfold charUpper
  split <;> first | decide | simp_all [noDollar]

theorem extractStr_noDollar (s : String) (h : strAll noDollar s = true) :
    extractStr s = [] := by
  apply extractL_dollarFree
  intro c hc heq
  simp only [strAll, List.all_eq_true] at h
  have := h c hc
  rw [heq] at this
  exact absurd this (by simp [noDollar])

mutual
/-- Cleanliness: every string a query feeds into the SQL text is free of
dollar signs, recursively through predicates, groups and subqueries. -/
inductive CleanQ : Query → Prop
  | mk (q : Query)
      (hstr : queryStrAll noDollar q = true)
      (hconds : ∀ c ∈ q.whereC, CleanC c) : CleanQ q

inductive CleanC : Condition → Prop
  | mk (c : Condition)
      (hfield : strAll noDollar c.field = true)
      (hop : strAll noDollar c.op = true)
      (href : strAll noDollar c.ref = true)
      (hsub : ∀ sq, c.subquery = some sq → CleanQ sq)
      (hand : ∀ c' ∈ c.andG, CleanC c')
      (hor : ∀ c' ∈ c.orGroup, CleanC c') : CleanC c
end

theorem lastSafe_append (s t : String) (ht : lastSafe t)
    (hne : t.data ≠ []) : lastSafe (s ++ t) := by
  intro c hc
  rw [String.data_append, List.getLast?_append_of_ne_nil s.data hne] at hc
  exact ht c hc

theorem headSafe_append_left (s t : String) (hs : headSafe s)
    (hne : s.data ≠ []) : headSafe (s ++ t) := by
  intro c hc
  rw [String.data_append] at hc
  cases hd : s.data with
  | nil => exact absurd hd hne
  | cons a l =>
    rw [hd, List.cons_append, List.head?_cons] at hc
    injection hc with hc
    rw [← hc]
    exact hs a (by rw [hd]; rfl)

theorem extractStr_empty : extractStr "" = [] := rfl

/-- Extraction distributes over a separator join when the separator is
non-empty, placeholder-free, and safe on both seams. -/
theorem extractStr_sjoin (sep : String) (hne : sep.data ≠ [])
    (hhead : headSafe sep) (hlast : lastSafe sep)
    (hfree : extractStr sep = []) :
    ∀ ps : List String,
      extractStr (sjoin sep ps) = (ps.map extractStr).flatten := by
  intro ps
  induction ps with
  | nil => simp [sjoin, extractStr_empty]
  | cons x rest ih =>
    cases rest with
    | nil => simp [sjoin]
    | cons y t =>
      rw [show sjoin sep (x :: y :: t) = x ++ sep ++ sjoin sep (y :: t)
        from rfl]
      rw [extractStr_append_last (x ++ sep) _
        (lastSafe_append x sep hlast hne)]
      rw [extractStr_append_head x sep hhead, hfree, ih]
      simp

theorem extractStr_sconcat_safe :
    ∀ ps : List String, (∀ x ∈ ps, headSafe x ∧ x.data ≠ []) →
      extractStr (sconcat ps) = (ps.map extractStr).flatten := by
  intro ps
  induction ps with
  | nil => intro h; simp [sconcat, extractStr_empty]
  | cons x rest ih =>
    intro h
    rw [show sconcat (x :: rest) = x ++ sconcat rest from rfl]
    cases rest with
    | nil =>
      simp [sconcat, extractStr_append_head x ""
        (headSafe_empty "" rfl), extractStr_empty]
    | cons y t =>
      rw [extractStr_append_head x (sconcat (y :: t)) (by
        rw [show sconcat (y :: t) = y ++ sconcat t from rfl]
        exact headSafe_append_left y _ (h y (by simp)).1 (h y (by simp)).2)]
      rw [ih (fun z hz => h z (List.mem_cons_of_mem _ hz))]
      simp

theorem addParam_snd (v : Value) (st : BState) :
    (addParam PostgresDialect v st).2 =
      ⟨st.params ++ [v], st.paramN + 1⟩ := rfl

theorem addParam_fst (v : Value) (st : BState) :
    (addParam PostgresDialect v st).1 =
      PostgresDialect.placeholder (st.paramN + 1) := rfl

theorem placeholder_data (k : Nat) :
    (PostgresDialect.placeholder k).data = '$' :: natDigits k := by
  show ("$" ++ natToStr k).data = _
  rw [String.data_append]
  rfl

theorem extractStr_placeholder (k : Nat) :
    extractStr (PostgresDialect.placeholder k) = [k] := by
  show extractL (PostgresDialect.placeholder k).data = [k]
  rw [placeholder_data]
  exact extractL_placeholder k

theorem headSafe_placeholder (k : Nat) :
    headSafe (PostgresDialect.placeholder k) := by
  apply headSafe_mk _ '$' _ (by decide)
  rw [placeholder_data]
  rfl

theorem addParams_fst (vs : List Value) : ∀ st : BState,
    (addParams PostgresDialect vs st).1 =
      (List.range' (st.paramN + 1) vs.length).map
        PostgresDialect.placeholder := by
  induction vs with
  | nil => intro st; simp [addParams]
  | cons v rest ih =>
    intro st
    simp only [addParams, List.length_cons, List.range'_succ, List.map_cons,
      List.cons.injEq]
    constructor
    · rfl
    · rw [ih]
      rfl

theorem addParams_snd (vs : List Value) : ∀ st : BState,
    (addParams PostgresDialect vs st).2 =
      ⟨st.params ++ vs, st.paramN + vs.length⟩ := by
  induction vs with
  | nil => intro st; simp [addParams]
  | cons v rest ih =>
    intro st
    simp only [addParams]
    rw [ih]
    simp only [addParam_snd]
    simp [BState.mk.injEq]
    omega

theorem extractStr_sjoin_placeholders (a len : Nat) :
    extractStr (sjoin ", " ((List.range' (a + 1) len).map
      PostgresDialect.placeholder)) = List.range' (a + 1) len := by
  rw [extractStr_sjoin ", " (by decide)
    (headSafe_mk _ ',' rfl (by decide))
    (lastSafe_mk _ ' ' rfl (by decide) (by decide))
    (by rfl)]
  rw [List.map_map]
  have : (extractStr ∘ PostgresDialect.placeholder) =
      fun k => [k] := by
    funext k
    exact extractStr_placeholder k
  rw [this]
  induction (List.range' (a + 1) len) with
  | nil => rfl
  | cons x t ih => simp [ih]

theorem strAll_opToSQL_g (p : Char → Bool)
    (hlit : ∀ c ∈ builderLitChars, p c = true) (op : String)
    (hop : strAll p op = true) : strAll p (opToSQL op) = true := by
  unfold opToSQL
  split
  all_goals first
    | exact hop
    | exact strAll_of_sub p hlit _ (by decide)

theorem extractStr_quote (s : String) (h : strAll noDollar s = true) :
    extractStr (PostgresDialect.quote s) = [] :=
  extractStr_noDollar _ (strAll_pgQuote noDollar (by decide) s h)

/-- Per-item and state effect of the HAVING loop: each entry binds one
placeholder, numbered consecutively. -/
theorem havingParts_spec (hs : List HavingCondition)
    (hh : ∀ h ∈ hs, strAll noDollar h.fn = true ∧
      strAll noDollar h.field = true ∧ strAll noDollar h.op = true) :
    ∀ st : BState,
      ((buildHavingParts PostgresDialect hs st).1).map extractStr =
        (List.range' (st.paramN + 1) hs.length).map (fun k => [k]) ∧
      (buildHavingParts PostgresDialect hs st).2.paramN =
        st.paramN + hs.length ∧
      (buildHavingParts PostgresDialect hs st).2.params.length =
        st.params.length + hs.length := by
  induction hs with
  | nil => intro st; simp [buildHavingParts]
  | cons h rest ih =>
    intro st
    obtain ⟨hfn, hfield, hop⟩ := hh h (by simp)
    have ihr := ih (fun h' hm => hh h' (List.mem_cons_of_mem _ hm))
      (addParam PostgresDialect h.value st).2
    rw [buildHavingParts_cons]
    simp only [List.map_cons, List.length_cons]
    have hexprFree : strAll noDollar
        (if h.field = "" || h.field = "*" then strToUpper h.fn ++ "(*)"
          else strToUpper h.fn ++ "(" ++ PostgresDialect.quote h.field ++ ")")
        = true := by
      split
      · rw [strAll_append, strAll_strToUpper noDollar noDollar_upper _ hfn,
          strAll_of_sub noDollar noDollar_lit "(*)" (by decide)]
        rfl
      · rw [strAll_append, strAll_append, strAll_append,
          strAll_strToUpper noDollar noDollar_upper _ hfn,
          strAll_of_sub noDollar noDollar_lit "(" (by decide),
          strAll_pgQuote noDollar (by decide) _ hfield,
          strAll_of_sub noDollar noDollar_lit ")" (by decide)]
        rfl
    have hpartX : extractStr
        ((if h.field = "" || h.field = "*" then strToUpper h.fn ++ "(*)"
          else strToUpper h.fn ++ "(" ++ PostgresDialect.quote h.field ++ ")")
          ++ " " ++ opToSQL h.op ++ " " ++
          (addParam PostgresDialect h.value st).1) =
        [st.paramN + 1] := by
      rw [extractStr_append_last _ _
        (lastSafe_append _ " " (lastSafe_mk " " ' ' rfl (by decide)
          (by decide)) (by decide))]
      rw [extractStr_noDollar _ (by
        rw [strAll_append, strAll_append, strAll_append, hexprFree,
          strAll_of_sub noDollar noDollar_lit " " (by decide),
          strAll_opToSQL_g noDollar noDollar_lit _ hop]
        rfl)]
      rw [addParam_fst, extractStr_placeholder]
      rfl
    refine ⟨?_, ?_, ?_⟩
    · rw [hpartX, ihr.1]
      rw [show (addParam PostgresDialect h.value st).2.paramN =
        st.paramN + 1 from rfl]
      rw [List.range'_succ, List.map_cons]
    · rw [ihr.2.1]
      rw [show (addParam PostgresDialect h.value st).2.paramN =
        st.paramN + 1 from rfl]
      omega
    · rw [ihr.2.2]
      rw [show (addParam PostgresDialect h.value st).2.params.length =
        st.params.length + 1 by rw [addParam_snd]; simp]
      omega

/-- The built HAVING clause extracts the consecutive run of placeholders
bound by its entries. -/
theorem buildHavingM_extract (hs : List HavingCondition)
    (hh : ∀ h ∈ hs, strAll noDollar h.fn = true ∧
      strAll noDollar h.field = true ∧ strAll noDollar h.op = true)
    (st : BState) :
    extractStr (sjoin " AND " (buildHavingParts PostgresDialect hs st).1) =
      List.range' (st.paramN + 1) hs.length ∧
    (buildHavingParts PostgresDialect hs st).2.paramN =
      st.paramN + hs.length ∧
    (buildHavingParts PostgresDialect hs st).2.params.length =
      st.params.length + hs.length := by
  obtain ⟨h1, h2, h3⟩ := havingParts_spec hs hh st
  refine ⟨?_, h2, h3⟩
  rw [extractStr_sjoin " AND " (by decide)
    (headSafe_mk _ ' ' rfl (by decide))
    (lastSafe_mk _ ' ' rfl (by decide) (by decide)) (by rfl)]
  rw [h1]
  induction List.range' (st.paramN + 1) hs.length with
  | nil => rfl
  | cons x t ih2 => simp [ih2]

theorem setParts_spec (kvs : List (String × Value))
    (hk : ∀ kv ∈ kvs, strAll noDollar kv.1 = true) :
    ∀ st : BState,
      ((buildSetParts PostgresDialect kvs st).1).map extractStr =
        (List.range' (st.paramN + 1) kvs.length).map (fun k => [k]) ∧
      (buildSetParts PostgresDialect kvs st).2.paramN =
        st.paramN + kvs.length ∧
      (buildSetParts PostgresDialect kvs st).2.params.length =
        st.params.length + kvs.length := by
  induction kvs with
  | nil => intro st; simp [buildSetParts]
  | cons kv rest ih =>
    obtain ⟨col, val⟩ := kv
    intro st
    have ihr := ih (fun kv' hm => hk kv' (List.mem_cons_of_mem _ hm))
    have hcol : strAll noDollar col = true := hk (col, val) (by simp)
    have hquote := strAll_pgQuote noDollar (by decide) col hcol
    have hgen : ∀ (pre : String) (v : Value), strAll noDollar pre = true →
        lastSafe pre →
        extractStr (pre ++ (addParam PostgresDialect v st).1) =
          [st.paramN + 1] := by
      intro pre v hfree hlast
      rw [extractStr_append_last _ _ hlast, extractStr_noDollar _ hfree,
        addParam_fst, extractStr_placeholder]
      rfl
    have heqfree : strAll noDollar (PostgresDialect.quote col ++ " = ")
        = true := by
      rw [strAll_append, hquote,
        strAll_of_sub noDollar noDollar_lit " = " (by decide)]
      rfl
    have heqlast : lastSafe (PostgresDialect.quote col ++ " = ") :=
      lastSafe_append _ " = "
        (lastSafe_mk " = " ' ' rfl (by decide) (by decide)) (by decide)
    have hplain : ∀ v : Value, extractStr
        (PostgresDialect.quote col ++ " = " ++
          (addParam PostgresDialect v st).1) = [st.paramN + 1] :=
      fun v => hgen _ v heqfree heqlast
    have harith : ∀ (mid : String) (v : Value),
        strAll noDollar mid = true → mid.data ≠ [] → lastSafe mid →
        extractStr (PostgresDialect.quote col ++ " = " ++
          PostgresDialect.quote col ++ mid ++
          (addParam PostgresDialect v st).1) = [st.paramN + 1] := by
      intro mid v hmidF hmidNe hmidL
      apply hgen _ v
      · rw [strAll_append, strAll_append, heqfree, hquote, hmidF]
        rfl
      · exact lastSafe_append _ mid hmidL hmidNe
    have hone : ∀ (part : String) (v : Value),
        extractStr part = [st.paramN + 1] →
        List.map extractStr
          (part :: (buildSetParts PostgresDialect rest
            (addParam PostgresDialect v st).2).1) =
          List.map (fun k => [k])
            (List.range' (st.paramN + 1) (rest.length + 1)) ∧
        (buildSetParts PostgresDialect rest
          (addParam PostgresDialect v st).2).2.paramN =
          st.paramN + (rest.length + 1) ∧
        (buildSetParts PostgresDialect rest
          (addParam PostgresDialect v st).2).2.params.length =
          st.params.length + (rest.length + 1) := by
      intro part v hpart
      have hr := ihr (addParam PostgresDialect v st).2
      have hpn : (addParam PostgresDialect v st).2.paramN =
          st.paramN + 1 := rfl
      have hpl : (addParam PostgresDialect v st).2.params.length =
          st.params.length + 1 := by rw [addParam_snd]; simp
      refine ⟨?_, ?_, ?_⟩
      · rw [List.range'_succ, List.map_cons, List.map_cons, hpart]
        rw [hr.1, hpn]
      · rw [hr.2.1, hpn]; omega
      · rw [hr.2.2, hpl]; omega
    cases val with
    | vMap m =>
      rcases hincr : lookupVal m "$incr" with - | incr
      · rcases hdecr : lookupVal m "$decr" with - | decr
        · simp only [buildSetParts, hincr, hdecr, List.length_cons]
          exact hone _ (Value.vMap m) (hplain (Value.vMap m))
        · simp only [buildSetParts, hincr, hdecr, List.length_cons]
          exact hone _ decr (harith " - " decr (by decide) (by decide)
            (lastSafe_mk " - " ' ' rfl (by decide) (by decide)))
      · simp only [buildSetParts, hincr, List.length_cons]
        exact hone _ incr (harith " + " incr (by decide) (by decide)
          (lastSafe_mk " + " ' ' rfl (by decide) (by decide)))
    | vNull =>
      simp only [buildSetParts, List.length_cons]
      exact hone _ Value.vNull (hplain Value.vNull)
    | vBool b =>
      simp only [buildSetParts, List.length_cons]
      exact hone _ (Value.vBool b) (hplain (Value.vBool b))
    | vInt n =>
      simp only [buildSetParts, List.length_cons]
      exact hone _ (Value.vInt n) (hplain (Value.vInt n))
    | vStr s2 =>
      simp only [buildSetParts, List.length_cons]
      exact hone _ (Value.vStr s2) (hplain (Value.vStr s2))
    | vArr vs =>
      simp only [buildSetParts, List.length_cons]
      exact hone _ (Value.vArr vs) (hplain (Value.vArr vs))

theorem batchRows_spec (cols : List String)
    (rows : List (List (String × Value))) : ∀ st : BState,
    (((batchRows PostgresDialect cols rows st).1).map extractStr).flatten =
      List.range' (st.paramN + 1) (rows.length * cols.length) ∧
    (batchRows PostgresDialect cols rows st).2.paramN =
      st.paramN + rows.length * cols.length ∧
    (batchRows PostgresDialect cols rows st).2.params.length =
      st.params.length + rows.length * cols.length := by
  induction rows with
  | nil => intro st; simp [batchRows]
  | cons r rest ih =>
    intro st
    simp only [batchRows, List.map_cons, List.join_cons, List.length_cons]
    have hvlen : (cols.map
        (fun col => (lookupVal r col).getD Value.vNull)).length =
        cols.length := by simp
    have hrow : extractStr ("(" ++ sjoin ", "
        (addParams PostgresDialect
          (cols.map (fun col => (lookupVal r col).getD Value.vNull)) st).1
        ++ ")") = List.range' (st.paramN + 1) cols.length := by
      rw [extractStr_append_head _ ")"
        (headSafe_mk ")" ')' rfl (by decide))]
      rw [extractStr_append_last "(" _
        (lastSafe_mk "(" '(' rfl (by decide) (by decide))]
      rw [addParams_fst, hvlen, extractStr_sjoin_placeholders]
      rw [show extractStr "(" = [] from rfl,
        show extractStr ")" = [] from rfl]
      simp
    have hst1N : (addParams PostgresDialect
        (cols.map (fun col => (lookupVal r col).getD Value.vNull)) st).2.paramN
        = st.paramN + cols.length := by rw [addParams_snd]; simp
    have hst1L : (addParams PostgresDialect
        (cols.map (fun col => (lookupVal r col).getD Value.vNull))
          st).2.params.length
        = st.params.length + cols.length := by rw [addParams_snd]; simp
    have ihr := ih (addParams PostgresDialect
      (cols.map (fun col => (lookupVal r col).getD Value.vNull)) st).2
    refine ⟨?_, ?_, ?_⟩
    · rw [hrow, ihr.1, hst1N]
      rw [show st.paramN + cols.length + 1 =
        (st.paramN + 1) + cols.length by omega]
      rw [show (rest.length + 1) * cols.length =
        rest.length * cols.length + cols.length by ring]
      have := List.range'_append (st.paramN + 1) cols.length
        (rest.length * cols.length) 1
      simp only [Nat.one_mul, one_mul] at this
      exact this
    · rw [ihr.2.1, hst1N]; ring
    · rw [ihr.2.2, hst1L]; ring

/-- Builder-state relation: a successful build step advances the
parameter counter, grows the parameter list by exactly the counter
delta, and its SQL text holds exactly the placeholders of that delta,
consecutively numbered. -/
def BRel (st st' : BState) (s : String) : Prop :=
  st.paramN ≤ st'.paramN ∧
  st'.params.length + st.paramN = st.params.length + st'.paramN ∧
  extractStr s = List.range' (st.paramN + 1) (st'.paramN - st.paramN)

/-- Same relation for a list of SQL fragments, read left to right. -/
def SegsRel (st st' : BState) (ps : List String) : Prop :=
  st.paramN ≤ st'.paramN ∧
  st'.params.length + st.paramN = st.params.length + st'.paramN ∧
  (ps.map extractStr).flatten =
    List.range' (st.paramN + 1) (st'.paramN - st.paramN)

theorem range'_glue (a m b : Nat) (h1 : a ≤ m) (h2 : m ≤ b) :
    List.range' (a + 1) (m - a) ++ List.range' (m + 1) (b - m) =
      List.range' (a + 1) (b - a) := by
  have h := List.range'_append (a + 1) (m - a) (b - m) 1
  simp only [one_mul] at h
  rw [show a + 1 + (m - a) = m + 1 by omega] at h
  rw [show b - m + (m - a) = b - a by omega] at h
  exact h

theorem range'_glue2 (a m len : Nat) (h1 : a ≤ m) :
    List.range' (a + 1) (m - a) ++ List.range' (m + 1) len =
      List.range' (a + 1) (m + len - a) := by
  have h := range'_glue a m (m + len) h1 (by omega)
  rw [show m + len - m = len by omega] at h
  exact h

theorem prodFst_mk {α β : Type} (a : α) (b : β) : (a, b).1 = a := rfl

theorem prodSnd_mk {α β : Type} (a : α) (b : β) : (a, b).2 = b := rfl

theorem flatten_singletons (l : List Nat) :
    (l.map (fun k => ([k] : List Nat))).flatten = l := by
  induction l with
  | nil => rfl
  | cons x t ih => simp [ih]

theorem extract_app_lit (X L : String) (hL : strAll noDollar L = true)
    (hLhead : headSafe L) : extractStr (X ++ L) = extractStr X := by
  rw [extractStr_append_head X L hLhead, extractStr_noDollar L hL,
    List.append_nil]

theorem extract_lit_app (L Y : String) (hL : strAll noDollar L = true)
    (hLlast : lastSafe L) : extractStr (L ++ Y) = extractStr Y := by
  rw [extractStr_append_last L Y hLlast, extractStr_noDollar L hL,
    List.nil_append]

theorem sjoin_eq_head_concat (sep : String) :
    ∀ (x : String) (t : List String),
      sjoin sep (x :: t) = x ++ sconcat (t.map (fun y => sep ++ y)) := by
  intro x t
  induction t generalizing x with
  | nil => simp [sjoin, sconcat]
  | cons y t' ih =>
    rw [show sjoin sep (x :: y :: t') = x ++ sep ++ sjoin sep (y :: t')
      from rfl]
    rw [ih y, List.map_cons]
    rw [show sconcat ((sep ++ y) :: t'.map (fun z => sep ++ z)) =
      (sep ++ y) ++ sconcat (t'.map (fun z => sep ++ z)) from rfl]
    simp [String.append_assoc]

theorem BRel_refl (st : BState) (s : String)
    (h : extractStr s = []) : BRel st st s := by
  refine ⟨le_refl _, rfl, ?_⟩
  rw [h, Nat.sub_self]
  rfl

theorem BRel_addParam (st : BState) (v : Value) (pre : String)
    (hpre : strAll noDollar pre = true) (hlast : lastSafe pre) :
    BRel st (addParam PostgresDialect v st).2
      (pre ++ (addParam PostgresDialect v st).1) := by
  refine ⟨by rw [addParam_snd]; exact Nat.le_succ _, ?_, ?_⟩
  · rw [addParam_snd]; simp; omega
  · rw [extract_lit_app pre _ hpre hlast, addParam_fst,
      extractStr_placeholder, addParam_snd]
    simp [List.range']

theorem extract_app_lit2 (X L G : String) (hL : strAll noDollar L = true)
    (hLhead : headSafe L) (hLlast : lastSafe L) (hLne : L.data ≠ [])
    (hG : strAll noDollar G = true) :
    extractStr (X ++ L ++ G) = extractStr X := by
  rw [extractStr_append_last (X ++ L) G (lastSafe_append X L hLlast hLne),
    extract_app_lit X L hL hLhead, extractStr_noDollar G hG,
    List.append_nil]

theorem extract_app_seg (X L S : String) (hL : strAll noDollar L = true)
    (hLhead : headSafe L) (hLlast : lastSafe L) (hLne : L.data ≠ []) :
    extractStr (X ++ L ++ S) = extractStr X ++ extractStr S := by
  rw [extractStr_append_last (X ++ L) S (lastSafe_append X L hLlast hLne),
    extract_app_lit X L hL hLhead]

theorem lastSafe_quote (s : String) :
    lastSafe (PostgresDialect.quote s) := by
  show lastSafe ("\"" ++ s ++ "\"")
  exact lastSafe_append _ "\""
    (lastSafe_mk "\"" '"' rfl (by decide) (by decide)) (by decide)

set_option maxHeartbeats 2000000 in
theorem knotCondCase (fuel : Nat)
    (ihSel : ∀ (q : Query) (st : BState) (s : String) (st' : BState),
      CleanQ q → buildSelectQ PostgresDialect fuel q st = Except.ok (s, st') →
      BRel st st' s)
    (ihConds : ∀ (cs : List Condition) (st : BState) (s : String)
      (st' : BState), (∀ c ∈ cs, CleanC c) →
      buildConditionsM PostgresDialect fuel cs st = Except.ok (s, st') →
      BRel st st' s)
    (ihOr : ∀ (cs : List Condition) (st : BState) (ps : List String)
      (st' : BState), (∀ c ∈ cs, CleanC c) →
      buildOrGroupM PostgresDialect fuel cs st = Except.ok (ps, st') →
      SegsRel st st' ps)
    (c : Condition) (st : BState) (s : String) (st' : BState)
    (hcl : CleanC c)
    (hb : buildConditionM PostgresDialect (fuel + 1) c st =
      Except.ok (s, st')) :
    BRel st st' s := by
  obtain ⟨field, op, value, orFlag, ref, subq, andG, orGroup⟩ := c
  obtain ⟨-, hfield, hop, href, hsub, hand, hor⟩ := hcl
  simp only [Condition.field, Condition.op, Condition.ref,
    Condition.subquery, Condition.andG,
    Condition.orGroup] at hfield hop href hsub hand hor
  simp only [buildConditionM] at hb
  by_cases hand1 : 0 < andG.length
  · rw [if_pos hand1] at hb
    cases h1 : buildConditionsM PostgresDialect fuel andG st with
    | error e =>
      rw [h1, excBind_err] at hb
      exact absurd hb (by simp)
    | ok pr1 =>
      obtain ⟨sA, st1⟩ := pr1
      rw [h1, excBind_ok] at hb
      simp only [Except.ok.injEq, Prod.mk.injEq] at hb
      obtain ⟨hs, hst⟩ := hb
      subst hst
      obtain ⟨hle, hlen, hex⟩ := ihConds andG st sA st1 hand h1
      refine ⟨hle, hlen, ?_⟩
      rw [← hs]
      rw [extract_app_lit _ ")" (by decide)
        (headSafe_mk ")" ')' rfl (by decide))]
      rw [extract_lit_app "(" sA (by decide)
        (lastSafe_mk "(" '(' rfl (by decide) (by decide))]
      exact hex
  · rw [if_neg hand1] at hb
    by_cases hor1 : 0 < orGroup.length
    · rw [if_pos hor1] at hb
      cases h1 : buildOrGroupM PostgresDialect fuel orGroup st with
      | error e =>
        rw [h1, excBind_err] at hb
        exact absurd hb (by simp)
      | ok pr1 =>
        obtain ⟨parts, st1⟩ := pr1
        rw [h1, excBind_ok] at hb
        simp only [Except.ok.injEq, Prod.mk.injEq] at hb
        obtain ⟨hs, hst⟩ := hb
        subst hst
        obtain ⟨hle, hlen, hex⟩ := ihOr orGroup st parts st1 hor h1
        refine ⟨hle, hlen, ?_⟩
        rw [← hs]
        rw [extract_app_lit _ ")" (by decide)
          (headSafe_mk ")" ')' rfl (by decide))]
        rw [extract_lit_app "(" _ (by decide)
          (lastSafe_mk "(" '(' rfl (by decide) (by decide))]
        rw [extractStr_sjoin " OR " (by decide)
          (headSafe_mk " OR " ' ' rfl (by decide))
          (lastSafe_mk " OR " ' ' rfl (by decide) (by decide)) (by rfl)]
        exact hex
    · rw [if_neg hor1] at hb
      cases subq with
      | some sq =>
        simp only [] at hb
        cases h1 : buildSelectQ PostgresDialect fuel sq ⟨[], st.paramN⟩ with
        | error e =>
          rw [h1, excBind_err] at hb
          exact absurd hb (by simp)
        | ok pr1 =>
          obtain ⟨subSQL, subSt⟩ := pr1
          rw [h1, excBind_ok] at hb
          simp only [Except.ok.injEq, Prod.mk.injEq] at hb
          obtain ⟨hs, hst⟩ := hb
          obtain ⟨hle, hlen, hex⟩ :=
            ihSel sq ⟨[], st.paramN⟩ subSQL subSt (hsub sq rfl) h1
          simp only [List.length_nil, Nat.zero_add] at hlen
          refine ⟨?_, ?_, ?_⟩
          · rw [← hst]; exact hle
          · rw [← hst]
            simp only [List.length_append]
            omega
          · rw [← hs, ← hst]
            have hpre : strAll noDollar (PostgresDialect.quote field ++ " " ++
                opToSQL op ++ " (") = true := by
              rw [strAll_append, strAll_append, strAll_append,
                strAll_pgQuote noDollar (by decide) _ hfield,
                strAll_of_sub noDollar noDollar_lit " " (by decide),
                strAll_opToSQL_g noDollar noDollar_lit _ hop,
                strAll_of_sub noDollar noDollar_lit " (" (by decide)]
              rfl
            rw [extract_app_lit _ ")" (by decide)
              (headSafe_mk ")" ')' rfl (by decide))]
            rw [extract_lit_app _ subSQL hpre
              (lastSafe_append _ " (" (lastSafe_mk " (" '(' rfl (by decide)
                (by decide)) (by decide))]
            exact hex
      | none =>
        simp only [] at hb
        by_cases href1 : ref ≠ ""
        · rw [if_pos href1] at hb
          simp only [Except.ok.injEq, Prod.mk.injEq] at hb
          obtain ⟨hs, hst⟩ := hb
          subst hst
          apply BRel_refl
          rw [← hs]
          apply extractStr_noDollar
          rw [strAll_append, strAll_append, strAll_append, strAll_append,
            strAll_pgQuote noDollar (by decide) _ hfield,
            strAll_of_sub noDollar noDollar_lit " " (by decide),
            strAll_opToSQL_g noDollar noDollar_lit _ hop, href]
          rfl
        · rw [if_neg href1] at hb
          have hf : strAll noDollar
              (if strContainsChar field '.' = true then field
                else PostgresDialect.quote field) = true := by
            split
            · exact hfield
            · exact strAll_pgQuote noDollar (by decide) _ hfield
          have hflast : lastSafe
              ((if strContainsChar field '.' = true then field
                else PostgresDialect.quote field) ++ " ") :=
            lastSafe_append _ " "
              (lastSafe_mk " " ' ' rfl (by decide) (by decide)) (by decide)
          have hfD : strAll noDollar
              ((if strContainsChar field '.' = true then field
                else PostgresDialect.quote field) ++ " ") = true := by
            rw [strAll_append, hf,
              strAll_of_sub noDollar noDollar_lit " " (by decide)]
            rfl
          split at hb
          · -- "null"
            simp only [Except.ok.injEq, Prod.mk.injEq] at hb
            obtain ⟨hs, hst⟩ := hb
            subst hst
            apply BRel_refl
            rw [← hs]
            apply extractStr_noDollar
            rw [strAll_append, hf,
              strAll_of_sub noDollar noDollar_lit " IS NULL" (by decide)]
            rfl
          · -- "not_null"
            simp only [Except.ok.injEq, Prod.mk.injEq] at hb
            obtain ⟨hs, hst⟩ := hb
            subst hst
            apply BRel_refl
            rw [← hs]
            apply extractStr_noDollar
            rw [strAll_append, hf,
              strAll_of_sub noDollar noDollar_lit " IS NOT NULL" (by decide)]
            rfl
          · -- "in" / "not_in"
            rename_i hop2
            cases value with
            | vArr values =>
              rw [show (if ("in" : String) = "not_in" then "NOT IN" else "IN")
                = "IN" from by decide] at hb
              simp only [Except.ok.injEq, Prod.mk.injEq] at hb
              obtain ⟨hs, hst⟩ := hb
              have hpreF : strAll noDollar
                  ((if strContainsChar field '.' = true then field
                    else PostgresDialect.quote field) ++ " " ++
                  "IN" ++ " (") = true := by
                rw [strAll_append, strAll_append, hfD,
                  show strAll noDollar "IN" = true from by decide,
                  strAll_of_sub noDollar noDollar_lit " (" (by decide)]
                rfl
              refine ⟨?_, ?_, ?_⟩
              · rw [← hst, addParams_snd]
                simp
              · rw [← hst, addParams_snd]
                simp
                omega
              · rw [← hs, ← hst]
                rw [extract_app_lit _ ")" (by decide)
                  (headSafe_mk ")" ')' rfl (by decide))]
                rw [extract_lit_app _ _ hpreF
                  (lastSafe_append _ " (" (lastSafe_mk " (" '(' rfl
                    (by decide) (by decide)) (by decide))]
                rw [addParams_fst, extractStr_sjoin_placeholders,
                  addParams_snd]
                simp
            | vNull => exact absurd hb (by simp)
            | vBool b => exact absurd hb (by simp)
            | vInt n => exact absurd hb (by simp)
            | vStr s2 => exact absurd hb (by simp)
            | vMap m => exact absurd hb (by simp)
          · -- "in" / "not_in"
            rename_i hop2
            cases value with
            | vArr values =>
              rw [show (if ("not_in" : String) = "not_in" then "NOT IN" else "IN")
                = "NOT IN" from by decide] at hb
              simp only [Except.ok.injEq, Prod.mk.injEq] at hb
              obtain ⟨hs, hst⟩ := hb
              have hpreF : strAll noDollar
                  ((if strContainsChar field '.' = true then field
                    else PostgresDialect.quote field) ++ " " ++
                  "NOT IN" ++ " (") = true := by
                rw [strAll_append, strAll_append, hfD,
                  show strAll noDollar "NOT IN" = true from by decide,
                  strAll_of_sub noDollar noDollar_lit " (" (by decide)]
                rfl
              refine ⟨?_, ?_, ?_⟩
              · rw [← hst, addParams_snd]
                simp
              · rw [← hst, addParams_snd]
                simp
                omega
              · rw [← hs, ← hst]
                rw [extract_app_lit _ ")" (by decide)
                  (headSafe_mk ")" ')' rfl (by decide))]
                rw [extract_lit_app _ _ hpreF
                  (lastSafe_append _ " (" (lastSafe_mk " (" '(' rfl
                    (by decide) (by decide)) (by decide))]
                rw [addParams_fst, extractStr_sjoin_placeholders,
                  addParams_snd]
                simp
            | vNull => exact absurd hb (by simp)
            | vBool b => exact absurd hb (by simp)
            | vInt n => exact absurd hb (by simp)
            | vStr s2 => exact absurd hb (by simp)
            | vMap m => exact absurd hb (by simp)
          · -- "between"
            cases value with
            | vArr values =>
              match values, hb with
              | [v1, v2], hb =>
                simp only [Except.ok.injEq, Prod.mk.injEq] at hb
                obtain ⟨hs, hst⟩ := hb
                refine ⟨?_, ?_, ?_⟩
                · rw [← hst, addParam_snd, addParam_snd]
                  simp only []
                  omega
                · rw [← hst, addParam_snd, addParam_snd]
                  simp
                  omega
                · rw [← hs, ← hst]
                  rw [extractStr_append_last _ _ (by
                    apply lastSafe_append _ " AND "
                      (lastSafe_mk " AND " ' ' rfl (by decide) (by decide))
                    decide)]
                  rw [extract_app_lit _ " AND " (by decide)
                    (headSafe_mk " AND " ' ' rfl (by decide))]
                  rw [extract_lit_app _ _ (by
                      rw [strAll_append, hf,
                        show strAll noDollar " BETWEEN " = true from
                          by decide]
                      rfl)
                    (lastSafe_append _ " BETWEEN "
                      (lastSafe_mk " BETWEEN " ' ' rfl (by decide)
                        (by decide)) (by decide))]
                  rw [addParam_fst, addParam_fst, extractStr_placeholder,
                    extractStr_placeholder, addParam_snd, addParam_snd]
                  simp only []
                  rw [show st.paramN + 1 + 1 - st.paramN = 2 by omega]
                  simp [List.range']
            | vNull => exact absurd hb (by simp)
            | vBool b => exact absurd hb (by simp)
            | vInt n => exact absurd hb (by simp)
            | vStr s2 => exact absurd hb (by simp)
            | vMap m => exact absurd hb (by simp)
          · -- "like" / "not_like"
            rw [show (if ("like" : String) = "not_like" then "NOT LIKE"
              else "LIKE") = "LIKE" from by decide] at hb
            simp only [Except.ok.injEq, Prod.mk.injEq] at hb
            obtain ⟨hs, hst⟩ := hb
            rw [← hs, ← hst]
            apply BRel_addParam st value
            · rw [strAll_append, strAll_append, hfD,
                show strAll noDollar "LIKE" = true from by decide,
                strAll_of_sub noDollar noDollar_lit " " (by decide)]
              rfl
            · exact lastSafe_append _ " "
                (lastSafe_mk " " ' ' rfl (by decide) (by decide)) (by decide)
          · -- "like" / "not_like"
            rw [show (if ("not_like" : String) = "not_like" then "NOT LIKE"
              else "LIKE") = "NOT LIKE" from by decide] at hb
            simp only [Except.ok.injEq, Prod.mk.injEq] at hb
            obtain ⟨hs, hst⟩ := hb
            rw [← hs, ← hst]
            apply BRel_addParam st value
            · rw [strAll_append, strAll_append, hfD,
                show strAll noDollar "NOT LIKE" = true from by decide,
                strAll_of_sub noDollar noDollar_lit " " (by decide)]
              rfl
            · exact lastSafe_append _ " "
                (lastSafe_mk " " ' ' rfl (by decide) (by decide)) (by decide)
          · -- "exists"
            exact absurd hb (by simp)
          · -- default operator
            simp only [Except.ok.injEq, Prod.mk.injEq] at hb
            obtain ⟨hs, hst⟩ := hb
            rw [← hs, ← hst]
            apply BRel_addParam st value
            · rw [strAll_append, strAll_append, hfD,
                strAll_opToSQL_g noDollar noDollar_lit _ hop,
                strAll_of_sub noDollar noDollar_lit " " (by decide)]
              rfl
            · exact lastSafe_append _ " "
                (lastSafe_mk " " ' ' rfl (by decide) (by decide)) (by decide)

theorem extract_ite_lit2 (c : Prop) [Decidable c] (X L G : String)
    (hL : strAll noDollar L = true) (hLhead : headSafe L)
    (hLlast : lastSafe L) (hLne : L.data ≠ [])
    (hG : strAll noDollar G = true) :
    extractStr (if c then X ++ L ++ G else X) = extractStr X := by
  split
  · exact extract_app_lit2 X L G hL hLhead hLlast hLne hG
  · rfl

set_option maxHeartbeats 2000000 in
theorem knotSelectCase (fuel : Nat)
    (ihConds : ∀ (cs : List Condition) (st : BState) (s : String)
      (st' : BState), (∀ c ∈ cs, CleanC c) →
      buildConditionsM PostgresDialect fuel cs st = Except.ok (s, st') →
      BRel st st' s)
    (q : Query) (st : BState) (s : String) (st' : BState)
    (hq : CleanQ q)
    (hb : buildSelectQ PostgresDialect (fuel + 1) q st =
      Except.ok (s, st')) :
    BRel st st' s := by
  obtain ⟨table, action, whereC, data, dataBatch, sel, orderBy, groupBy,
    having, limit, offset, join, ops, al⟩ := q
  obtain ⟨-, hstr, hconds⟩ := hq
  simp only [queryStrAll, Query.table, Query.sel, Query.orderBy,
    Query.groupBy, Query.having, Query.join, Query.data, Query.dataBatch,
    Bool.and_eq_true, List.all_eq_true] at hstr
  simp only [Query.whereC] at hconds
  obtain ⟨⟨⟨⟨⟨⟨⟨htab, hsel⟩, hord⟩, hgrp⟩, hhav⟩, hjoin⟩, hdata⟩, hdb2⟩ := hstr
  have hhav' : ∀ h ∈ having, strAll noDollar h.fn = true ∧
      strAll noDollar h.field = true ∧ strAll noDollar h.op = true :=
    fun h hm => ⟨(hhav h hm).1.1, (hhav h hm).1.2, (hhav h hm).2⟩
  have hjoin' : ∀ j ∈ join, strAll noDollar j.table = true ∧
      strAll noDollar j.joinType = true ∧
      ∀ pr ∈ j.onConds, strAll noDollar pr.1 = true ∧
        strAll noDollar pr.2 = true :=
    fun j hm => ⟨(hjoin j hm).1.1, (hjoin j hm).1.2,
      fun pr hpr => (hjoin j hm).2 pr hpr⟩
  have hs2D : strAll noDollar
      (if 0 < join.length then
        ("SELECT " ++ (if 0 < sel.length then
            buildSelectColumns PostgresDialect sel else "*")) ++ " FROM " ++
          PostgresDialect.quote table ++ buildJoins PostgresDialect join
      else
        ("SELECT " ++ (if 0 < sel.length then
            buildSelectColumns PostgresDialect sel else "*")) ++ " FROM " ++
          PostgresDialect.quote table) = true := by
    have hE1 : strAll noDollar
        (("SELECT " ++ (if 0 < sel.length then
            buildSelectColumns PostgresDialect sel else "*")) ++ " FROM " ++
          PostgresDialect.quote table) = true := by
      apply strAll_app2 noDollar
      apply strAll_app2 noDollar
      · apply strAll_app2 noDollar
        · decide
        · split
          · exact strAll_buildSelectColumns noDollar noDollar_lit
              noDollar_digit noDollar_upper sel hsel
          · decide
      · decide
      · exact strAll_pgQuote noDollar (by decide) _ htab
    split
    · apply strAll_app2 noDollar _ _ hE1
      exact strAll_buildJoins noDollar noDollar_lit noDollar_digit
        noDollar_upper join hjoin'
    · exact hE1
  simp only [buildSelectQ] at hb
  by_cases hwc : 0 < whereC.length
  · rw [if_pos hwc] at hb
    cases h1 : buildConditionsM PostgresDialect fuel whereC st with
    | error e =>
      rw [h1, excBind_err] at hb
      exact absurd hb (by simp)
    | ok pr1 =>
      obtain ⟨w, st3⟩ := pr1
      rw [h1, excBind_ok, excBind_ok] at hb
      obtain ⟨hle1, hlen1, hex1⟩ := ihConds whereC st w st3 hconds h1
      by_cases hhv : 0 < having.length
      · rw [if_pos hhv] at hb
        simp only [buildHavingM_eq, prodFst_mk, prodSnd_mk,
          Except.ok.injEq, Prod.mk.injEq] at hb
        obtain ⟨hs, hst⟩ := hb
        obtain ⟨hexH, hHN, hHL⟩ :=
          buildHavingM_extract having hhav' st3
        refine ⟨?_, ?_, ?_⟩
        · rw [← hst]; omega
        · rw [← hst]; omega
        · rw [← hs]
          rw [extract_ite_lit2 _ _ " OFFSET " _ (by decide)
            (headSafe_mk _ ' ' rfl (by decide))
            (lastSafe_mk _ ' ' rfl (by decide) (by decide)) (by decide)
            (strAll_intToStr noDollar noDollar_digit (by decide) offset)]
          rw [extract_ite_lit2 _ _ " LIMIT " _ (by decide)
            (headSafe_mk _ ' ' rfl (by decide))
            (lastSafe_mk _ ' ' rfl (by decide) (by decide)) (by decide)
            (strAll_intToStr noDollar noDollar_digit (by decide) limit)]
          rw [extract_ite_lit2 _ _ " ORDER BY " _ (by decide)
            (headSafe_mk _ ' ' rfl (by decide))
            (lastSafe_mk _ ' ' rfl (by decide) (by decide)) (by decide)
            (strAll_buildOrderBy noDollar noDollar_lit noDollar_digit
              noDollar_upper orderBy hord)]
          rw [extract_app_seg _ " HAVING " _ (by decide)
            (headSafe_mk _ ' ' rfl (by decide))
            (lastSafe_mk _ ' ' rfl (by decide) (by decide)) (by decide)]
          rw [extract_ite_lit2 _ _ " GROUP BY " _ (by decide)
            (headSafe_mk _ ' ' rfl (by decide))
            (lastSafe_mk _ ' ' rfl (by decide) (by decide)) (by decide)
            (strAll_buildGroupBy noDollar noDollar_lit noDollar_digit
              noDollar_upper groupBy hgrp)]
          rw [extract_app_seg _ " WHERE " _ (by decide)
            (headSafe_mk _ ' ' rfl (by decide))
            (lastSafe_mk _ ' ' rfl (by decide) (by decide)) (by decide)]
          rw [extractStr_noDollar _ hs2D, List.nil_append, hex1, hexH]
          rw [← hst]
          rw [range'_glue2 st.paramN st3.paramN having.length hle1, hHN]
      · rw [if_neg hhv] at hb
        simp only [Except.ok.injEq, Prod.mk.injEq] at hb
        obtain ⟨hs, hst⟩ := hb
        refine ⟨by rw [← hst]; exact hle1, by rw [← hst]; omega, ?_⟩
        rw [← hs]
        rw [extract_ite_lit2 _ _ " OFFSET " _ (by decide)
          (headSafe_mk _ ' ' rfl (by decide))
          (lastSafe_mk _ ' ' rfl (by decide) (by decide)) (by decide)
          (strAll_intToStr noDollar noDollar_digit (by decide) offset)]
        rw [extract_ite_lit2 _ _ " LIMIT " _ (by decide)
          (headSafe_mk _ ' ' rfl (by decide))
          (lastSafe_mk _ ' ' rfl (by decide) (by decide)) (by decide)
          (strAll_intToStr noDollar noDollar_digit (by decide) limit)]
        rw [extract_ite_lit2 _ _ " ORDER BY " _ (by decide)
          (headSafe_mk _ ' ' rfl (by decide))
          (lastSafe_mk _ ' ' rfl (by decide) (by decide)) (by decide)
          (strAll_buildOrderBy noDollar noDollar_lit noDollar_digit
            noDollar_upper orderBy hord)]
        rw [extract_ite_lit2 _ _ " GROUP BY " _ (by decide)
          (headSafe_mk _ ' ' rfl (by decide))
          (lastSafe_mk _ ' ' rfl (by decide) (by decide)) (by decide)
          (strAll_buildGroupBy noDollar noDollar_lit noDollar_digit
            noDollar_upper groupBy hgrp)]
        rw [extract_app_seg _ " WHERE " _ (by decide)
          (headSafe_mk _ ' ' rfl (by decide))
          (lastSafe_mk _ ' ' rfl (by decide) (by decide)) (by decide)]
        rw [extractStr_noDollar _ hs2D, List.nil_append, hex1, ← hst]
  · rw [if_neg hwc] at hb
    rw [excBind_ok] at hb
    by_cases hhv : 0 < having.length
    · rw [if_pos hhv] at hb
      simp only [buildHavingM_eq, prodFst_mk, prodSnd_mk,
        Except.ok.injEq, Prod.mk.injEq] at hb
      obtain ⟨hs, hst⟩ := hb
      obtain ⟨hexH, hHN, hHL⟩ := buildHavingM_extract having hhav' st
      refine ⟨?_, ?_, ?_⟩
      · rw [← hst]; omega
      · rw [← hst]; omega
      · rw [← hs]
        rw [extract_ite_lit2 _ _ " OFFSET " _ (by decide)
          (headSafe_mk _ ' ' rfl (by decide))
          (lastSafe_mk _ ' ' rfl (by decide) (by decide)) (by decide)
          (strAll_intToStr noDollar noDollar_digit (by decide) offset)]
        rw [extract_ite_lit2 _ _ " LIMIT " _ (by decide)
          (headSafe_mk _ ' ' rfl (by decide))
          (lastSafe_mk _ ' ' rfl (by decide) (by decide)) (by decide)
          (strAll_intToStr noDollar noDollar_digit (by decide) limit)]
        rw [extract_ite_lit2 _ _ " ORDER BY " _ (by decide)
          (headSafe_mk _ ' ' rfl (by decide))
          (lastSafe_mk _ ' ' rfl (by decide) (by decide)) (by decide)
          (strAll_buildOrderBy noDollar noDollar_lit noDollar_digit
            noDollar_upper orderBy hord)]
        rw [extract_app_seg _ " HAVING " _ (by decide)
          (headSafe_mk _ ' ' rfl (by decide))
          (lastSafe_mk _ ' ' rfl (by decide) (by decide)) (by decide)]
        rw [extract_ite_lit2 _ _ " GROUP BY " _ (by decide)
          (headSafe_mk _ ' ' rfl (by decide))
          (lastSafe_mk _ ' ' rfl (by decide) (by decide)) (by decide)
          (strAll_buildGroupBy noDollar noDollar_lit noDollar_digit
            noDollar_upper groupBy hgrp)]
        rw [extractStr_noDollar _ hs2D, List.nil_append, hexH, ← hst]
        rw [hHN]
        rw [show st.paramN + having.length - st.paramN = having.length
          by omega]
    · rw [if_neg hhv] at hb
      simp only [Except.ok.injEq, Prod.mk.injEq] at hb
      obtain ⟨hs, hst⟩ := hb
      refine ⟨by rw [← hst], by rw [← hst], ?_⟩
      rw [← hs]
      rw [extract_ite_lit2 _ _ " OFFSET " _ (by decide)
        (headSafe_mk _ ' ' rfl (by decide))
        (lastSafe_mk _ ' ' rfl (by decide) (by decide)) (by decide)
        (strAll_intToStr noDollar noDollar_digit (by decide) offset)]
      rw [extract_ite_lit2 _ _ " LIMIT " _ (by decide)
        (headSafe_mk _ ' ' rfl (by decide))
        (lastSafe_mk _ ' ' rfl (by decide) (by decide)) (by decide)
        (strAll_intToStr noDollar noDollar_digit (by decide) limit)]
      rw [extract_ite_lit2 _ _ " ORDER BY " _ (by decide)
        (headSafe_mk _ ' ' rfl (by decide))
        (lastSafe_mk _ ' ' rfl (by decide) (by decide)) (by decide)
        (strAll_buildOrderBy noDollar noDollar_lit noDollar_digit
          noDollar_upper orderBy hord)]
      rw [extract_ite_lit2 _ _ " GROUP BY " _ (by decide)
        (headSafe_mk _ ' ' rfl (by decide))
        (lastSafe_mk _ ' ' rfl (by decide) (by decide)) (by decide)
        (strAll_buildGroupBy noDollar noDollar_lit noDollar_digit
          noDollar_upper groupBy hgrp)]
      rw [extractStr_noDollar _ hs2D, ← hst]
      simp

set_option maxHeartbeats 2000000 in
theorem knot_extract : ∀ fuel : Nat,
    (∀ (q : Query) (st : BState) (s : String) (st' : BState), CleanQ q →
      buildSelectQ PostgresDialect fuel q st = Except.ok (s, st') →
      BRel st st' s) ∧
    (∀ (cs : List Condition) (st : BState) (s : String) (st' : BState),
      (∀ c ∈ cs, CleanC c) →
      buildConditionsM PostgresDialect fuel cs st = Except.ok (s, st') →
      BRel st st' s) ∧
    (∀ (cs : List Condition) (st : BState) (ps : List String)
      (st' : BState), (∀ c ∈ cs, CleanC c) →
      buildCondTail PostgresDialect fuel cs st = Except.ok (ps, st') →
      SegsRel st st' ps) ∧
    (∀ (cs : List Condition) (st : BState) (ps : List String)
      (st' : BState), (∀ c ∈ cs, CleanC c) →
      buildOrGroupM PostgresDialect fuel cs st = Except.ok (ps, st') →
      SegsRel st st' ps) ∧
    (∀ (c : Condition) (st : BState) (s : String) (st' : BState),
      CleanC c →
      buildConditionM PostgresDialect fuel c st = Except.ok (s, st') →
      BRel st st' s) := by
  intro fuel
  induction fuel with
  | zero =>
    refine ⟨?_, ?_, ?_, ?_, ?_⟩ <;>
      (intro a st b st' hcl hb; exact absurd hb (by
        first
          | simp [buildSelectQ]
          | simp [buildConditionsM]
          | simp [buildCondTail]
          | simp [buildOrGroupM]
          | simp [buildConditionM]))
  | succ fuel ih =>
    obtain ⟨ihSel, ihConds, ihTail, ihOr, ihCondM⟩ := ih
    have hsjSp : ∀ ps : List String, extractStr (sjoin " " ps) =
        (ps.map extractStr).flatten :=
      extractStr_sjoin " " (by decide) (headSafe_mk " " ' ' rfl (by decide))
        (lastSafe_mk " " ' ' rfl (by decide) (by decide)) (by rfl)
    have hsjOr : ∀ ps : List String, extractStr (sjoin " OR " ps) =
        (ps.map extractStr).flatten :=
      extractStr_sjoin " OR " (by decide)
        (headSafe_mk " OR " ' ' rfl (by decide))
        (lastSafe_mk " OR " ' ' rfl (by decide) (by decide)) (by rfl)
    refine ⟨?_, ?_, ?_, ?_, ?_⟩
    · -- buildSelectQ : deferred to the dedicated block below
      intro q st s st' hq hb
      exact knotSelectCase fuel ihConds q st s st' hq hb
    · -- buildConditionsM
      intro cs st s st' hcl hb
      cases cs with
      | nil =>
        simp only [buildConditionsM, Except.ok.injEq, Prod.mk.injEq] at hb
        obtain ⟨hs, hst⟩ := hb
        subst hst
        exact BRel_refl st s (by rw [← hs]; rfl)
      | cons c rest =>
        simp only [buildConditionsM] at hb
        cases h1 : buildConditionM PostgresDialect fuel c st with
        | error e =>
          rw [h1, excBind_err] at hb
          exact absurd hb (by simp)
        | ok pr1 =>
          obtain ⟨s0, st1⟩ := pr1
          rw [h1, excBind_ok] at hb
          cases h2 : buildCondTail PostgresDialect fuel rest st1 with
          | error e =>
            rw [h2, excBind_err] at hb
            exact absurd hb (by simp)
          | ok pr2 =>
            obtain ⟨parts, st2⟩ := pr2
            rw [h2, excBind_ok] at hb
            simp only [Except.ok.injEq, Prod.mk.injEq] at hb
            obtain ⟨hs, hst⟩ := hb
            subst hst
            obtain ⟨hle1, hlen1, hex1⟩ :=
              ihCondM c st s0 st1 (hcl c (by simp)) h1
            obtain ⟨hle2, hlen2, hex2⟩ := ihTail rest st1 parts st2
              (fun c' hm => hcl c' (by simp [hm])) h2
            refine ⟨le_trans hle1 hle2, by omega, ?_⟩
            rw [← hs, hsjSp, List.map_cons, List.flatten_cons, hex1, hex2,
              range'_glue st.paramN st1.paramN st2.paramN hle1 hle2]
    · -- buildCondTail
      intro cs st ps st' hcl hb
      cases cs with
      | nil =>
        simp only [buildCondTail, Except.ok.injEq, Prod.mk.injEq] at hb
        obtain ⟨hp, hst⟩ := hb
        subst hst
        refine ⟨le_refl _, rfl, ?_⟩
        rw [← hp]
        simp [extractStr_empty]
      | cons c rest =>
        simp only [buildCondTail] at hb
        cases h1 : buildConditionM PostgresDialect fuel c st with
        | error e =>
          rw [h1, excBind_err] at hb
          exact absurd hb (by simp)
        | ok pr1 =>
          obtain ⟨s0, st1⟩ := pr1
          rw [h1, excBind_ok] at hb
          cases h2 : buildCondTail PostgresDialect fuel rest st1 with
          | error e =>
            rw [h2, excBind_err] at hb
            exact absurd hb (by simp)
          | ok pr2 =>
            obtain ⟨ps2, st2⟩ := pr2
            rw [h2, excBind_ok] at hb
            simp only [Except.ok.injEq, Prod.mk.injEq] at hb
            obtain ⟨hp, hst⟩ := hb
            subst hst
            obtain ⟨hle1, hlen1, hex1⟩ :=
              ihCondM c st s0 st1 (hcl c (by simp)) h1
            obtain ⟨hle2, hlen2, hex2⟩ := ihTail rest st1 ps2 st2
              (fun c' hm => hcl c' (by simp [hm])) h2
            refine ⟨le_trans hle1 hle2, by omega, ?_⟩
            have hpart : extractStr
                (if c.orFlag = true then "OR " ++ s0 else "AND " ++ s0) =
                extractStr s0 := by
              split
              · exact extract_lit_app "OR " s0 (by decide)
                  (lastSafe_mk "OR " ' ' rfl (by decide) (by decide))
              · exact extract_lit_app "AND " s0 (by decide)
                  (lastSafe_mk "AND " ' ' rfl (by decide) (by decide))
            rw [← hp, List.map_cons, List.flatten_cons, hpart, hex1, hex2,
              range'_glue st.paramN st1.paramN st2.paramN hle1 hle2]
    · -- buildOrGroupM
      intro cs st ps st' hcl hb
      cases cs with
      | nil =>
        simp only [buildOrGroupM, Except.ok.injEq, Prod.mk.injEq] at hb
        obtain ⟨hp, hst⟩ := hb
        subst hst
        refine ⟨le_refl _, rfl, ?_⟩
        rw [← hp]
        simp [extractStr_empty]
      | cons c rest =>
        simp only [buildOrGroupM] at hb
        cases h1 : buildConditionM PostgresDialect fuel c st with
        | error e =>
          rw [h1, excBind_err] at hb
          exact absurd hb (by simp)
        | ok pr1 =>
          obtain ⟨s0, st1⟩ := pr1
          rw [h1, excBind_ok] at hb
          cases h2 : buildOrGroupM PostgresDialect fuel rest st1 with
          | error e =>
            rw [h2, excBind_err] at hb
            exact absurd hb (by simp)
          | ok pr2 =>
            obtain ⟨ps2, st2⟩ := pr2
            rw [h2, excBind_ok] at hb
            simp only [Except.ok.injEq, Prod.mk.injEq] at hb
            obtain ⟨hp, hst⟩ := hb
            subst hst
            obtain ⟨hle1, hlen1, hex1⟩ :=
              ihCondM c st s0 st1 (hcl c (by simp)) h1
            obtain ⟨hle2, hlen2, hex2⟩ := ihOr rest st1 ps2 st2
              (fun c' hm => hcl c' (by simp [hm])) h2
            refine ⟨le_trans hle1 hle2, by omega, ?_⟩
            rw [← hp, List.map_cons, List.flatten_cons, hex1, hex2,
              range'_glue st.paramN st1.paramN st2.paramN hle1 hle2]
    · -- buildConditionM
      intro c st s st' hcl hb
      exact knotCondCase fuel ihSel ihConds ihOr c st s st' hcl hb

theorem buildInsert_extract (q : Query) (st : BState) (s : String)
    (st' : BState) (htab : strAll noDollar q.table = true)
    (hdata : ∀ kv ∈ q.data, strAll noDollar kv.1 = true)
    (hb : buildInsert PostgresDialect q st = Except.ok (s, st')) :
    BRel st st' s := by
  by_cases hd : q.data.length = 0
  · rw [buildInsert, if_pos hd] at hb
    exact absurd hb (by simp)
  · rw [buildInsert, if_neg hd] at hb
    simp only [Except.ok.injEq, Prod.mk.injEq] at hb
    obtain ⟨hs, hst⟩ := hb
    have hpre : strAll noDollar ("INSERT INTO " ++
        PostgresDialect.quote q.table ++ " (" ++
        sjoin ", " (q.data.map (fun e => PostgresDialect.quote e.1)) ++
        ") VALUES (") = true := by
      rw [strAll_append, strAll_append, strAll_append, strAll_append,
        strAll_of_sub noDollar noDollar_lit "INSERT INTO " (by decide),
        strAll_pgQuote noDollar (by decide) _ htab,
        strAll_of_sub noDollar noDollar_lit " (" (by decide),
        strAll_sjoin noDollar ", "
          (q.data.map (fun e => PostgresDialect.quote e.1))
          (strAll_of_sub noDollar noDollar_lit ", " (by decide))
          (by
            intro x hx
            obtain ⟨kv, hkv, hmap⟩ := List.mem_map.mp hx
            subst hmap
            exact strAll_pgQuote noDollar (by decide) _ (hdata kv hkv)),
        strAll_of_sub noDollar noDollar_lit ") VALUES (" (by decide)]
      rfl
    refine ⟨?_, ?_, ?_⟩
    · rw [← hst, addParams_snd]; simp
    · rw [← hst, addParams_snd]; simp; omega
    · rw [← hs, ← hst]
      rw [show (if PostgresDialect.supportsReturning = true then
        "INSERT INTO " ++ PostgresDialect.quote q.table ++ " (" ++
          sjoin ", " (q.data.map (fun e => PostgresDialect.quote e.1)) ++
          ") VALUES (" ++
          sjoin ", " (addParams PostgresDialect
            (q.data.map (·.2)) st).1 ++ ")" ++ " RETURNING id"
        else "INSERT INTO " ++ PostgresDialect.quote q.table ++ " (" ++
          sjoin ", " (q.data.map (fun e => PostgresDialect.quote e.1)) ++
          ") VALUES (" ++
          sjoin ", " (addParams PostgresDialect
            (q.data.map (·.2)) st).1 ++ ")") =
        "INSERT INTO " ++ PostgresDialect.quote q.table ++ " (" ++
          sjoin ", " (q.data.map (fun e => PostgresDialect.quote e.1)) ++
          ") VALUES (" ++
          sjoin ", " (addParams PostgresDialect
            (q.data.map (·.2)) st).1 ++ ")" ++ " RETURNING id"
        from if_pos rfl]
      rw [extract_app_lit _ " RETURNING id" (by decide)
        (headSafe_mk _ ' ' rfl (by decide))]
      rw [extract_app_lit _ ")" (by decide)
        (headSafe_mk ")" ')' rfl (by decide))]
      rw [extract_lit_app _ _ hpre
        (lastSafe_append _ ") VALUES ("
          (lastSafe_mk ") VALUES (" '(' rfl (by decide) (by decide))
          (by decide))]
      rw [addParams_fst, addParams_snd]
      simp only [List.length_map, prodSnd_mk]
      rw [extractStr_sjoin_placeholders]
      simp

theorem buildInsertBatch_extract (q : Query) (st : BState) (s : String)
    (st' : BState) (htab : strAll noDollar q.table = true)
    (hdb2 : ∀ r ∈ q.dataBatch, ∀ kv ∈ r, strAll noDollar kv.1 = true)
    (hb : buildInsertBatch PostgresDialect q st = Except.ok (s, st')) :
    BRel st st' s := by
  rcases hdb : q.dataBatch with - | ⟨first, rest⟩
  · rw [buildInsertBatch, hdb] at hb
    exact absurd hb (by simp)
  · rw [buildInsertBatch, hdb] at hb
    simp only [Except.ok.injEq, Prod.mk.injEq] at hb
    obtain ⟨hs, hst⟩ := hb
    have hfirst : ∀ kv ∈ first, strAll noDollar kv.1 = true :=
      hdb2 first (by rw [hdb]; exact List.mem_cons_self _ _)
    have hpre : strAll noDollar ("INSERT INTO " ++
        PostgresDialect.quote q.table ++ " (" ++
        sjoin ", " ((first.map (·.1)).map PostgresDialect.quote) ++
        ") VALUES ") = true := by
      rw [strAll_append, strAll_append, strAll_append, strAll_append,
        strAll_of_sub noDollar noDollar_lit "INSERT INTO " (by decide),
        strAll_pgQuote noDollar (by decide) _ htab,
        strAll_of_sub noDollar noDollar_lit " (" (by decide),
        strAll_sjoin noDollar ", " _
          (strAll_of_sub noDollar noDollar_lit ", " (by decide))
          (by
            intro x hx
            obtain ⟨c, hc, hmap⟩ := List.mem_map.mp hx
            obtain ⟨kv, hkv, hmap2⟩ := List.mem_map.mp hc
            subst hmap; subst hmap2
            exact strAll_pgQuote noDollar (by decide) _ (hfirst kv hkv)),
        strAll_of_sub noDollar noDollar_lit ") VALUES " (by decide)]
      rfl
    obtain ⟨hbx, hbn, hbl⟩ :=
      batchRows_spec (first.map (·.1)) (first :: rest) st
    refine ⟨?_, ?_, ?_⟩
    · rw [← hst]; omega
    · rw [← hst]; omega
    · rw [← hs, ← hst]
      rw [show (if PostgresDialect.supportsReturning = true then
        "INSERT INTO " ++ PostgresDialect.quote q.table ++ " (" ++
          sjoin ", " ((first.map (·.1)).map PostgresDialect.quote) ++
          ") VALUES " ++
          sjoin ", " (batchRows PostgresDialect (first.map (·.1))
            (first :: rest) st).1 ++ " RETURNING id"
        else "INSERT INTO " ++ PostgresDialect.quote q.table ++ " (" ++
          sjoin ", " ((first.map (·.1)).map PostgresDialect.quote) ++
          ") VALUES " ++
          sjoin ", " (batchRows PostgresDialect (first.map (·.1))
            (first :: rest) st).1) =
        "INSERT INTO " ++ PostgresDialect.quote q.table ++ " (" ++
          sjoin ", " ((first.map (·.1)).map PostgresDialect.quote) ++
          ") VALUES " ++
          sjoin ", " (batchRows PostgresDialect (first.map (·.1))
            (first :: rest) st).1 ++ " RETURNING id"
        from if_pos rfl]
      rw [extract_app_lit _ " RETURNING id" (by decide)
        (headSafe_mk _ ' ' rfl (by decide))]
      rw [extract_lit_app _ _ hpre
        (lastSafe_append _ ") VALUES "
          (lastSafe_mk ") VALUES " ' ' rfl (by decide) (by decide))
          (by decide))]
      rw [extractStr_sjoin ", " (by decide)
        (headSafe_mk _ ',' rfl (by decide))
        (lastSafe_mk _ ' ' rfl (by decide) (by decide)) (by rfl)]
      rw [hbx, hbn]
      rw [show st.paramN + (first :: rest).length *
        (first.map (·.1)).length - st.paramN =
        (first :: rest).length * (first.map (·.1)).length by omega]

theorem buildDelete_extract (fuel : Nat) (q : Query) (st : BState)
    (s : String) (st' : BState)
    (htab : strAll noDollar q.table = true)
    (hconds : ∀ c ∈ q.whereC, CleanC c)
    (hb : buildDelete PostgresDialect fuel q st = Except.ok (s, st')) :
    BRel st st' s := by
  rw [buildDelete] at hb
  have hs0 : strAll noDollar
      ("DELETE FROM " ++ PostgresDialect.quote q.table) = true := by
    rw [strAll_append,
      show strAll noDollar "DELETE FROM " = true from by decide,
      strAll_pgQuote noDollar (by decide) _ htab]
    rfl
  by_cases hwc : 0 < q.whereC.length
  · rw [if_pos hwc] at hb
    cases h1 : buildWhere PostgresDialect fuel q st with
    | error e =>
      rw [h1, excBind_err] at hb
      exact absurd hb (by simp)
    | ok pr1 =>
      obtain ⟨w, st2⟩ := pr1
      rw [h1, excBind_ok] at hb
      simp only [Except.ok.injEq, Prod.mk.injEq] at hb
      obtain ⟨hs, hst⟩ := hb
      rw [buildWhere] at h1
      obtain ⟨hle1, hlen1, hex1⟩ :=
        (knot_extract fuel).2.1 q.whereC st w st2 hconds h1
      refine ⟨by rw [← hst]; exact hle1, by rw [← hst]; omega, ?_⟩
      rw [← hs, ← hst]
      rw [extract_app_seg _ " WHERE " _ (by decide)
        (headSafe_mk _ ' ' rfl (by decide))
        (lastSafe_mk _ ' ' rfl (by decide) (by decide)) (by decide)]
      rw [extractStr_noDollar _ hs0, List.nil_append, hex1]
  · rw [if_neg hwc] at hb
    simp only [Except.ok.injEq, Prod.mk.injEq] at hb
    obtain ⟨hs, hst⟩ := hb
    rw [← hst]
    exact BRel_refl st s (by rw [← hs]; exact extractStr_noDollar _ hs0)

theorem buildCount_extract (fuel : Nat) (q : Query) (st : BState)
    (s : String) (st' : BState)
    (htab : strAll noDollar q.table = true)
    (hconds : ∀ c ∈ q.whereC, CleanC c)
    (hb : buildCount PostgresDialect fuel q st = Except.ok (s, st')) :
    BRel st st' s := by
  rw [buildCount] at hb
  have hs0 : strAll noDollar
      ("SELECT COUNT(*) FROM " ++ PostgresDialect.quote q.table) = true := by
    rw [strAll_append,
      show strAll noDollar "SELECT COUNT(*) FROM " = true from by decide,
      strAll_pgQuote noDollar (by decide) _ htab]
    rfl
  by_cases hwc : 0 < q.whereC.length
  · rw [if_pos hwc] at hb
    cases h1 : buildWhere PostgresDialect fuel q st with
    | error e =>
      rw [h1, excBind_err] at hb
      exact absurd hb (by simp)
    | ok pr1 =>
      obtain ⟨w, st2⟩ := pr1
      rw [h1, excBind_ok] at hb
      simp only [Except.ok.injEq, Prod.mk.injEq] at hb
      obtain ⟨hs, hst⟩ := hb
      rw [buildWhere] at h1
      obtain ⟨hle1, hlen1, hex1⟩ :=
        (knot_extract fuel).2.1 q.whereC st w st2 hconds h1
      refine ⟨by rw [← hst]; exact hle1, by rw [← hst]; omega, ?_⟩
      rw [← hs, ← hst]
      rw [extract_app_seg _ " WHERE " _ (by decide)
        (headSafe_mk _ ' ' rfl (by decide))
        (lastSafe_mk _ ' ' rfl (by decide) (by decide)) (by decide)]
      rw [extractStr_noDollar _ hs0, List.nil_append, hex1]
  · rw [if_neg hwc] at hb
    simp only [Except.ok.injEq, Prod.mk.injEq] at hb
    obtain ⟨hs, hst⟩ := hb
    rw [← hst]
    exact BRel_refl st s (by rw [← hs]; exact extractStr_noDollar _ hs0)

theorem range'_glue3 (a len1 len2 : Nat) :
    List.range' (a + 1) len1 ++ List.range' (a + len1 + 1) len2 =
      List.range' (a + 1) (len1 + len2) := by
  have h := range'_glue a (a + len1) (a + len1 + len2) (by omega) (by omega)
  rw [show a + len1 - a = len1 by omega,
    show a + len1 + len2 - (a + len1) = len2 by omega,
    show a + len1 + len2 - a = len1 + len2 by omega] at h
  exact h

theorem buildUpdate_eq (d : Dialect) (fuel : Nat) (q : Query) (st : BState)
    (hd : ¬ q.data.length = 0) :
    buildUpdate d fuel q st =
      (if 0 < q.whereC.length then
        buildWhere d fuel q (buildSetParts d q.data st).2 >>= fun pr =>
          Except.ok (("UPDATE " ++ d.quote q.table ++ " SET " ++
            sjoin ", " (buildSetParts d q.data st).1) ++ " WHERE " ++ pr.1,
            pr.2)
      else Except.ok ("UPDATE " ++ d.quote q.table ++ " SET " ++
        sjoin ", " (buildSetParts d q.data st).1,
        (buildSetParts d q.data st).2)) := by
  rw [buildUpdate, if_neg hd]

theorem buildUpdate_extract (fuel : Nat) (q : Query) (st : BState)
    (s : String) (st' : BState)
    (htab : strAll noDollar q.table = true)
    (hdata : ∀ kv ∈ q.data, strAll noDollar kv.1 = true)
    (hconds : ∀ c ∈ q.whereC, CleanC c)
    (hb : buildUpdate PostgresDialect fuel q st = Except.ok (s, st')) :
    BRel st st' s := by
  by_cases hd : q.data.length = 0
  · rw [buildUpdate, if_pos hd] at hb
    exact absurd hb (by simp)
  · rw [buildUpdate_eq PostgresDialect fuel q st hd] at hb
    obtain ⟨hsx, hsn, hsl⟩ := setParts_spec q.data hdata st
    have hexS : extractStr ("UPDATE " ++ PostgresDialect.quote q.table ++
        " SET " ++
        sjoin ", " (buildSetParts PostgresDialect q.data st).1) =
        List.range' (st.paramN + 1) q.data.length := by
      rw [extract_lit_app _ _ (by
          rw [strAll_append, strAll_append,
            show strAll noDollar "UPDATE " = true from by decide,
            strAll_pgQuote noDollar (by decide) _ htab,
            show strAll noDollar " SET " = true from by decide]
          rfl)
        (lastSafe_append _ " SET "
          (lastSafe_mk " SET " ' ' rfl (by decide) (by decide))
          (by decide))]
      rw [extractStr_sjoin ", " (by decide)
        (headSafe_mk _ ',' rfl (by decide))
        (lastSafe_mk _ ' ' rfl (by decide) (by decide)) (by rfl)]
      rw [hsx, flatten_singletons]
    by_cases hwc : 0 < q.whereC.length
    · rw [if_pos hwc] at hb
      cases h1 : buildWhere PostgresDialect fuel q
          (buildSetParts PostgresDialect q.data st).2 with
      | error e =>
        rw [h1, excBind_err] at hb
        exact absurd hb (by simp)
      | ok pr1 =>
        obtain ⟨w, st2⟩ := pr1
        rw [h1, excBind_ok] at hb
        simp only [Except.ok.injEq, Prod.mk.injEq] at hb
        obtain ⟨hs, hst⟩ := hb
        rw [buildWhere] at h1
        obtain ⟨hle1, hlen1, hex1⟩ := (knot_extract fuel).2.1 q.whereC
          (buildSetParts PostgresDialect q.data st).2 w st2 hconds h1
        refine ⟨by rw [← hst]; omega, by rw [← hst]; omega, ?_⟩
        rw [hsn] at hle1
        rw [← hs, ← hst]
        rw [extract_app_seg _ " WHERE " _ (by decide)
          (headSafe_mk _ ' ' rfl (by decide))
          (lastSafe_mk _ ' ' rfl (by decide) (by decide)) (by decide)]
        rw [hexS, hex1, hsn]
        rw [show st2.paramN - st.paramN =
          q.data.length + (st2.paramN - (st.paramN + q.data.length))
          from by omega]
        exact range'_glue3 st.paramN q.data.length _
    · rw [if_neg hwc] at hb
      simp only [Except.ok.injEq, Prod.mk.injEq] at hb
      obtain ⟨hs, hst⟩ := hb
      refine ⟨by rw [← hst]; omega, by rw [← hst]; omega, ?_⟩
      rw [← hs, ← hst, hexS, hsn]
      rw [show st.paramN + q.data.length - st.paramN = q.data.length
        by omega]

theorem excBind_ok_match {α β γ : Type} (a : α) (b : β)
    (f : α → β → Except String γ) :
    ((Except.ok (a, b) : Except String (α × β)) >>= fun pr =>
      match pr with | (x, y) => f x y) = f a b := rfl

set_option maxHeartbeats 1000000 in
theorem buildAggregate_extract (fuel : Nat) (q : Query) (st : BState)
    (s : String) (st' : BState)
    (htab : strAll noDollar q.table = true)
    (hsel : ∀ it ∈ q.sel, selStrAll noDollar it = true)
    (hord : ∀ o ∈ q.orderBy, strAll noDollar o.field = true)
    (hgrp : ∀ c ∈ q.groupBy, strAll noDollar c = true)
    (hhav : ∀ h ∈ q.having, strAll noDollar h.fn = true ∧
      strAll noDollar h.field = true ∧ strAll noDollar h.op = true)
    (hjoin : ∀ j ∈ q.join, strAll noDollar j.table = true ∧
      strAll noDollar j.joinType = true ∧
      ∀ pr ∈ j.onConds, strAll noDollar pr.1 = true ∧
        strAll noDollar pr.2 = true)
    (hconds : ∀ c ∈ q.whereC, CleanC c)
    (hb : buildAggregate PostgresDialect fuel q st = Except.ok (s, st')) :
    BRel st st' s := by
  have hs1D : strAll noDollar
      (if 0 < q.join.length then
        "SELECT " ++ buildSelectColumns PostgresDialect q.sel ++ " FROM " ++
          PostgresDialect.quote q.table ++ buildJoins PostgresDialect q.join
      else
        "SELECT " ++ buildSelectColumns PostgresDialect q.sel ++ " FROM " ++
          PostgresDialect.quote q.table) = true := by
    have hE1 : strAll noDollar
        ("SELECT " ++ buildSelectColumns PostgresDialect q.sel ++ " FROM " ++
          PostgresDialect.quote q.table) = true := by
      apply strAll_app2 noDollar
      apply strAll_app2 noDollar
      · apply strAll_app2 noDollar
        · decide
        · exact strAll_buildSelectColumns noDollar noDollar_lit
            noDollar_digit noDollar_upper q.sel hsel
      · decide
      · exact strAll_pgQuote noDollar (by decide) _ htab
    split
    · apply strAll_app2 noDollar _ _ hE1
      exact strAll_buildJoins noDollar noDollar_lit noDollar_digit
        noDollar_upper q.join hjoin
    · exact hE1
  rw [buildAggregate] at hb
  by_cases hwc : 0 < q.whereC.length
  · rw [if_pos hwc] at hb
    cases h1 : buildWhere PostgresDialect fuel q st with
    | error e =>
      rw [h1, excBind_err] at hb
      exact absurd hb (by simp)
    | ok pr1 =>
      obtain ⟨w, st3⟩ := pr1
      rw [h1, excBind_ok] at hb
      simp only [excBind_ok_match, excBind_ok, prodFst_mk, prodSnd_mk] at hb
      rw [buildWhere] at h1
      obtain ⟨hle1, hlen1, hex1⟩ :=
        (knot_extract fuel).2.1 q.whereC st w st3 hconds h1
      by_cases hhv : 0 < q.having.length
      · rw [if_pos hhv] at hb
        simp only [buildHavingM_eq, prodFst_mk, prodSnd_mk,
          Except.ok.injEq, Prod.mk.injEq] at hb
        obtain ⟨hs, hst⟩ := hb
        obtain ⟨hexH, hHN, hHL⟩ := buildHavingM_extract q.having hhav st3
        refine ⟨?_, ?_, ?_⟩
        · rw [← hst]; omega
        · rw [← hst]; omega
        · rw [← hs]
          rw [extract_ite_lit2 _ _ " ORDER BY " _ (by decide)
            (headSafe_mk _ ' ' rfl (by decide))
            (lastSafe_mk _ ' ' rfl (by decide) (by decide)) (by decide)
            (strAll_buildOrderBy noDollar noDollar_lit noDollar_digit
              noDollar_upper q.orderBy hord)]
          rw [extract_app_seg _ " HAVING " _ (by decide)
            (headSafe_mk _ ' ' rfl (by decide))
            (lastSafe_mk _ ' ' rfl (by decide) (by decide)) (by decide)]
          rw [extract_ite_lit2 _ _ " GROUP BY " _ (by decide)
            (headSafe_mk _ ' ' rfl (by decide))
            (lastSafe_mk _ ' ' rfl (by decide) (by decide)) (by decide)
            (strAll_buildGroupBy noDollar noDollar_lit noDollar_digit
              noDollar_upper q.groupBy hgrp)]
          rw [extract_app_seg _ " WHERE " _ (by decide)
            (headSafe_mk _ ' ' rfl (by decide))
            (lastSafe_mk _ ' ' rfl (by decide) (by decide)) (by decide)]
          rw [extractStr_noDollar _ hs1D, List.nil_append, hex1, hexH]
          rw [← hst]
          rw [range'_glue2 st.paramN st3.paramN q.having.length hle1, hHN]
      · rw [if_neg hhv] at hb
        simp only [Except.ok.injEq, Prod.mk.injEq] at hb
        obtain ⟨hs, hst⟩ := hb
        refine ⟨by rw [← hst]; exact hle1, by rw [← hst]; omega, ?_⟩
        rw [← hs]
        rw [extract_ite_lit2 _ _ " ORDER BY " _ (by decide)
          (headSafe_mk _ ' ' rfl (by decide))
          (lastSafe_mk _ ' ' rfl (by decide) (by decide)) (by decide)
          (strAll_buildOrderBy noDollar noDollar_lit noDollar_digit
            noDollar_upper q.orderBy hord)]
        rw [extract_ite_lit2 _ _ " GROUP BY " _ (by decide)
          (headSafe_mk _ ' ' rfl (by decide))
          (lastSafe_mk _ ' ' rfl (by decide) (by decide)) (by decide)
          (strAll_buildGroupBy noDollar noDollar_lit noDollar_digit
            noDollar_upper q.groupBy hgrp)]
        rw [extract_app_seg _ " WHERE " _ (by decide)
          (headSafe_mk _ ' ' rfl (by decide))
          (lastSafe_mk _ ' ' rfl (by decide) (by decide)) (by decide)]
        rw [extractStr_noDollar _ hs1D, List.nil_append, hex1, ← hst]
  · rw [if_neg hwc] at hb
    rw [excBind_ok] at hb
    simp only [excBind_ok_match, excBind_ok, prodFst_mk, prodSnd_mk] at hb
    by_cases hhv : 0 < q.having.length
    · rw [if_pos hhv] at hb
      simp only [buildHavingM_eq, prodFst_mk, prodSnd_mk,
        Except.ok.injEq, Prod.mk.injEq] at hb
      obtain ⟨hs, hst⟩ := hb
      obtain ⟨hexH, hHN, hHL⟩ := buildHavingM_extract q.having hhav st
      refine ⟨?_, ?_, ?_⟩
      · rw [← hst]; omega
      · rw [← hst]; omega
      · rw [← hs]
        rw [extract_ite_lit2 _ _ " ORDER BY " _ (by decide)
          (headSafe_mk _ ' ' rfl (by decide))
          (lastSafe_mk _ ' ' rfl (by decide) (by decide)) (by decide)
          (strAll_buildOrderBy noDollar noDollar_lit noDollar_digit
            noDollar_upper q.orderBy hord)]
        rw [extract_app_seg _ " HAVING " _ (by decide)
          (headSafe_mk _ ' ' rfl (by decide))
          (lastSafe_mk _ ' ' rfl (by decide) (by decide)) (by decide)]
        rw [extract_ite_lit2 _ _ " GROUP BY " _ (by decide)
          (headSafe_mk _ ' ' rfl (by decide))
          (lastSafe_mk _ ' ' rfl (by decide) (by decide)) (by decide)
          (strAll_buildGroupBy noDollar noDollar_lit noDollar_digit
            noDollar_upper q.groupBy hgrp)]
        rw [extractStr_noDollar _ hs1D, List.nil_append, hexH, ← hst,
          hHN]
        rw [show st.paramN + q.having.length - st.paramN =
          q.having.length by omega]
    · rw [if_neg hhv] at hb
      simp only [Except.ok.injEq, Prod.mk.injEq] at hb
      obtain ⟨hs, hst⟩ := hb
      refine ⟨by rw [← hst], by rw [← hst], ?_⟩
      rw [← hs]
      rw [extract_ite_lit2 _ _ " ORDER BY " _ (by decide)
        (headSafe_mk _ ' ' rfl (by decide))
        (lastSafe_mk _ ' ' rfl (by decide) (by decide)) (by decide)
        (strAll_buildOrderBy noDollar noDollar_lit noDollar_digit
          noDollar_upper q.orderBy hord)]
      rw [extract_ite_lit2 _ _ " GROUP BY " _ (by decide)
        (headSafe_mk _ ' ' rfl (by decide))
        (lastSafe_mk _ ' ' rfl (by decide) (by decide)) (by decide)
        (strAll_buildGroupBy noDollar noDollar_lit noDollar_digit
          noDollar_upper q.groupBy hgrp)]
      rw [extractStr_noDollar _ hs1D, ← hst]
      simp

set_option maxHeartbeats 1000000 in
theorem Build_extract (q : Query) (br : BuildResult) (hq : CleanQ q)
    (hb : Build PostgresDialect q = Except.ok br) :
    extractStr br.sql = List.range' 1 br.params.length := by
  cases hq with
  | mk q2 hstr hconds =>
  have hstr2 := hstr
  simp only [queryStrAll, Bool.and_eq_true, List.all_eq_true] at hstr2
  obtain ⟨⟨⟨⟨⟨⟨⟨htab, hsel⟩, hord⟩, hgrp⟩, hhav⟩, hjoin⟩, hdata⟩, hdb2⟩ :=
    hstr2
  have hhav' : ∀ h ∈ q.having, strAll noDollar h.fn = true ∧
      strAll noDollar h.field = true ∧ strAll noDollar h.op = true :=
    fun h hm => ⟨(hhav h hm).1.1, (hhav h hm).1.2, (hhav h hm).2⟩
  have hjoin' : ∀ j ∈ q.join, strAll noDollar j.table = true ∧
      strAll noDollar j.joinType = true ∧
      ∀ pr ∈ j.onConds, strAll noDollar pr.1 = true ∧
        strAll noDollar pr.2 = true :=
    fun j hm => ⟨(hjoin j hm).1.1, (hjoin j hm).1.2,
      fun pr hpr => (hjoin j hm).2 pr hpr⟩
  have hfin : ∀ (s0 : String) (stF : BState), BRel ⟨[], 0⟩ stF s0 →
      br = ⟨s0, stF.params⟩ →
      extractStr br.sql = List.range' 1 br.params.length := by
    intro s0 stF hrel hbr
    obtain ⟨hle, hlen, hex⟩ := hrel
    subst hbr
    show extractStr s0 = List.range' 1 stF.params.length
    have hlen' : stF.params.length = stF.paramN := by simpa using hlen
    rw [hex, hlen']
    norm_num
  simp only [Build] at hb
  split at hb
  · cases hres : buildSelectQ PostgresDialect (qsize q + 1) q ⟨[], 0⟩ with
    | error e => rw [hres, excBind_err] at hb; simp at hb
    | ok pr =>
      obtain ⟨s0, stF⟩ := pr
      rw [hres, excBind_ok] at hb
      simp only [excBind_ok_match, Except.ok.injEq] at hb
      exact hfin s0 stF ((knot_extract (qsize q + 1)).1 q ⟨[], 0⟩ s0 stF
        (CleanQ.mk q hstr hconds) hres) hb.symm
  · cases hres : buildInsert PostgresDialect q ⟨[], 0⟩ with
    | error e => rw [hres, excBind_err] at hb; simp at hb
    | ok pr =>
      obtain ⟨s0, stF⟩ := pr
      rw [hres, excBind_ok] at hb
      simp only [excBind_ok_match, Except.ok.injEq] at hb
      exact hfin s0 stF
        (buildInsert_extract q ⟨[], 0⟩ s0 stF htab hdata hres) hb.symm
  · cases hres : buildInsertBatch PostgresDialect q ⟨[], 0⟩ with
    | error e => rw [hres, excBind_err] at hb; simp at hb
    | ok pr =>
      obtain ⟨s0, stF⟩ := pr
      rw [hres, excBind_ok] at hb
      simp only [excBind_ok_match, Except.ok.injEq] at hb
      exact hfin s0 stF
        (buildInsertBatch_extract q ⟨[], 0⟩ s0 stF htab hdb2 hres) hb.symm
  · cases hres : buildUpdate PostgresDialect (qsize q + 1) q ⟨[], 0⟩ with
    | error e => rw [hres, excBind_err] at hb; simp at hb
    | ok pr =>
      obtain ⟨s0, stF⟩ := pr
      rw [hres, excBind_ok] at hb
      simp only [excBind_ok_match, Except.ok.injEq] at hb
      exact hfin s0 stF (buildUpdate_extract (qsize q + 1) q ⟨[], 0⟩ s0 stF
        htab hdata hconds hres) hb.symm
  · cases hres : buildDelete PostgresDialect (qsize q + 1) q ⟨[], 0⟩ with
    | error e => rw [hres, excBind_err] at hb; simp at hb
    | ok pr =>
      obtain ⟨s0, stF⟩ := pr
      rw [hres, excBind_ok] at hb
      simp only [excBind_ok_match, Except.ok.injEq] at hb
      exact hfin s0 stF (buildDelete_extract (qsize q + 1) q ⟨[], 0⟩ s0 stF
        htab hconds hres) hb.symm
  · cases hres : buildCount PostgresDialect (qsize q + 1) q ⟨[], 0⟩ with
    | error e => rw [hres, excBind_err] at hb; simp at hb
    | ok pr =>
      obtain ⟨s0, stF⟩ := pr
      rw [hres, excBind_ok] at hb
      simp only [excBind_ok_match, Except.ok.injEq] at hb
      exact hfin s0 stF (buildCount_extract (qsize q + 1) q ⟨[], 0⟩ s0 stF
        htab hconds hres) hb.symm
  · cases hres : buildAggregate PostgresDialect (qsize q + 1) q ⟨[], 0⟩ with
    | error e => rw [hres, excBind_err] at hb; simp at hb
    | ok pr =>
      obtain ⟨s0, stF⟩ := pr
      rw [hres, excBind_ok] at hb
      simp only [excBind_ok_match, Except.ok.injEq] at hb
      exact hfin s0 stF (buildAggregate_extract (qsize q + 1) q ⟨[], 0⟩
        s0 stF htab hsel hord hgrp hhav' hjoin' hconds hres) hb.symm
  · rw [excBind_err] at hb; simp at hb

/-- Concrete predicate for the C2 witness. -/
def c2cond : Condition := .mk "age" ">" (.vInt 18) false "" none [] []

/-- Concrete update query for the C2 witness: one SET binding and one
WHERE predicate, so two placeholders. -/
def c2q : Query :=
  .mk "users" "update" [c2cond] [("name", .vStr "x")] [] [] [] [] []
    0 0 [] [] ""

/-- Expected build result for `c2q`. -/
def c2br : BuildResult :=
  ⟨"UPDATE \"users\" SET \"name\" = $1 WHERE \"age\" > $2",
   [.vStr "x", .vInt 18]⟩

/-- C2: whenever `Build` succeeds on a dollar-free query, the SQL text
holds exactly the placeholders `$1 … $n` in left-to-right order, where
`n` is the number of collected parameters — so the i-th parameter
belongs to the i-th placeholder, including parameters allocated inside
nested condition groups and subqueries, which share the same counter
and are merged back in order. -/
theorem c2_placeholder_param_alignment :
    ∀ (q : Query) (br : BuildResult), CleanQ q →
      Build PostgresDialect q = Except.ok br →
      extractStr br.sql = List.range' 1 br.params.length :=
  fun q br hq hb => Build_extract q br hq hb

/-- Witness for C2 at a concrete two-placeholder update. -/
theorem c2_placeholder_param_alignment_witness :
    CleanQ c2q ∧ Build PostgresDialect c2q = Except.ok c2br ∧
      extractStr c2br.sql = List.range' 1 c2br.params.length := by
  have hcl : CleanQ c2q := CleanQ.mk c2q (by decide) (by
    intro c hc
    simp only [c2q, Query.whereC, List.mem_singleton] at hc
    subst hc
    exact CleanC.mk c2cond (by decide) (by decide) (by decide)
      (fun sq h => by simp [c2cond, Condition.subquery] at h)
      (fun c' h => by simp [c2cond, Condition.andG] at h)
      (fun c' h => by simp [c2cond, Condition.orGroup] at h))
  exact ⟨hcl, rfl, c2_placeholder_param_alignment c2q c2br hcl rfl⟩
